import Mathlib

/-!
Verification of the Mucklet Sleeper Filter userscript (src/sleeplist.user.js,
version 1.1.1).

The script manipulates a live DOM tree.  We embed the DOM shallowly:

* `NodeData` carries the attributes the script reads or writes: the tag name,
  the `id` attribute, the class list, the text content and the `src`
  attribute of images.  Event listeners, inline styles and other attributes
  are never inspected by the script's filtering logic and are not modelled.
* `Elem` is a rose tree of such nodes.  A document is the root `Elem`
  (the document element); `document.querySelector` searches the whole tree
  in preorder (document order), `section.querySelector` searches the strict
  descendants of a node.
* JavaScript holds live node references while mutating the tree.  We model
  each mutation as a whole-tree rewrite that relocates its target by the
  same selector the script used.  Wherever a relocation could disagree with
  a live reference (only in degenerate documents, e.g. when the injected
  sleepers section contains the main character section), the theorems carry
  explicit well-formedness hypotheses ruling the degenerate shapes out.
* `applyFilter` returns the rewritten document together with a flag that is
  `true` when the corresponding DOM call would throw (`insertBefore` with a
  reference node that is not a child, or a null `parentElement`).
-/

structure NodeData where
  tag : String
  idAttr : Option String
  classes : List String
  text : String
  src : Option String
deriving DecidableEq, Repr

inductive Elem where
  | node : NodeData → List Elem → Elem
deriving Repr

mutual

def Elem.deq : (a b : Elem) → Decidable (a = b)
  | .node d cs, .node d' cs' =>
    match decEq d d', Elem.deqList cs cs' with
    | isTrue h1, isTrue h2 => isTrue (by rw [h1, h2])
    | isFalse h1, _ => isFalse (by intro h; cases h; exact h1 rfl)
    | _, isFalse h2 => isFalse (by intro h; cases h; exact h2 rfl)

def Elem.deqList : (a b : List Elem) → Decidable (a = b)
  | [], [] => isTrue rfl
  | _ :: _, [] => isFalse (by intro h; cases h)
  | [], _ :: _ => isFalse (by intro h; cases h)
  | a :: as, b :: bs =>
    match Elem.deq a b, Elem.deqList as bs with
    | isTrue h1, isTrue h2 => isTrue (by rw [h1, h2])
    | isFalse h1, _ => isFalse (by intro h; cases h; exact h1 rfl)
    | _, isFalse h2 => isFalse (by intro h; cases h; exact h2 rfl)

end

instance : DecidableEq Elem := Elem.deq

def Elem.data : Elem → NodeData
  | .node d _ => d

def Elem.childList : Elem → List Elem
  | .node _ cs => cs

/-- `classList.contains` on an element. -/
def Elem.hasClass (e : Elem) (c : String) : Bool := e.data.classes.contains c

/-- `classList.remove c`: every occurrence of the token is dropped. -/
def removeClass (c : String) (d : NodeData) : NodeData :=
  { d with classes := d.classes.filter (fun x => x ≠ c) }

/-- `classList.add c`: appended when absent, otherwise unchanged. -/
def addClass (c : String) (d : NodeData) : NodeData :=
  if d.classes.contains c then d else { d with classes := d.classes ++ [c] }

mutual

/-- All nodes of a subtree in preorder (document order), the root first. -/
def Elem.allNodes : Elem → List Elem
  | .node d cs => .node d cs :: allNodesList cs

def allNodesList : List Elem → List Elem
  | [] => []
  | c :: cs => c.allNodes ++ allNodesList cs

end

/-- The strict descendants of a node in document order: the node set
`el.querySelectorAll(...)` ranges over. -/
def Elem.descendants (e : Elem) : List Elem := allNodesList e.childList

mutual

/-- Rewrite the data of every node (of the subtree rooted here, the root
included) whose current subtree satisfies `p`.  The predicate is evaluated
against the original tree: all the rewrites the script performs this way
either have order-independent predicates or are applied through snapshot
`querySelectorAll` lists, which corresponds to evaluating `p` on the
un-rewritten tree. -/
def Elem.mapMatching (p : Elem → Bool) (f : NodeData → NodeData) : Elem → Elem
  | .node d cs =>
      .node (if p (.node d cs) then f d else d) (mapMatchingList p f cs)

def mapMatchingList (p : Elem → Bool) (f : NodeData → NodeData) : List Elem → List Elem
  | [] => []
  | c :: cs => Elem.mapMatching p f c :: mapMatchingList p f cs

end

mutual

/-- Path (list of child indices) of the first node in preorder whose data
satisfies `p`; `some []` is the root itself.  This is `querySelector` for
the selectors the script uses, all of which only inspect a node's own
class list or id. -/
def findFirstPath (p : NodeData → Bool) : Elem → Option (List Nat)
  | .node d cs =>
      if p d then some [] else (findFirstPathChildren p cs).map (fun x => x.1 :: x.2)

def findFirstPathChildren (p : NodeData → Bool) : List Elem → Option (Nat × List Nat)
  | [] => none
  | c :: cs =>
      match findFirstPath p c with
      | some q => some (0, q)
      | none => (findFirstPathChildren p cs).map (fun x => (x.1 + 1, x.2))

end

/-- `el.querySelector(sel)` as a path relative to `el` (strict descendants
only, first in document order). -/
def qselPath (p : NodeData → Bool) (e : Elem) : Option (List Nat) :=
  (findFirstPathChildren p e.childList).map (fun x => x.1 :: x.2)

def getAt : Elem → List Nat → Option Elem
  | e, [] => some e
  | .node _ cs, i :: q =>
      match cs.get? i with
      | some c => getAt c q
      | none => none

def modifyAt (f : Elem → Elem) : Elem → List Nat → Elem
  | e, [] => f e
  | .node d cs, i :: q =>
      match cs.get? i with
      | some c => .node d (cs.set i (modifyAt f c q))
      | none => .node d cs

/-- `node.remove()` for the node at a (non-root) path. -/
def removeAt : Elem → List Nat → Elem
  | e, [] => e
  | .node d cs, [i] => .node d (cs.eraseIdx i)
  | .node d cs, i :: q =>
      match cs.get? i with
      | some c => .node d (cs.set i (removeAt c q))
      | none => .node d cs

def insertListAt (l : List α) (i : Nat) (a : α) : List α :=
  l.take i ++ a :: l.drop i

/-- Insert `x` as a new child of the node at `path`, before the existing
child at index `i` (`parent.insertBefore(x, parent.children[i])`). -/
def insertChildAt (doc : Elem) (path : List Nat) (i : Nat) (x : Elem) : Elem :=
  modifyAt (fun e => .node e.data (insertListAt e.childList i x)) doc path

/-- Append `x` as the last child of the node at `path` (`appendChild`). -/
def appendChildAt (doc : Elem) (path : List Nat) (x : Elem) : Elem :=
  modifyAt (fun e => .node e.data (e.childList ++ [x])) doc path

/-!
## Character state detection (src/sleeplist.user.js lines 169-183)
-/

def levelAsleep : String := "common--level-asleep"
def levelInactive : String := "common--level-inactive"

/-- Marker test used by the classifier: the node carries `common--level-asleep`
or `common--level-inactive`. -/
def sleeperMarker (e : Elem) : Bool :=
  e.hasClass levelAsleep || e.hasClass levelInactive

/-- `isSleeperChar(charEl)`: the element itself is checked first, then its
descendants through `querySelector('.common--level-asleep, .common--level-inactive')`. -/
def isSleeperChar (charEl : Elem) : Bool :=
  if charEl.hasClass levelAsleep || charEl.hasClass levelInactive then
    true
  else if charEl.descendants.any sleeperMarker then
    true
  else
    false

/-!
## DOM locators (lines 227-272)
-/

/-- Selector `.panelsection.pageroom--chars`. -/
def inRoomSel (d : NodeData) : Bool :=
  d.classes.contains "panelsection" && d.classes.contains "pageroom--chars"

/-- `findInRoomSection`: `document.querySelector('.panelsection.pageroom--chars')`.
The returned `header` (first h3 inside the section) is unused by
`applyFilter`, so we return only the path of the section. -/
def findInRoomSection (doc : Elem) : Option (List Nat) :=
  findFirstPath inRoomSel doc

def charSel (d : NodeData) : Bool := d.classes.contains "pageroom-char"

/-- `getCharElements(section)`: `section.querySelectorAll('.pageroom-char')`. -/
def getCharElements (s : Elem) : List Elem :=
  s.descendants.filter (fun e => e.hasClass "pageroom-char")

def exitCharSel (d : NodeData) : Bool :=
  d.classes.contains "pageroom-exitchars--char"

/-- `getExitCharElements()`: `document.querySelectorAll('.pageroom-exitchars--char')`. -/
def getExitCharElements (doc : Elem) : List Elem :=
  doc.allNodes.filter (fun e => e.hasClass "pageroom-exitchars--char")

/-!
## UI components (lines 281-382)
-/

def hiddenChar : String := "msf-hidden-char"

/-- `createToggle()`.  The click listener (which flips `splitEnabled`) is
behaviour of the browser event loop, not of a single `applyFilter` pass, and
is not part of the tree value. -/
def createToggle (splitEnabled : Bool) : Elem :=
  .node ⟨"div", none, ["msf-toggle-container"], "", none⟩
    [ .node ⟨"div", none,
        if splitEnabled then ["msf-toggle-switch", "active"] else ["msf-toggle-switch"],
        "", none⟩ [],
      .node ⟨"span", none, ["msf-toggle-label"], "Hide sleepers (split)", none⟩ [] ]

def noSleepersPlaceholder : Elem :=
  .node ⟨"div", none, ["msf-no-sleepers-placeholder"], "No sleepers in room.", none⟩ []

def noAwakePlaceholder : Elem :=
  .node ⟨"div", none, ["msf-no-awake-placeholder"], "No one awake in room.", none⟩ []

/-- The per-clone cleanup in `createSleepersSection`:
`clone.classList.remove('msf-hidden-char')` on the root followed by
`clone.querySelectorAll('.msf-hidden-char').forEach(child => child.classList.remove(...))`
on every descendant.  `cloneNode(true)` copies the whole subtree and no
event listeners, which in this model is the subtree value itself. -/
def cloneStripHidden (el : Elem) : Elem :=
  .node (removeClass hiddenChar el.data)
    (mapMatchingList (fun e => e.hasClass hiddenChar) (removeClass hiddenChar) el.childList)

/-- `createSleepersSection(sleeperElements)` (lines 309-382). -/
def createSleepersSection (sleepersOpen : Bool) (sleeperElements : List Elem) : Elem :=
  .node ⟨"div", some "msf-sleepers-section", ["msf-sleepers-section"], "", none⟩
    [ .node ⟨"div", none, ["msf-sleepers-header"], "", none⟩
        [ .node ⟨"span", none,
            (if sleepersOpen then ["msf-sleepers-arrow", "open"] else ["msf-sleepers-arrow"]),
            "►", none⟩ [],
          .node ⟨"span", none, [], "Sleepers", none⟩ [],
          .node ⟨"span", none, ["msf-sleepers-count"],
            "(" ++ toString sleeperElements.length ++ ")", none⟩ [] ],
      .node ⟨"div", none,
        (if sleepersOpen then ["msf-sleepers-list"] else ["msf-sleepers-list", "collapsed"]),
        "", none⟩
        (if sleeperElements.length == 0 then [noSleepersPlaceholder]
         else sleeperElements.map cloneStripHidden) ]

/-!
## Exit-character filtering (lines 484-515)
-/

/-- `src.split('?')[0]`: the prefix before the first question mark (the whole
string when there is none). -/
def stripQuery (s : String) : String :=
  String.mk (s.toList.takeWhile (fun c => c ≠ '?'))

mutual

/-- `el.querySelector('.avatar img')` scoped to `el`'s subtree: the first
descendant `img` having an ancestor (within the subtree, `el` included)
of class `avatar`, in document order. -/
def findAvatarImg (underAvatar : Bool) : Elem → Option Elem
  | .node d cs =>
      if underAvatar && d.tag == "img" then some (.node d cs)
      else findAvatarImgList (underAvatar || d.classes.contains "avatar") cs

def findAvatarImgList (u : Bool) : List Elem → Option Elem
  | [] => none
  | c :: cs =>
      match findAvatarImg u c with
      | some r => some r
      | none => findAvatarImgList u cs

end

def avatarImg (el : Elem) : Option Elem :=
  findAvatarImgList (el.hasClass "avatar") el.childList

/-- The avatar base-URL set collected from the identified sleepers
(`sleeperAvatarUrls` in `filterExitChars`); an `img` with an empty or absent
`src` is skipped (`if (img && img.src)`). -/
def sleeperAvatarUrls (sleepers : List Elem) : List String :=
  sleepers.filterMap (fun el =>
    match avatarImg el with
    | some img =>
        match img.data.src with
        | some s => if s ≠ "" then some (stripQuery s) else none
        | none => none
    | none => none)

/-- `exitChar.querySelector('img')`. -/
def firstImg (el : Elem) : Option Elem :=
  el.descendants.find? (fun e => e.data.tag == "img")

/-- The `src` the exit-char loop reads, `none` when `!img || !img.src`. -/
def exitCharSrc (el : Elem) : Option String :=
  match firstImg el with
  | some img =>
      match img.data.src with
      | some s => if s ≠ "" then some s else none
      | none => none
  | none => none

/-- Does `filterExitChars` hide this exit char, given the sleeper avatar
URL set? (`sleeperAvatarUrls.has(img.src.split('?')[0])`). -/
def exitCharMatches (urls : List String) (el : Elem) : Bool :=
  match exitCharSrc el with
  | some s => urls.contains (stripQuery s)
  | none => false

/-- The reset loop of `filterExitChars` (and of the `!splitEnabled` branch of
`applyFilter`): remove `msf-hidden-char` from every
`.pageroom-exitchars--char.msf-hidden-char` in the document. -/
def exitResetStep : Elem → Elem :=
  Elem.mapMatching
    (fun e => e.hasClass "pageroom-exitchars--char" && e.hasClass hiddenChar)
    (removeClass hiddenChar)

/-- The hide loop of `filterExitChars`: add `msf-hidden-char` to every
`.pageroom-exitchars--char` whose avatar base URL is in the sleeper set. -/
def exitHideStep (urls : List String) : Elem → Elem :=
  Elem.mapMatching
    (fun e => e.hasClass "pageroom-exitchars--char" && exitCharMatches urls e)
    (addClass hiddenChar)

/-- `filterExitChars(sleeperElements)` (lines 484-515).  `sleeperElements`
is the snapshot array of identified sleepers; only class tokens unrelated to
the data read here are mutated between its creation and this call, so
passing the subtree values is faithful. -/
def filterExitChars (splitEnabled : Bool) (sleeperElements : List Elem) (doc : Elem) : Elem :=
  let doc1 := exitResetStep doc
  if !splitEnabled || sleeperElements.length == 0 then doc1
  else
    let urls := sleeperAvatarUrls sleeperElements
    if urls.length == 0 then doc1
    else exitHideStep urls doc1

/-!
## Main filter pass (lines 388-471)
-/

def ssId : String := "msf-sleepers-section"

def ssIdSel (d : NodeData) : Bool := d.idAttr == some ssId

def toggleSel (d : NodeData) : Bool := d.classes.contains "msf-toggle-container"

def noAwakeSel (d : NodeData) : Bool := d.classes.contains "msf-no-awake-placeholder"

def titleSel (d : NodeData) : Bool := d.classes.contains "panelsection--title"

def inroomHeaderSel (d : NodeData) : Bool := d.classes.contains "pageroom--inroomheader"

/-- The reset loop over the `getCharElements` snapshot
(`el.classList.remove('msf-hidden-char')` for each `.pageroom-char`
descendant of the section), as a rewrite of the section subtree. -/
def resetCharsIn (s : Elem) : Elem :=
  .node s.data
    (mapMatchingList (fun e => e.hasClass "pageroom-char") (removeClass hiddenChar) s.childList)

/-- The classification loop: `el.classList.add('msf-hidden-char')` for each
`.pageroom-char` descendant accepted by `isSleeperChar`. -/
def hideSleepersIn (s : Elem) : Elem :=
  .node s.data
    (mapMatchingList (fun e => e.hasClass "pageroom-char" && isSleeperChar e)
      (addClass hiddenChar) s.childList)

/-- The body of the `splitEnabled` branch from the point where the toggle
has been ensured (lines 428-471): `doc4` is the document, `sp` the path of
the in-room section.  Returns the final document and the thrown flag. -/
def applyFilterSplit (sleepersOpen : Bool) (doc4 : Elem) (sp : List Nat) : Elem × Bool :=
  match getAt doc4 sp with
  | none => (doc4, false)
  | some s4 =>
    let charEls := getCharElements s4
    let awakeLen := (charEls.filter (fun e => !isSleeperChar e)).length
    -- sleepers.push(el); el.classList.add('msf-hidden-char')
    let doc5 := modifyAt hideSleepersIn doc4 sp
    -- "no one awake" placeholder appended to charElements[0].parentElement
    let doc6 :=
      if awakeLen == 0 && !charEls.isEmpty then
        match getAt doc5 sp with
        | some s5 =>
            match qselPath charSel s5 with
            | some cp => appendChildAt doc5 (sp ++ cp.dropLast) noAwakePlaceholder
            | none => doc5
        | none => doc5
      else doc5
    -- build the sleepers section from the current sleeper set and insert it
    -- after the in-room section
    let sleepersNow :=
      match getAt doc6 sp with
      | some s6 => (getCharElements s6).filter isSleeperChar
      | none => []
    let ss := createSleepersSection sleepersOpen sleepersNow
    match sp.getLast? with
    | none => (doc6, true)  -- section.parentElement is null: the call throws
    | some i =>
      let doc7 := insertChildAt doc6 sp.dropLast (i + 1) ss
      let sleepersFinal :=
        match getAt doc7 sp with
        | some s7 => (getCharElements s7).filter isSleeperChar
        | none => []
      (filterExitChars true sleepersFinal doc7, false)

/-- `applyFilter()` (lines 388-471), parameterised by the two persisted
preferences.  The second component is `true` when the pass throws. -/
def applyFilter (splitEnabled sleepersOpen : Bool) (doc : Elem) : Elem × Bool :=
  match findInRoomSection doc with
  | none => (doc, false)
  | some _ =>
    -- Remove any existing sleepers section we created
    let doc1 :=
      match findFirstPath ssIdSel doc with
      | some (i :: q) => removeAt doc (i :: q)
      | _ => doc  -- absent, or the document element itself: nothing removed
    -- `section` is a live reference; relocating it after the removal agrees
    -- with the reference whenever the removed subtree did not contain it
    match findInRoomSection doc1 with
    | none => (doc1, false)
    | some sp =>
      match getAt doc1 sp with
      | none => (doc1, false)
      | some s1 =>
        let existingToggle := (qselPath toggleSel s1).isSome
        -- Reset all chars to visible first
        let doc2 := modifyAt resetCharsIn doc1 sp
        -- Remove any "no awake" placeholder we might have added
        let doc3 :=
          match getAt doc2 sp with
          | some s2 =>
              match qselPath noAwakeSel s2 with
              | some rp => removeAt doc2 (sp ++ rp)
              | none => doc2
          | none => doc2
        -- Ensure toggle exists: insert inside .panelsection--title, before
        -- .pageroom--inroomheader
        let tRes : Elem × Bool :=
          if existingToggle then (doc3, false)
          else
            match getAt doc3 sp with
            | none => (doc3, false)
            | some s3 =>
              match qselPath titleSel s3, qselPath inroomHeaderSel s3 with
              | some tp, some hp =>
                  if hp.take tp.length == tp && hp.length == tp.length + 1 then
                    (insertChildAt doc3 (sp ++ tp) (hp.getLastD 0) (createToggle splitEnabled),
                     false)
                  else
                    (doc3, true)  -- insertBefore with a non-child reference throws
              | _, _ => (doc3, false)
        match tRes with
        | (doc4, true) => (doc4, true)
        | (doc4, false) =>
          if !splitEnabled then
            -- Unhide any exit chars we previously hid, then return
            (exitResetStep doc4, false)
          else
            applyFilterSplit sleepersOpen doc4 sp

/-!
## Mutation observer (lines 531-579)
-/

/-- A record of a `MutationRecord`: the target's path in the document and
the sizes of `addedNodes` / `removedNodes`. -/
structure MutationRec where
  targetPath : List Nat
  addedNodes : Nat
  removedNodes : Nat
deriving DecidableEq, Repr

/-- `target.closest(sel)` is truthy: some ancestor-or-self satisfies `p`. -/
def closestHolds (doc : Elem) (path : List Nat) (p : NodeData → Bool) : Bool :=
  (List.range (path.length + 1)).any (fun k =>
    match getAt doc (path.take k) with
    | some e => p e.data
    | none => false)

/-- `element.className.toString()`: the space-joined class list. -/
def className (e : Elem) : String := String.intercalate " " e.data.classes

/-- `s.includes(sub)`. -/
def strIncludes (s sub : String) : Bool := decide (sub.toList <:+: s.toList)

/-- One iteration of the observer callback's mutation loop (lines 538-565):
`true` when this mutation makes the callback set `shouldReapply`. -/
def mutationTriggers (doc : Elem) (m : MutationRec) : Bool :=
  match getAt doc m.targetPath with
  | none => false
  | some t =>
    if closestHolds doc m.targetPath ssIdSel
        || closestHolds doc m.targetPath toggleSel
        || t.hasClass "msf-hidden-char"
        || t.hasClass "msf-sleepers-list"
        || t.hasClass "msf-sleepers-arrow" then
      false
    else
      let cls := className t
      strIncludes cls "pageroom" || strIncludes cls "panelsection"
        || strIncludes cls "common--level" || strIncludes cls "fader"
        || strIncludes cls "badge"
        || m.addedNodes > 0 || m.removedNodes > 0

/-- The observer callback schedules a debounced `applyFilter` exactly when
some mutation of the batch triggers (the loop breaks at the first one). -/
def observerSchedules (doc : Elem) (ms : List MutationRec) : Bool :=
  ms.any (mutationTriggers doc)

/-!
## One-hole contexts and cleanliness predicates

`plugCtx ctx S` is an arbitrary document containing the subtree `S`; every
document in which the in-room section occurs decomposes this way.  The
idempotence and unified-pass theorems quantify over such decompositions.
-/

/-- One layer of a one-hole context: the data of an ancestor node together
with the siblings to the left and to the right of the hole. -/
structure CtxLayer where
  data : NodeData
  left : List Elem
  right : List Elem

/-- Plug a subtree into a context (outermost layer first). -/
def plugCtx : List CtxLayer → Elem → Elem
  | [], e => e
  | L :: ls, e => .node L.data (L.left ++ plugCtx ls e :: L.right)

/-- The path of the hole. -/
def holePath (ctx : List CtxLayer) : List Nat := ctx.map (fun L => L.left.length)

/-- The path of the sibling right after the hole. -/
def sibPath : List CtxLayer → List Nat
  | [] => []
  | [L] => [L.left.length + 1]
  | L :: ls => L.left.length :: sibPath ls

/-- Insert `x` as the sibling immediately following the hole. -/
def ctxInsAfter : List CtxLayer → Elem → List CtxLayer
  | [], _ => []
  | [L], x => [⟨L.data, L.left, x :: L.right⟩]
  | L :: ls, x => L :: ctxInsAfter ls x

/-- Map a tree transformation over every sibling subtree of a context,
leaving the layer data unchanged. -/
def ctxMapSib (M : Elem → Elem) (ctx : List CtxLayer) : List CtxLayer :=
  ctx.map (fun L => ⟨L.data, L.left.map M, L.right.map M⟩)

/-- No node of the subtree has data satisfying `p`. -/
def dataNoneP (p : NodeData → Bool) (e : Elem) : Bool :=
  e.allNodes.all (fun n => !p n.data)

def listNoneP (p : NodeData → Bool) (l : List Elem) : Bool := l.all (dataNoneP p)

/-- Number of nodes of the subtree whose data satisfies `p`. -/
def countP (p : NodeData → Bool) (e : Elem) : Nat :=
  e.allNodes.countP (fun n => p n.data)

def countLP (p : NodeData → Bool) (l : List Elem) : Nat := (l.map (countP p)).sum

/-- A node data carrying any of the script's injected artifacts. -/
def msfP (d : NodeData) : Bool :=
  ssIdSel d || toggleSel d || noAwakeSel d || d.classes.contains hiddenChar

def exitSel (d : NodeData) : Bool := d.classes.contains "pageroom-exitchars--char"

def hidSel (d : NodeData) : Bool := d.classes.contains hiddenChar

/-- The classified sleeper set of a section subtree. -/
def sleepersOf (s : Elem) : List Elem := (getCharElements s).filter isSleeperChar

/-- The classified awake count of a section subtree. -/
def awakeCount (s : Elem) : Nat :=
  ((getCharElements s).filter (fun e => !isSleeperChar e)).length

/-- The section subtree with the toggle control inserted at its anchor. -/
def togSectionOf (splitEnabled : Bool) (tp : List Nat) (k : Nat) (S : Elem) : Elem :=
  insertChildAt S tp k (createToggle splitEnabled)

/-- The split steps on an already-toggled section subtree `t`: sleepers
hidden, and the no-awake placeholder appended when nobody is awake. -/
def splitSecOfT (t : Elem) : Elem :=
  let h := hideSleepersIn t
  if awakeCount t == 0 && !(getCharElements t).isEmpty then
    match qselPath charSel h with
    | some cp => appendChildAt h cp.dropLast noAwakePlaceholder
    | none => h
  else h

/-- The section subtree after the split steps: toggle inserted, sleepers
hidden, and the no-awake placeholder appended when nobody is awake. -/
def splitSectionOf (splitEnabled : Bool) (tp : List Nat) (k : Nat) (S : Elem) : Elem :=
  splitSecOfT (togSectionOf splitEnabled tp k S)

/-- The whole-document result of a split pass over a pristine decomposition. -/
def splitDocOf (sleepersOpen : Bool) (ctx : List CtxLayer) (tp : List Nat) (k : Nat)
    (S : Elem) : Elem :=
  let s1 := splitSectionOf true tp k S
  let sl := sleepersOf s1
  filterExitChars true sl
    (plugCtx (ctxInsAfter ctx (createSleepersSection sleepersOpen sl)) s1)

/-- The net effect of `filterExitChars` on a document whose exit state was
already reset: hide the matching exit chars when the pass hides anything. -/
def exitMark (sl : List Elem) (T : Elem) : Elem :=
  if sl.length == 0 then T
  else if (sleeperAvatarUrls sl).length == 0 then T
  else exitHideStep (sleeperAvatarUrls sl) T

/-- Number of nodes satisfying `p` among the sibling parts of a context. -/
def ctxCount (p : NodeData → Bool) (ctx : List CtxLayer) : Nat :=
  (ctx.map (fun L =>
    (if p L.data then 1 else 0) + countLP p L.left + countLP p L.right)).sum

/-- A well-formed pristine room document decomposition: the in-room section
`S` sits at the hole of `ctx` and is the first `.panelsection.pageroom--chars`
match; no node of the document carries any of the script's artifacts yet; the
section holds no exit thumbnails and no ancestor of it is an exit thumbnail;
inside `S` the title bar is at `tp` and the in-room header is its child
at index `k` of the title. -/
def pristineRoom (ctx : List CtxLayer) (S : Elem) (tp : List Nat) (k : Nat) : Bool :=
  !ctx.isEmpty
  && inRoomSel S.data
  && dataNoneP msfP (plugCtx ctx S)
  && dataNoneP exitSel S
  && ctx.all (fun L => !inRoomSel L.data && !exitSel L.data && listNoneP inRoomSel L.left)
  && decide (qselPath titleSel S = some tp)
  && decide (qselPath inroomHeaderSel S = some (tp ++ [k]))

/-- The sleeper subtrees cloned into the sleepers section carry no toggle
control and no no-awake placeholder (rules out main-list entries nested
inside one another in a way that would capture injected artifacts). -/
def cloneClean (tp : List Nat) (k : Nat) (S : Elem) : Bool :=
  (sleepersOf (splitSectionOf true tp k S)).all
    (fun e => dataNoneP toggleSel e && dataNoneP noAwakeSel e)

/-!
## Concrete documents used to instantiate the theorems
-/

def imgW (u : String) : Elem := .node ⟨"img", none, [], "", some u⟩ []

def sleeperCharW : Elem :=
  .node ⟨"div", none, ["pageroom-char"], "", none⟩
    [ .node ⟨"div", none, ["avatar"], "", none⟩ [imgW "http://img/1?thumb=s"],
      .node ⟨"div", none, ["pageroom-char--name", "common--level-asleep"], "", none⟩ [] ]

def awakeCharW : Elem :=
  .node ⟨"div", none, ["pageroom-char"], "", none⟩
    [ .node ⟨"div", none, ["avatar"], "", none⟩ [imgW "http://img/2?thumb=s"],
      .node ⟨"div", none, ["pageroom-char--name", "common--level-active"], "", none⟩ [] ]

/-- An exit thumbnail currently hidden whose avatar matches no sleeper. -/
def exitHiddenW : Elem :=
  .node ⟨"div", none, ["pageroom-exitchars--char", "msf-hidden-char"], "", none⟩
    [imgW "http://img/2?thumb=m"]

/-- An exit thumbnail whose avatar matches the sleeper above. -/
def exitMatchW : Elem :=
  .node ⟨"div", none, ["pageroom-exitchars--char"], "", none⟩
    [imgW "http://img/1?thumb=m"]

/-- A sleeper char whose root and one descendant carry the hidden marker. -/
def hiddenSleeperW : Elem :=
  .node ⟨"div", none, ["pageroom-char", "msf-hidden-char"], "", none⟩
    [ .node ⟨"div", none, ["msf-hidden-char", "badge--select"], "", none⟩ [],
      .node ⟨"div", none, ["pageroom-char--name", "common--level-asleep"], "", none⟩ [] ]

/-- The text of the count label of a built sleepers section: header is child
0 of the section, the count span is child 2 of the header. -/
def sectionCountText (s : Elem) : Option String :=
  (s.childList.get? 0).bind (fun h => (h.childList.get? 2).map (fun c => c.data.text))

/-- The entry list of the body of a built sleepers section (child 1). -/
def sectionBody (s : Elem) : Option (List Elem) :=
  (s.childList.get? 1).map Elem.childList

/-- A document whose only child is an (empty) injected sleepers section. -/
def obsInjDocW : Elem :=
  .node ⟨"div", none, [], "", none⟩ [createSleepersSection false []]

/-- A document whose only child is the injected no-awake placeholder. -/
def obsPhDocW : Elem :=
  .node ⟨"div", none, [], "", none⟩ [noAwakePlaceholder]

/-- A pristine in-room section: title bar (h3 then in-room header), then a
wrapper holding one sleeping and one awake character entry. -/
def sectionW : Elem :=
  .node ⟨"div", none, ["panelsection", "pageroom--chars"], "", none⟩
    [ .node ⟨"div", none, ["panelsection--title"], "", none⟩
        [ .node ⟨"h3", none, [], "In room", none⟩ [],
          .node ⟨"div", none, ["pageroom--inroomheader"], "", none⟩ [] ],
      .node ⟨"div", none, [], "", none⟩ [sleeperCharW, awakeCharW] ]

/-- A one-layer context: the page root with an exit-chars section to the
right of the in-room section. -/
def ctxW : List CtxLayer :=
  [⟨⟨"div", none, [], "", none⟩, [],
    [ .node ⟨"div", none, ["pageroom-exitchars"], "", none⟩ [exitMatchW] ]⟩]

/-!
## Structural lemmas
-/

theorem Elem.inductionOn {motive : Elem → Prop}
    (h : ∀ d cs, (∀ c ∈ cs, motive c) → motive (Elem.node d cs)) : ∀ e, motive e := by
  intro e
  induction e using Elem.rec (motive_2 := fun cs => ∀ c ∈ cs, motive c) with
  | node d cs ih => exact h d cs ih
  | nil c hc => exact absurd hc (List.not_mem_nil c)
  | cons c cs hc hcs x hx =>
      rcases List.mem_cons.mp hx with h1 | h2
      · exact h1 ▸ hc
      · exact hcs x h2

@[simp] theorem Elem.data_node (d : NodeData) (cs : List Elem) :
    (Elem.node d cs).data = d := rfl

@[simp] theorem Elem.childList_node (d : NodeData) (cs : List Elem) :
    (Elem.node d cs).childList = cs := rfl

@[simp] theorem allNodes_node (d : NodeData) (cs : List Elem) :
    (Elem.node d cs).allNodes = Elem.node d cs :: allNodesList cs := by
  rw [Elem.allNodes]

@[simp] theorem allNodesList_nil : allNodesList [] = [] := by rw [allNodesList]

@[simp] theorem allNodesList_cons (c : Elem) (cs : List Elem) :
    allNodesList (c :: cs) = c.allNodes ++ allNodesList cs := by
  rw [allNodesList]

theorem allNodes_eq (e : Elem) : e.allNodes = e :: e.descendants := by
  cases e with
  | node d cs => simp [Elem.descendants]

theorem self_mem_allNodes (e : Elem) : e ∈ e.allNodes := by
  rw [allNodes_eq]; exact List.mem_cons_self _ _

theorem mem_allNodesList {n : Elem} {cs : List Elem} :
    n ∈ allNodesList cs ↔ ∃ c ∈ cs, n ∈ c.allNodes := by
  induction cs with
  | nil => simp
  | cons c cs ih => simp [ih]

@[simp] theorem mapMatchingList_nil (p : Elem → Bool) (f : NodeData → NodeData) :
    mapMatchingList p f [] = [] := by rw [mapMatchingList]

@[simp] theorem mapMatchingList_cons (p : Elem → Bool) (f : NodeData → NodeData)
    (c : Elem) (cs : List Elem) :
    mapMatchingList p f (c :: cs) = Elem.mapMatching p f c :: mapMatchingList p f cs := by
  rw [mapMatchingList]

@[simp] theorem mapMatching_node (p : Elem → Bool) (f : NodeData → NodeData)
    (d : NodeData) (cs : List Elem) :
    Elem.mapMatching p f (Elem.node d cs) =
      Elem.node (if p (Elem.node d cs) then f d else d) (mapMatchingList p f cs) := by
  rw [Elem.mapMatching]

theorem mapMatchingList_eq_map (p : Elem → Bool) (f : NodeData → NodeData)
    (cs : List Elem) : mapMatchingList p f cs = cs.map (Elem.mapMatching p f) := by
  induction cs with
  | nil => simp
  | cons c cs ih => simp [ih]

/-- The node list of a rewritten tree is the rewritten node list: each node of
the result is the `mapMatching` image of the corresponding original subtree. -/
theorem allNodes_mapMatching (p : Elem → Bool) (f : NodeData → NodeData) :
    ∀ e : Elem, (Elem.mapMatching p f e).allNodes = e.allNodes.map (Elem.mapMatching p f) := by
  apply Elem.inductionOn
  intro d cs ih
  simp only [mapMatching_node, allNodes_node, List.map_cons]
  refine congrArg₂ _ rfl ?_
  rw [mapMatchingList_eq_map]
  induction cs with
  | nil => simp
  | cons c cs ihl =>
      simp only [List.map_cons, allNodesList_cons, List.map_append]
      rw [ih c (List.mem_cons_self _ _), ihl (fun c hc => ih c (List.mem_cons_of_mem _ hc))]

/-!
## Class-token lemmas
-/

theorem contains_removeClass_self (c : String) (d : NodeData) :
    (removeClass c d).classes.contains c = false := by
  simp [removeClass, List.elem_iff, List.mem_filter]

theorem contains_removeClass_ne {c x : String} (h : x ≠ c) (d : NodeData) :
    (removeClass c d).classes.contains x = d.classes.contains x := by
  rw [Bool.eq_iff_iff, List.elem_iff, List.elem_iff]
  simp [removeClass, List.mem_filter, h]

theorem contains_addClass_self (c : String) (d : NodeData) :
    (addClass c d).classes.contains c = true := by
  by_cases h : c ∈ d.classes
  · simp [addClass, List.elem_iff, h]
  · simp [addClass, List.elem_iff, h]

theorem contains_addClass_ne {c x : String} (h : x ≠ c) (d : NodeData) :
    (addClass c d).classes.contains x = d.classes.contains x := by
  by_cases hc : c ∈ d.classes
  · simp [addClass, List.elem_iff, hc]
  · rw [Bool.eq_iff_iff, List.elem_iff, List.elem_iff]
    simp [addClass, List.elem_iff, hc, h]

@[simp] theorem removeClass_tag (c : String) (d : NodeData) :
    (removeClass c d).tag = d.tag := rfl

@[simp] theorem removeClass_idAttr (c : String) (d : NodeData) :
    (removeClass c d).idAttr = d.idAttr := rfl

@[simp] theorem removeClass_src (c : String) (d : NodeData) :
    (removeClass c d).src = d.src := rfl

@[simp] theorem removeClass_text (c : String) (d : NodeData) :
    (removeClass c d).text = d.text := rfl

theorem addClass_tag (c : String) (d : NodeData) : (addClass c d).tag = d.tag := by
  by_cases h : c ∈ d.classes <;> simp [addClass, List.elem_iff, h]

theorem addClass_idAttr (c : String) (d : NodeData) : (addClass c d).idAttr = d.idAttr := by
  by_cases h : c ∈ d.classes <;> simp [addClass, List.elem_iff, h]

theorem addClass_src (c : String) (d : NodeData) : (addClass c d).src = d.src := by
  by_cases h : c ∈ d.classes <;> simp [addClass, List.elem_iff, h]

theorem addClass_text (c : String) (d : NodeData) : (addClass c d).text = d.text := by
  by_cases h : c ∈ d.classes <;> simp [addClass, List.elem_iff, h]

/-!
## C2: the character classifier
-/

theorem isSleeperChar_eq_any (e : Elem) :
    isSleeperChar e = e.allNodes.any sleeperMarker := by
  rw [allNodes_eq, List.any_cons, isSleeperChar]
  cases h : sleeperMarker e with
  | true =>
      have h1 : (e.hasClass levelAsleep || e.hasClass levelInactive) = true := h
      simp [h1]
  | false =>
      have h1 : (e.hasClass levelAsleep || e.hasClass levelInactive) = false := h
      simp only [h1, Bool.false_eq_true, if_false, Bool.false_or]
      cases h2 : e.descendants.any sleeperMarker <;> simp [h2]

/-- C2: `isSleeperChar` returns `true` exactly when the element itself or
some descendant at any depth carries the `common--level-asleep` or the
`common--level-inactive` marker class; it is (by construction) a pure
function of the element's subtree. -/
theorem isSleeperChar_spec (e : Elem) :
    isSleeperChar e = true ↔
      ∃ n ∈ e.allNodes, (n.hasClass levelAsleep || n.hasClass levelInactive) = true := by
  rw [isSleeperChar_eq_any, List.any_eq_true]
  exact Iff.rfl

/-!
## Invariance lemmas for class rewrites
-/

theorem descendants_mapMatching (p : Elem → Bool) (f : NodeData → NodeData) (e : Elem) :
    (Elem.mapMatching p f e).descendants = e.descendants.map (Elem.mapMatching p f) := by
  have h := allNodes_mapMatching p f e
  simp only [allNodes_eq, List.map_cons, List.cons.injEq] at h
  exact h.2

theorem mapMatching_data (p : Elem → Bool) (f : NodeData → NodeData) (e : Elem) :
    (Elem.mapMatching p f e).data = if p e then f e.data else e.data := by
  cases e with
  | node d cs => simp

theorem hasClass_mapMatching (p : Elem → Bool) (f : NodeData → NodeData) (c : String)
    (hf : ∀ d, (f d).classes.contains c = d.classes.contains c) (e : Elem) :
    (Elem.mapMatching p f e).hasClass c = e.hasClass c := by
  unfold Elem.hasClass
  rw [mapMatching_data]
  cases hp : p e with
  | true =>
      have h2 := hf e.data
      rw [Bool.eq_iff_iff, List.elem_iff, List.elem_iff] at h2
      simp [h2]
  | false => simp

theorem exitCharSrc_mapMatching (p : Elem → Bool) (f : NodeData → NodeData)
    (htag : ∀ d, (f d).tag = d.tag) (hsrc : ∀ d, (f d).src = d.src) (e : Elem) :
    exitCharSrc (Elem.mapMatching p f e) = exitCharSrc e := by
  unfold exitCharSrc firstImg
  rw [descendants_mapMatching, List.find?_map]
  have hpred : ((fun x => x.data.tag == "img") ∘ Elem.mapMatching p f)
      = (fun x : Elem => x.data.tag == "img") := by
    funext x
    simp only [Function.comp_apply, mapMatching_data]
    cases hp : p x with
    | true => simp [htag]
    | false => simp
  rw [hpred]
  cases hfind : e.descendants.find? (fun x => x.data.tag == "img") with
  | none => simp
  | some img =>
      simp only [Option.map_some']
      rw [mapMatching_data]
      cases hp : p img with
      | true => simp [hsrc]
      | false => simp

theorem exitCharMatches_mapMatching (urls : List String) (p : Elem → Bool)
    (f : NodeData → NodeData)
    (htag : ∀ d, (f d).tag = d.tag) (hsrc : ∀ d, (f d).src = d.src) (e : Elem) :
    exitCharMatches urls (Elem.mapMatching p f e) = exitCharMatches urls e := by
  unfold exitCharMatches
  rw [exitCharSrc_mapMatching p f htag hsrc]

/-!
## Exit-character filtering: per-node characterization
-/

theorem exitResetStep_root_hidden {n : Elem}
    (hexit : n.hasClass "pageroom-exitchars--char" = true) :
    (exitResetStep n).hasClass hiddenChar = false := by
  have hd := mapMatching_data
    (fun e => e.hasClass "pageroom-exitchars--char" && e.hasClass hiddenChar)
    (removeClass hiddenChar) n
  show (exitResetStep n).data.classes.contains hiddenChar = false
  unfold exitResetStep
  rw [hd]
  cases hh : n.hasClass hiddenChar with
  | true =>
      rw [if_pos (by rw [hexit]; rfl)]
      exact contains_removeClass_self _ _
  | false =>
      rw [if_neg (by simp)]
      exact hh

theorem exitResetStep_root_exit (n : Elem) :
    (exitResetStep n).hasClass "pageroom-exitchars--char" = n.hasClass "pageroom-exitchars--char" := by
  unfold exitResetStep
  exact hasClass_mapMatching _ _ _
    (fun d => contains_removeClass_ne (by decide) d) n

theorem sleeperAvatarUrls_nil_of_len {sl : List Elem} (h : (sl.length == 0) = true) :
    sleeperAvatarUrls sl = [] := by
  have : sl = [] := List.length_eq_zero.mp (by simpa using h)
  rw [this]; rfl

/-- Node-wise effect of `filterExitChars` on an exit-thumbnail entry: its
final hidden state is exactly the avatar-signature match, whatever its
previous hidden state. -/
theorem exit_node_hidden_char (sl : List Elem) (doc : Elem) (i : Nat) (n m : Elem)
    (hn : doc.allNodes.get? i = some n)
    (hm : (filterExitChars true sl doc).allNodes.get? i = some m)
    (hexit : n.hasClass "pageroom-exitchars--char" = true) :
    m.hasClass hiddenChar = exitCharMatches (sleeperAvatarUrls sl) n := by
  unfold filterExitChars at hm
  simp only [Bool.not_true, Bool.false_or] at hm
  by_cases hlen : (sl.length == 0) = true
  · rw [if_pos hlen] at hm
    unfold exitResetStep at hm
    rw [allNodes_mapMatching, List.get?_map, hn, Option.map_some'] at hm
    have hm2 : m = exitResetStep n := by
      injection hm with h1; rw [← h1]; rfl
    rw [hm2, exitResetStep_root_hidden hexit, sleeperAvatarUrls_nil_of_len hlen]
    unfold exitCharMatches
    cases exitCharSrc n <;> rfl
  · rw [if_neg hlen] at hm
    by_cases hurl : ((sleeperAvatarUrls sl).length == 0) = true
    · rw [if_pos hurl] at hm
      unfold exitResetStep at hm
      rw [allNodes_mapMatching, List.get?_map, hn, Option.map_some'] at hm
      have hm2 : m = exitResetStep n := by
        injection hm with h1; rw [← h1]; rfl
      have hurl2 : sleeperAvatarUrls sl = [] :=
        List.length_eq_zero.mp (by simpa using hurl)
      rw [hm2, exitResetStep_root_hidden hexit, hurl2]
      unfold exitCharMatches
      cases exitCharSrc n <;> rfl
    · rw [if_neg hurl] at hm
      unfold exitHideStep exitResetStep at hm
      rw [allNodes_mapMatching, allNodes_mapMatching, List.map_map, List.get?_map, hn,
        Option.map_some'] at hm
      have hm2 : m = exitHideStep (sleeperAvatarUrls sl) (exitResetStep n) := by
        injection hm with h1; rw [← h1]; rfl
      rw [hm2]
      have hexit1 : (exitResetStep n).hasClass "pageroom-exitchars--char" = true := by
        rw [exitResetStep_root_exit]; exact hexit
      have hmatch1 : exitCharMatches (sleeperAvatarUrls sl) (exitResetStep n)
          = exitCharMatches (sleeperAvatarUrls sl) n := by
        unfold exitResetStep
        exact exitCharMatches_mapMatching (sleeperAvatarUrls sl) _ (removeClass hiddenChar)
          (fun d => rfl) (fun d => rfl) n
      have hd := mapMatching_data
        (fun e => e.hasClass "pageroom-exitchars--char"
          && exitCharMatches (sleeperAvatarUrls sl) e)
        (addClass hiddenChar) (exitResetStep n)
      show (exitHideStep (sleeperAvatarUrls sl) (exitResetStep n)).data.classes.contains
          hiddenChar = exitCharMatches (sleeperAvatarUrls sl) n
      unfold exitHideStep
      rw [hd]
      cases hma : exitCharMatches (sleeperAvatarUrls sl) n with
      | true =>
          rw [if_pos (by rw [hexit1, hmatch1, hma]; rfl)]
          exact contains_addClass_self _ _
      | false =>
          rw [if_neg (by rw [hmatch1, hma]; simp)]
          exact exitResetStep_root_hidden hexit

/-!
## C3 and C10: exit-thumbnail classification
-/

/-- C3: an exit-thumbnail entry ends up hidden exactly when its normalized
avatar signature belongs to the signature set derived from the classified
main-list sleepers; in particular an empty set leaves every exit entry
visible (fail open), and no state marker of the exit entry itself is
consulted. -/
theorem filterExitChars_signature_only (sl : List Elem) (doc : Elem) (i : Nat) (n m : Elem)
    (hn : doc.allNodes.get? i = some n)
    (hm : (filterExitChars true sl doc).allNodes.get? i = some m)
    (hexit : n.hasClass "pageroom-exitchars--char" = true) :
    m.hasClass hiddenChar = true ↔
      ∃ s, exitCharSrc n = some s ∧ stripQuery s ∈ sleeperAvatarUrls sl := by
  rw [exit_node_hidden_char sl doc i n m hn hm hexit]
  unfold exitCharMatches
  cases hs : exitCharSrc n with
  | none => simp
  | some s => simp [List.elem_iff]

theorem filterExitChars_signature_only_witness :
    exitMatchW.allNodes.get? 0 = some exitMatchW
    ∧ (filterExitChars true [sleeperCharW] exitMatchW).allNodes.get? 0
        = some (filterExitChars true [sleeperCharW] exitMatchW)
    ∧ exitMatchW.hasClass "pageroom-exitchars--char" = true
    ∧ ((filterExitChars true [sleeperCharW] exitMatchW).hasClass hiddenChar = true ↔
        ∃ s, exitCharSrc exitMatchW = some s ∧ stripQuery s ∈ sleeperAvatarUrls [sleeperCharW]) :=
  ⟨by decide, by decide, by decide,
    filterExitChars_signature_only [sleeperCharW] exitMatchW 0 exitMatchW
      (filterExitChars true [sleeperCharW] exitMatchW) (by decide) (by decide) (by decide)⟩

/-- C10: `filterExitChars` unhides all exit-thumbnail entries before applying
the new signature set, so the final hidden state of an exit entry is exactly
the signature match; an entry hidden by an earlier pass whose character no
longer matches becomes visible again. -/
theorem filterExitChars_resets_before_applying (sl : List Elem) (doc : Elem) (i : Nat)
    (n m : Elem)
    (hn : doc.allNodes.get? i = some n)
    (hm : (filterExitChars true sl doc).allNodes.get? i = some m)
    (hexit : n.hasClass "pageroom-exitchars--char" = true) :
    m.hasClass hiddenChar = exitCharMatches (sleeperAvatarUrls sl) n
    ∧ (n.hasClass hiddenChar = true → exitCharMatches (sleeperAvatarUrls sl) n = false →
        m.hasClass hiddenChar = false) := by
  have h := exit_node_hidden_char sl doc i n m hn hm hexit
  exact ⟨h, fun _ hf => by rw [h, hf]⟩

theorem filterExitChars_resets_before_applying_witness :
    exitHiddenW.allNodes.get? 0 = some exitHiddenW
    ∧ (filterExitChars true [sleeperCharW] exitHiddenW).allNodes.get? 0
        = some (filterExitChars true [sleeperCharW] exitHiddenW)
    ∧ exitHiddenW.hasClass "pageroom-exitchars--char" = true
    ∧ exitHiddenW.hasClass hiddenChar = true
    ∧ exitCharMatches (sleeperAvatarUrls [sleeperCharW]) exitHiddenW = false
    ∧ (filterExitChars true [sleeperCharW] exitHiddenW).hasClass hiddenChar = false :=
  ⟨by decide, by decide, by decide, by decide, by decide,
    (filterExitChars_resets_before_applying [sleeperCharW] exitHiddenW 0 exitHiddenW
      (filterExitChars true [sleeperCharW] exitHiddenW)
      (by decide) (by decide) (by decide)).2 (by decide) (by decide)⟩

/-!
## C5: missing main-list container
-/

/-- C5: when the main-list container cannot be located the pass is a no-op:
the document is unchanged (so no injected node is created and no existing
node is modified) and nothing is thrown. -/
theorem applyFilter_absent_noop (splitEnabled sleepersOpen : Bool) (doc : Elem)
    (h : findInRoomSection doc = none) :
    applyFilter splitEnabled sleepersOpen doc = (doc, false) := by
  unfold applyFilter
  rw [h]

theorem applyFilter_absent_noop_witness :
    findInRoomSection (imgW "u") = none
    ∧ applyFilter true false (imgW "u") = (imgW "u", false) :=
  ⟨by decide, applyFilter_absent_noop true false (imgW "u") (by decide)⟩

/-!
## C6 and C8: the sleepers section builder
-/

/-- C6: the built section's count label is the string `(n)`; with `n > 0`
sleepers the body holds one cloned representation per sleeper, and with
`n = 0` it holds the explicit empty-state entry instead. -/
theorem createSleepersSection_spec (sleepersOpen : Bool) (ls : List Elem) :
    sectionCountText (createSleepersSection sleepersOpen ls)
        = some ("(" ++ toString ls.length ++ ")")
    ∧ (ls ≠ [] → sectionBody (createSleepersSection sleepersOpen ls)
        = some (ls.map cloneStripHidden))
    ∧ (ls = [] → sectionBody (createSleepersSection sleepersOpen ls)
        = some [noSleepersPlaceholder]) := by
  refine ⟨rfl, ?_, ?_⟩
  · intro h
    have hl : (ls.length == 0) = false := by
      simp [List.length_eq_zero, h]
    unfold sectionBody createSleepersSection
    simp [hl]
  · intro h
    subst h
    rfl

theorem createSleepersSection_spec_witness :
    sectionCountText (createSleepersSection false [sleeperCharW, sleeperCharW, sleeperCharW])
      = some "(3)"
    ∧ sectionBody (createSleepersSection false [sleeperCharW, sleeperCharW, sleeperCharW])
      = some ([sleeperCharW, sleeperCharW, sleeperCharW].map cloneStripHidden) :=
  ⟨by rw [(createSleepersSection_spec false [sleeperCharW, sleeperCharW, sleeperCharW]).1]; rfl,
   (createSleepersSection_spec false [sleeperCharW, sleeperCharW, sleeperCharW]).2.1
     (by decide)⟩

theorem hasClass_strip_of_mem {c : String} {e nn : Elem}
    (h : nn ∈ (Elem.mapMatching (fun x => x.hasClass c) (removeClass c) e).allNodes) :
    nn.hasClass c = false := by
  rw [allNodes_mapMatching] at h
  rcases List.mem_map.mp h with ⟨x, hx, rfl⟩
  show (Elem.mapMatching (fun x => x.hasClass c) (removeClass c) x).data.classes.contains c
      = false
  rw [mapMatching_data]
  cases hc : x.hasClass c with
  | true =>
      rw [if_pos rfl]
      exact contains_removeClass_self _ _
  | false =>
      rw [if_neg (by simp)]
      exact hc

theorem cloneStripHidden_no_hidden {e nn : Elem} (h : nn ∈ (cloneStripHidden e).allNodes) :
    nn.hasClass hiddenChar = false := by
  unfold cloneStripHidden at h
  rw [allNodes_node] at h
  rcases List.mem_cons.mp h with h1 | h2
  · subst h1
    exact contains_removeClass_self _ _
  · rw [mapMatchingList_eq_map] at h2
    rcases mem_allNodesList.mp h2 with ⟨c0, hc0, hnn⟩
    rcases List.mem_map.mp hc0 with ⟨x, hx, rfl⟩
    exact hasClass_strip_of_mem hnn

/-- C8: no node of any entry of the sleepers-section body carries the
hidden marker class, whatever the hidden state of the originals. -/
theorem sleepersSection_body_stripped (sleepersOpen : Bool) (ls bs : List Elem)
    (hb : sectionBody (createSleepersSection sleepersOpen ls) = some bs)
    (cl : Elem) (hcl : cl ∈ bs) (nn : Elem) (hnn : nn ∈ cl.allNodes) :
    nn.hasClass hiddenChar = false := by
  have hbs : (if ls.length == 0 then [noSleepersPlaceholder]
      else ls.map cloneStripHidden) = bs := by
    unfold sectionBody createSleepersSection at hb
    simpa using hb
  subst hbs
  by_cases hl : (ls.length == 0) = true
  · rw [if_pos hl] at hcl
    have hcl2 : cl = noSleepersPlaceholder := List.mem_singleton.mp hcl
    subst hcl2
    have hnn2 : nn = noSleepersPlaceholder := by
      rw [show noSleepersPlaceholder.allNodes = [noSleepersPlaceholder] from rfl] at hnn
      exact List.mem_singleton.mp hnn
    subst hnn2
    decide
  · rw [if_neg hl] at hcl
    rcases List.mem_map.mp hcl with ⟨x, hx, rfl⟩
    exact cloneStripHidden_no_hidden hnn

theorem sleepersSection_body_stripped_witness :
    sectionBody (createSleepersSection true [hiddenSleeperW])
      = some ([hiddenSleeperW].map cloneStripHidden)
    ∧ cloneStripHidden hiddenSleeperW ∈ [hiddenSleeperW].map cloneStripHidden
    ∧ cloneStripHidden hiddenSleeperW ∈ (cloneStripHidden hiddenSleeperW).allNodes
    ∧ (cloneStripHidden hiddenSleeperW).hasClass hiddenChar = false :=
  ⟨by decide, by decide, by decide,
    sleepersSection_body_stripped true [hiddenSleeperW]
      ([hiddenSleeperW].map cloneStripHidden) (by decide)
      (cloneStripHidden hiddenSleeperW) (by decide)
      (cloneStripHidden hiddenSleeperW) (by decide)⟩

/-!
## C9: the mutation observer's self-write filter
-/

theorem mutationTriggers_skipped (doc : Elem) (m : MutationRec)
    (h : closestHolds doc m.targetPath ssIdSel = true
        ∨ closestHolds doc m.targetPath toggleSel = true
        ∨ (∃ t, getAt doc m.targetPath = some t ∧
            (t.hasClass "msf-hidden-char" = true ∨ t.hasClass "msf-sleepers-list" = true
              ∨ t.hasClass "msf-sleepers-arrow" = true))) :
    mutationTriggers doc m = false := by
  cases hg : getAt doc m.targetPath with
  | none => simp only [mutationTriggers, hg]
  | some t =>
      have hcond : (closestHolds doc m.targetPath ssIdSel
          || closestHolds doc m.targetPath toggleSel
          || t.hasClass "msf-hidden-char" || t.hasClass "msf-sleepers-list"
          || t.hasClass "msf-sleepers-arrow") = true := by
        rcases h with h1 | h1 | ⟨t2, ht2, h1⟩
        · simp [h1]
        · simp [h1]
        · rw [hg] at ht2
          injection ht2 with ht3
          subst ht3
          rcases h1 with h2 | h2 | h2 <;> simp [h2]
      simp only [mutationTriggers, hg]
      rw [if_pos hcond]

/-- C9 (amended): mutations whose target lies inside the injected sleepers
section or toggle control (by `closest`), or whose target carries one of the
marker classes `msf-hidden-char`, `msf-sleepers-list`, `msf-sleepers-arrow`,
never by themselves make the observer schedule a re-apply.  (The injected
no-awake placeholder, which also carries a reserved `msf-` class, is *not*
covered: see the counterexample.) -/
theorem mutations_in_injected_never_schedule (doc : Elem) (ms : List MutationRec)
    (h : ∀ m ∈ ms, closestHolds doc m.targetPath ssIdSel = true
        ∨ closestHolds doc m.targetPath toggleSel = true
        ∨ (∃ t, getAt doc m.targetPath = some t ∧
            (t.hasClass "msf-hidden-char" = true ∨ t.hasClass "msf-sleepers-list" = true
              ∨ t.hasClass "msf-sleepers-arrow" = true))) :
    observerSchedules doc ms = false := by
  unfold observerSchedules
  rw [List.any_eq_false]
  intro m hm
  rw [mutationTriggers_skipped doc m (h m hm)]
  simp

theorem mutations_in_injected_never_schedule_witness :
    (closestHolds obsInjDocW [0] ssIdSel = true)
    ∧ observerSchedules obsInjDocW [⟨[0], 1, 0⟩] = false :=
  ⟨by decide,
    mutations_in_injected_never_schedule obsInjDocW [⟨[0], 1, 0⟩]
      (by intro m hm
          have hm2 : m = ⟨[0], 1, 0⟩ := List.mem_singleton.mp hm
          subst hm2
          exact Or.inl (by decide))⟩

/-- C9 counterexample: a childList mutation whose target is the injected
"no one awake" placeholder — a node the script owns, carrying the reserved
marker class `msf-no-awake-placeholder` — does make the observer schedule a
re-apply, refuting the claim that mutations targeting the script's own
injected nodes never do. -/
theorem mutation_on_placeholder_schedules :
    getAt obsPhDocW [0] = some noAwakePlaceholder
    ∧ noAwakePlaceholder.hasClass "msf-no-awake-placeholder" = true
    ∧ observerSchedules obsPhDocW [⟨[0], 1, 0⟩] = true :=
  ⟨by decide, by decide, by decide⟩

/-!
## List and path utilities
-/

theorem get?_append_length (l1 l2 : List α) (a : α) :
    (l1 ++ a :: l2).get? l1.length = some a := by
  induction l1 with
  | nil => rfl
  | cons b l ih => simpa using ih

theorem set_append_length (l1 l2 : List α) (a b : α) :
    (l1 ++ a :: l2).set l1.length b = l1 ++ b :: l2 := by
  induction l1 with
  | nil => rfl
  | cons c l ih => simpa using ih

theorem eraseIdx_append_length (l1 l2 : List α) (a : α) :
    (l1 ++ a :: l2).eraseIdx l1.length = l1 ++ l2 := by
  induction l1 with
  | nil => rfl
  | cons c l ih => simpa using ih

theorem eraseIdx_append_length_succ (l1 l2 : List α) (a b : α) :
    (l1 ++ a :: b :: l2).eraseIdx (l1.length + 1) = l1 ++ a :: l2 := by
  induction l1 with
  | nil => rfl
  | cons c l ih => simpa using ih

theorem insertListAt_append_length_succ (l1 l2 : List α) (a x : α) :
    insertListAt (l1 ++ a :: l2) (l1.length + 1) x = l1 ++ a :: x :: l2 := by
  induction l1 with
  | nil => rfl
  | cons c l ih =>
      show insertListAt (c :: (l ++ a :: l2)) (l.length + 1 + 1) x = c :: (l ++ a :: x :: l2)
      unfold insertListAt
      simp only [List.take_succ_cons, List.drop_succ_cons]
      have := ih
      unfold insertListAt at this
      rw [List.cons_append, this]

theorem getAt_append (doc : Elem) (p q : List Nat) :
    getAt doc (p ++ q) = (getAt doc p).bind (fun e => getAt e q) := by
  induction p generalizing doc with
  | nil => simp [getAt]
  | cons i p ih =>
      cases doc with
      | node d cs =>
          show getAt (Elem.node d cs) (i :: (p ++ q)) = _
          simp only [getAt]
          cases h : cs.get? i with
          | none => rfl
          | some c => exact ih c

theorem modifyAt_append (f : Elem → Elem) (doc : Elem) (p q : List Nat) :
    modifyAt f doc (p ++ q) = modifyAt (fun e => modifyAt f e q) doc p := by
  induction p generalizing doc with
  | nil => simp only [List.nil_append, modifyAt]
  | cons i p ih =>
      cases doc with
      | node d cs =>
          show modifyAt f (Elem.node d cs) (i :: (p ++ q)) = _
          cases h : cs.get? i with
          | none => simp only [modifyAt, h]
          | some c =>
              simp only [modifyAt, h]
              rw [ih c]

theorem removeAt_append (doc : Elem) (p q : List Nat) (hq : q ≠ []) :
    removeAt doc (p ++ q) = modifyAt (fun e => removeAt e q) doc p := by
  induction p generalizing doc with
  | nil => simp only [List.nil_append, modifyAt]
  | cons i p ih =>
      cases doc with
      | node d cs =>
          rcases List.exists_cons_of_ne_nil
            (show p ++ q ≠ [] from fun hcon => hq (List.append_eq_nil.mp hcon).2)
            with ⟨j, rest, hjr⟩
          show removeAt (Elem.node d cs) (i :: (p ++ q)) = _
          rw [hjr]
          cases h : cs.get? i with
          | none => simp only [removeAt, modifyAt, h]
          | some c =>
              simp only [removeAt, modifyAt, h]
              rw [← hjr, ih c]

/-!
## Cleanliness lemmas
-/

theorem allNodesList_all (q : Elem → Bool) (cs : List Elem) :
    (allNodesList cs).all q = cs.all (fun c => c.allNodes.all q) := by
  induction cs with
  | nil => simp
  | cons c cs ih => simp [List.all_append, ih]

theorem dataNoneP_node (p : NodeData → Bool) (d : NodeData) (cs : List Elem) :
    dataNoneP p (.node d cs) = (!p d && listNoneP p cs) := by
  unfold dataNoneP listNoneP
  simp only [allNodes_node, List.all_cons, allNodesList_all]
  rfl

theorem findFirstPathChildren_eq_none_of (p : NodeData → Bool) (cs : List Elem)
    (h : ∀ c ∈ cs, (findFirstPath p c = none) ↔ (dataNoneP p c = true)) :
    (findFirstPathChildren p cs = none) ↔ (listNoneP p cs = true) := by
  induction cs with
  | nil => simp [findFirstPathChildren, listNoneP]
  | cons c cs ih =>
      simp only [findFirstPathChildren, listNoneP, List.all_cons]
      cases hf : findFirstPath p c with
      | some q =>
          have hd : dataNoneP p c = false := by
            cases hdc : dataNoneP p c with
            | true =>
                have := (h c (List.mem_cons_self _ _)).mpr hdc
                rw [this] at hf; cases hf
            | false => rfl
          simp [hd]
      | none =>
          have hd : dataNoneP p c = true := (h c (List.mem_cons_self _ _)).mp hf
          have ihr := ih (fun x hx => h x (List.mem_cons_of_mem _ hx))
          unfold listNoneP at ihr
          simp [hd, Option.map_eq_none, ihr]

theorem findFirstPath_eq_none (p : NodeData → Bool) :
    ∀ e : Elem, (findFirstPath p e = none) ↔ (dataNoneP p e = true) := by
  apply Elem.inductionOn
  intro d cs ih
  rw [dataNoneP_node]
  simp only [findFirstPath]
  cases hd : p d with
  | true => simp
  | false =>
      simp only [Bool.false_eq_true, if_false, Bool.not_false, Bool.true_and]
      rw [Option.map_eq_none']
      exact findFirstPathChildren_eq_none_of p cs ih

/-!
## Plug-context lemmas
-/

theorem holePath_ctxInsAfter (ctx : List CtxLayer) (x : Elem) :
    holePath (ctxInsAfter ctx x) = holePath ctx := by
  induction ctx with
  | nil => rfl
  | cons L ls ih =>
      cases ls with
      | nil => rfl
      | cons L2 ls2 =>
          show holePath (L :: ctxInsAfter (L2 :: ls2) x) = _
          unfold holePath at ih ⊢
          simp only [List.map_cons, ih]

theorem holePath_ctxMapSib (M : Elem → Elem) (ctx : List CtxLayer) :
    holePath (ctxMapSib M ctx) = holePath ctx := by
  unfold holePath ctxMapSib
  rw [List.map_map]
  apply List.map_congr_left
  intro L _
  simp

theorem sibPath_ctxMapSib (M : Elem → Elem) (ctx : List CtxLayer) :
    sibPath (ctxMapSib M ctx) = sibPath ctx := by
  induction ctx with
  | nil => rfl
  | cons L ls ih =>
      cases ls with
      | nil => simp [ctxMapSib, sibPath]
      | cons L2 ls2 =>
          show sibPath (⟨L.data, L.left.map M, L.right.map M⟩
              :: ⟨L2.data, L2.left.map M, L2.right.map M⟩ :: ctxMapSib M ls2)
              = L.left.length :: sibPath (L2 :: ls2)
          rw [show sibPath (⟨L.data, L.left.map M, L.right.map M⟩
                :: ⟨L2.data, L2.left.map M, L2.right.map M⟩ :: ctxMapSib M ls2)
              = (L.left.map M).length
                :: sibPath (⟨L2.data, L2.left.map M, L2.right.map M⟩ :: ctxMapSib M ls2)
            from rfl]
          rw [show (⟨L2.data, L2.left.map M, L2.right.map M⟩ :: ctxMapSib M ls2
                : List CtxLayer)
              = ctxMapSib M (L2 :: ls2) from rfl, ih, List.length_map]

theorem ctxMapSib_ctxInsAfter (M : Elem → Elem) (ctx : List CtxLayer) (x : Elem) :
    ctxMapSib M (ctxInsAfter ctx x) = ctxInsAfter (ctxMapSib M ctx) (M x) := by
  induction ctx with
  | nil => rfl
  | cons L ls ih =>
      cases ls with
      | nil => rfl
      | cons L2 ls2 =>
          show ctxMapSib M (L :: ctxInsAfter (L2 :: ls2) x)
              = ctxInsAfter (ctxMapSib M (L :: L2 :: ls2)) (M x)
          rw [show ctxMapSib M (L :: ctxInsAfter (L2 :: ls2) x)
              = ⟨L.data, L.left.map M, L.right.map M⟩
                :: ctxMapSib M (ctxInsAfter (L2 :: ls2) x) from rfl]
          rw [ih]
          rfl

theorem getAt_plug (ctx : List CtxLayer) (S : Elem) :
    getAt (plugCtx ctx S) (holePath ctx) = some S := by
  induction ctx with
  | nil => simp [plugCtx, holePath, getAt]
  | cons L ls ih =>
      show getAt (Elem.node L.data (L.left ++ plugCtx ls S :: L.right))
          (L.left.length :: holePath ls) = some S
      simp only [getAt, get?_append_length]
      exact ih

theorem modifyAt_plug (f : Elem → Elem) (ctx : List CtxLayer) (S : Elem) :
    modifyAt f (plugCtx ctx S) (holePath ctx) = plugCtx ctx (f S) := by
  induction ctx with
  | nil => simp [plugCtx, holePath, modifyAt]
  | cons L ls ih =>
      show modifyAt f (Elem.node L.data (L.left ++ plugCtx ls S :: L.right))
          (L.left.length :: holePath ls) = _
      simp only [modifyAt, get?_append_length]
      rw [ih, set_append_length]
      rfl

theorem findFirstPathChildren_append_shift (p : NodeData → Bool) (l1 l2 : List Elem)
    (h : listNoneP p l1 = true) :
    findFirstPathChildren p (l1 ++ l2)
      = (findFirstPathChildren p l2).map (fun x => (x.1 + l1.length, x.2)) := by
  induction l1 with
  | nil =>
      simp only [List.nil_append]
      cases h : findFirstPathChildren p l2 <;> simp [h]
  | cons c l ih =>
      rw [listNoneP, List.all_cons, Bool.and_eq_true] at h
      have hf : findFirstPath p c = none := (findFirstPath_eq_none p c).mpr h.1
      show findFirstPathChildren p (c :: (l ++ l2)) = _
      simp only [findFirstPathChildren, hf]
      rw [ih h.2, Option.map_map]
      cases findFirstPathChildren p l2 <;> rfl

theorem findFirstPath_plug (p : NodeData → Bool) (ctx : List CtxLayer) (S : Elem)
    (hS : p S.data = true)
    (hlayer : ∀ L ∈ ctx, p L.data = false)
    (hleft : ∀ L ∈ ctx, listNoneP p L.left = true) :
    findFirstPath p (plugCtx ctx S) = some (holePath ctx) := by
  induction ctx with
  | nil =>
      cases S with
      | node d cs =>
          show findFirstPath p (Elem.node d cs) = some (holePath [])
          simp only [findFirstPath]
          rw [if_pos (show p d = true from hS)]
          rfl
  | cons L ls ih =>
      show findFirstPath p (Elem.node L.data (L.left ++ plugCtx ls S :: L.right))
          = some (L.left.length :: holePath ls)
      simp only [findFirstPath]
      rw [if_neg (by rw [hlayer L (List.mem_cons_self _ _)]; simp)]
      rw [findFirstPathChildren_append_shift p _ _ (hleft L (List.mem_cons_self _ _))]
      have hin : findFirstPath p (plugCtx ls S) = some (holePath ls) :=
        ih (fun L2 h2 => hlayer L2 (List.mem_cons_of_mem _ h2))
          (fun L2 h2 => hleft L2 (List.mem_cons_of_mem _ h2))
      show Option.map _ (Option.map _ (findFirstPathChildren p (plugCtx ls S :: L.right)))
          = _
      simp only [findFirstPathChildren, hin, Option.map_some']
      simp

theorem insertChildAt_after_hole (ctx : List CtxLayer) (S x : Elem) (hne : ctx ≠ []) :
    insertChildAt (plugCtx ctx S) (holePath ctx).dropLast
      ((holePath ctx).getLastD 0 + 1) x = plugCtx (ctxInsAfter ctx x) S := by
  induction ctx with
  | nil => exact absurd rfl hne
  | cons L ls ih =>
      cases ls with
      | nil =>
          show insertChildAt (Elem.node L.data (L.left ++ S :: L.right)) []
              (L.left.length + 1) x = Elem.node L.data (L.left ++ S :: x :: L.right)
          unfold insertChildAt
          simp only [modifyAt, Elem.childList_node, Elem.data_node]
          rw [insertListAt_append_length_succ]
      | cons L2 ls2 =>
          have hne2 : (L2 :: ls2 : List CtxLayer) ≠ [] := by simp
          show insertChildAt (Elem.node L.data (L.left ++ plugCtx (L2 :: ls2) S :: L.right))
              ((L.left.length :: holePath (L2 :: ls2)).dropLast)
              ((L.left.length :: holePath (L2 :: ls2)).getLastD 0 + 1) x
              = Elem.node L.data (L.left ++ plugCtx (ctxInsAfter (L2 :: ls2) x) S :: L.right)
          rw [show holePath (L2 :: ls2) = L2.left.length :: holePath ls2 from rfl]
          rw [show (L.left.length :: L2.left.length :: holePath ls2).dropLast
              = L.left.length :: (L2.left.length :: holePath ls2).dropLast from rfl]
          rw [show (L.left.length :: L2.left.length :: holePath ls2).getLastD 0
              = (L2.left.length :: holePath ls2).getLastD 0 by simp [List.getLastD_cons]]
          unfold insertChildAt
          simp only [modifyAt, get?_append_length]
          rw [set_append_length]
          rw [show modifyAt
              (fun e => Elem.node e.data (insertListAt e.childList
                ((L2.left.length :: holePath ls2).getLastD 0 + 1) x))
              (plugCtx (L2 :: ls2) S)
              ((L2.left.length :: holePath ls2).dropLast)
              = insertChildAt (plugCtx (L2 :: ls2) S) (holePath (L2 :: ls2)).dropLast
                  ((holePath (L2 :: ls2)).getLastD 0 + 1) x from rfl]
          rw [ih hne2]

theorem removeAt_sib (ctx : List CtxLayer) (S x : Elem) (hne : ctx ≠ []) :
    removeAt (plugCtx (ctxInsAfter ctx x) S) (sibPath ctx) = plugCtx ctx S := by
  induction ctx with
  | nil => exact absurd rfl hne
  | cons L ls ih =>
      cases ls with
      | nil =>
          show removeAt (Elem.node L.data (L.left ++ S :: x :: L.right)) [L.left.length + 1]
              = Elem.node L.data (L.left ++ S :: L.right)
          simp only [removeAt]
          rw [eraseIdx_append_length_succ]
      | cons L2 ls2 =>
          have hne2 : (L2 :: ls2 : List CtxLayer) ≠ [] := by simp
          show removeAt (Elem.node L.data
              (L.left ++ plugCtx (ctxInsAfter (L2 :: ls2) x) S :: L.right))
              (L.left.length :: sibPath (L2 :: ls2))
              = Elem.node L.data (L.left ++ plugCtx (L2 :: ls2) S :: L.right)
          have hsib : sibPath (L2 :: ls2) ≠ [] := by cases ls2 <;> simp [sibPath]
          rcases List.exists_cons_of_ne_nil hsib with ⟨j, rest, hjr⟩
          rw [hjr]
          simp only [removeAt, get?_append_length]
          rw [set_append_length, ← hjr, ih hne2]

theorem findFirstPath_sib (p : NodeData → Bool) (ctx : List CtxLayer) (S x : Elem)
    (hx : p x.data = true)
    (hS : dataNoneP p S = true)
    (hlayer : ∀ L ∈ ctx, p L.data = false)
    (hleft : ∀ L ∈ ctx, listNoneP p L.left = true)
    (hne : ctx ≠ []) :
    findFirstPath p (plugCtx (ctxInsAfter ctx x) S) = some (sibPath ctx) := by
  induction ctx with
  | nil => exact absurd rfl hne
  | cons L ls ih =>
      cases ls with
      | nil =>
          show findFirstPath p (Elem.node L.data (L.left ++ S :: x :: L.right))
              = some [L.left.length + 1]
          simp only [findFirstPath]
          rw [if_neg (by rw [hlayer L (List.mem_cons_self _ _)]; simp)]
          rw [findFirstPathChildren_append_shift p _ _ (hleft L (List.mem_cons_self _ _))]
          have hfS : findFirstPath p S = none := (findFirstPath_eq_none p S).mpr hS
          have hfx : findFirstPath p x = some [] := by
            cases x with
            | node d cs =>
                simp only [findFirstPath]
                rw [if_pos (show p d = true from hx)]
          simp only [findFirstPathChildren, hfS, hfx, Option.map_some']
          simp [Nat.add_comm]
      | cons L2 ls2 =>
          have hne2 : (L2 :: ls2 : List CtxLayer) ≠ [] := by simp
          show findFirstPath p (Elem.node L.data
              (L.left ++ plugCtx (ctxInsAfter (L2 :: ls2) x) S :: L.right))
              = some (L.left.length :: sibPath (L2 :: ls2))
          simp only [findFirstPath]
          rw [if_neg (by rw [hlayer L (List.mem_cons_self _ _)]; simp)]
          rw [findFirstPathChildren_append_shift p _ _ (hleft L (List.mem_cons_self _ _))]
          have hin : findFirstPath p (plugCtx (ctxInsAfter (L2 :: ls2) x) S)
              = some (sibPath (L2 :: ls2)) :=
            ih (fun L3 h3 => hlayer L3 (List.mem_cons_of_mem _ h3))
              (fun L3 h3 => hleft L3 (List.mem_cons_of_mem _ h3)) hne2
          simp only [findFirstPathChildren, hin, Option.map_some']
          simp

/-!
## Rewrite algebra
-/

theorem mem_allNodes_of_mem_child {n c : Elem} {d : NodeData} {cs : List Elem}
    (hc : c ∈ cs) (hn : n ∈ c.allNodes) : n ∈ (Elem.node d cs).allNodes := by
  rw [allNodes_node]
  exact List.mem_cons_of_mem _ (mem_allNodesList.mpr ⟨c, hc, hn⟩)

theorem allNodes_trans : ∀ {e n m : Elem}, n ∈ e.allNodes → m ∈ n.allNodes → m ∈ e.allNodes := by
  intro e
  induction e using Elem.inductionOn with
  | _ d cs ih =>
      intro n m hn hm
      rw [allNodes_node] at hn
      rcases List.mem_cons.mp hn with h1 | h2
      · subst h1; exact hm
      · rcases mem_allNodesList.mp h2 with ⟨c, hc, hnc⟩
        exact mem_allNodes_of_mem_child hc (ih c hc hnc hm)

theorem mapMatching_eq_self (P : Elem → Bool) (f : NodeData → NodeData) :
    ∀ e : Elem, (∀ n ∈ e.allNodes, P n = false) → Elem.mapMatching P f e = e := by
  apply Elem.inductionOn
  intro d cs ih h
  rw [mapMatching_node]
  rw [h _ (self_mem_allNodes _)]
  simp only [Bool.false_eq_true, if_false]
  congr 1
  rw [mapMatchingList_eq_map]
  have hcc : ∀ c ∈ cs, Elem.mapMatching P f c = c := fun c hc =>
    ih c hc (fun n hn => h n (mem_allNodes_of_mem_child hc hn))
  rw [show cs.map (Elem.mapMatching P f) = cs.map id from List.map_congr_left hcc,
    List.map_id]

theorem list_all_congr {α : Type} (f g : α → Bool) (l : List α)
    (h : ∀ a ∈ l, f a = g a) : l.all f = l.all g := by
  induction l with
  | nil => rfl
  | cons a t ih =>
      simp only [List.all_cons, h a (List.mem_cons_self _ _),
        ih (fun x hx => h x (List.mem_cons_of_mem _ hx))]

theorem dataNoneP_mapMatching (p : NodeData → Bool) (P : Elem → Bool)
    (f : NodeData → NodeData) (hf : ∀ d, p (f d) = p d) (e : Elem) :
    dataNoneP p (Elem.mapMatching P f e) = dataNoneP p e := by
  unfold dataNoneP
  rw [allNodes_mapMatching, List.all_map]
  apply list_all_congr
  intro n _
  simp only [Function.comp_apply]
  rw [mapMatching_data]
  cases hP : P n <;> simp [hf]

theorem findFirstPathChildren_map_congr (p : NodeData → Bool) (M : Elem → Elem)
    (cs : List Elem) (h : ∀ c ∈ cs, findFirstPath p (M c) = findFirstPath p c) :
    findFirstPathChildren p (cs.map M) = findFirstPathChildren p cs := by
  induction cs with
  | nil => rfl
  | cons c cl ih =>
      show findFirstPathChildren p (M c :: cl.map M) = _
      simp only [findFirstPathChildren, h c (List.mem_cons_self _ _)]
      cases findFirstPath p c with
      | some q => rfl
      | none => rw [ih (fun x hx => h x (List.mem_cons_of_mem _ hx))]

theorem findFirstPath_mapMatching (p : NodeData → Bool) (P : Elem → Bool)
    (f : NodeData → NodeData) (hf : ∀ d, p (f d) = p d) :
    ∀ e, findFirstPath p (Elem.mapMatching P f e) = findFirstPath p e := by
  apply Elem.inductionOn
  intro d cs ih
  rw [mapMatching_node]
  simp only [findFirstPath]
  have hd : p (if P (Elem.node d cs) then f d else d) = p d := by
    cases P (Elem.node d cs) <;> simp [hf]
  rw [hd, mapMatchingList_eq_map, findFirstPathChildren_map_congr p _ cs ih]

theorem mapMatching_plug (P : Elem → Bool) (f : NodeData → NodeData)
    (ctx : List CtxLayer) (S : Elem)
    (hguard : ∀ L ∈ ctx, ∀ cs, P (Elem.node L.data cs) = false) :
    Elem.mapMatching P f (plugCtx ctx S)
      = plugCtx (ctxMapSib (Elem.mapMatching P f) ctx) (Elem.mapMatching P f S) := by
  induction ctx with
  | nil => rfl
  | cons L ls ih =>
      show Elem.mapMatching P f (Elem.node L.data (L.left ++ plugCtx ls S :: L.right)) = _
      rw [mapMatching_node, hguard L (List.mem_cons_self _ _) _]
      simp only [Bool.false_eq_true, if_false]
      rw [mapMatchingList_eq_map, List.map_append, List.map_cons]
      rw [ih (fun L2 h2 => hguard L2 (List.mem_cons_of_mem _ h2))]
      rfl

theorem removeClass_of_not_contains {c : String} {d : NodeData}
    (h : d.classes.contains c = false) : removeClass c d = d := by
  have hm : c ∉ d.classes := fun hmem => by
    rw [show d.classes.contains c = true by
      rw [Bool.eq_iff_iff, List.elem_iff]; simp [hmem]] at h
    cases h
  unfold removeClass
  rw [List.filter_eq_self.mpr (fun a ha => by
    simp only [ne_eq, decide_eq_true_eq]
    exact fun hac => hm (hac ▸ ha))]

theorem removeClass_addClass (c : String) (d : NodeData) :
    removeClass c (addClass c d) = removeClass c d := by
  by_cases h : c ∈ d.classes
  · rw [show addClass c d = d by simp [addClass, List.elem_iff, h]]
  · unfold addClass
    rw [if_neg (by simp [List.elem_iff, h])]
    unfold removeClass
    simp only [List.filter_append]
    rw [show List.filter (fun x => x ≠ c) [c] = [] by simp]
    simp

theorem reset_after_hide_dataPred (c : String) (P : NodeData → Bool) (Q : Elem → Bool)
    (hQP : ∀ n, Q n = true → P n.data = true)
    (hPadd : ∀ d, P (addClass c d) = P d) :
    ∀ e, Elem.mapMatching (fun x => P x.data) (removeClass c)
        (Elem.mapMatching Q (addClass c) e)
      = Elem.mapMatching (fun x => P x.data) (removeClass c) e := by
  apply Elem.inductionOn
  intro d cs ih
  rw [mapMatching_node, mapMatching_node, mapMatching_node]
  have hcl : mapMatchingList (fun x => P x.data) (removeClass c)
      (mapMatchingList Q (addClass c) cs)
      = mapMatchingList (fun x => P x.data) (removeClass c) cs := by
    rw [mapMatchingList_eq_map, mapMatchingList_eq_map, mapMatchingList_eq_map,
      List.map_map]
    exact List.map_congr_left (fun x hx => ih x hx)
  cases hQc : Q (Elem.node d cs) with
  | true =>
      have hPd : P d = true := hQP _ hQc
      simp only [eq_self_iff_true, if_true, Elem.data_node]
      rw [hPadd]
      rw [if_pos hPd, if_pos hPd, removeClass_addClass, hcl]
  | false =>
      simp only [Bool.false_eq_true, if_false, Elem.data_node]
      rw [hcl]

theorem reset_after_hide_classPred (c : String) (P0 : NodeData → Bool) (Q : Elem → Bool)
    (hQ : ∀ n, Q n = true → P0 n.data = true)
    (hP0 : ∀ d, P0 (addClass c d) = P0 d) :
    ∀ e, Elem.mapMatching (fun x => P0 x.data && x.data.classes.contains c) (removeClass c)
        (Elem.mapMatching Q (addClass c) e)
      = Elem.mapMatching (fun x => P0 x.data && x.data.classes.contains c) (removeClass c) e := by
  apply Elem.inductionOn
  intro d cs ih
  rw [mapMatching_node, mapMatching_node, mapMatching_node]
  have hcl : mapMatchingList (fun x => P0 x.data && x.data.classes.contains c) (removeClass c)
      (mapMatchingList Q (addClass c) cs)
      = mapMatchingList (fun x => P0 x.data && x.data.classes.contains c) (removeClass c) cs := by
    rw [mapMatchingList_eq_map, mapMatchingList_eq_map, mapMatchingList_eq_map,
      List.map_map]
    exact List.map_congr_left (fun x hx => ih x hx)
  cases hQc : Q (Elem.node d cs) with
  | true =>
      have hP0d : P0 d = true := hQ _ hQc
      simp only [eq_self_iff_true, if_true, Elem.data_node]
      rw [hP0, contains_addClass_self]
      simp only [Bool.and_true]
      rw [if_pos hP0d, removeClass_addClass]
      rcases Bool.eq_false_or_eq_true (d.classes.contains c) with hcd | hcd
      · rw [if_pos (show (P0 d && d.classes.contains c) = true by rw [hP0d, hcd]; rfl)]
        rw [hcl]
      · rw [if_neg (show ¬((P0 d && d.classes.contains c) = true) by rw [hcd]; simp)]
        rw [removeClass_of_not_contains hcd, hcl]
  | false =>
      simp only [Bool.false_eq_true, if_false, Elem.data_node]
      rw [hcl]

/-!
## Counting utilities
-/

theorem countLP_cons (p : NodeData → Bool) (c : Elem) (cs : List Elem) :
    countLP p (c :: cs) = countP p c + countLP p cs := by
  unfold countLP
  simp

theorem countLP_append (p : NodeData → Bool) (l1 l2 : List Elem) :
    countLP p (l1 ++ l2) = countLP p l1 + countLP p l2 := by
  unfold countLP
  rw [List.map_append, List.sum_append]

theorem countP_allNodesList (p : NodeData → Bool) (cs : List Elem) :
    (allNodesList cs).countP (fun n => p n.data) = countLP p cs := by
  induction cs with
  | nil => rfl
  | cons c cl ih =>
      show (c.allNodes ++ allNodesList cl).countP _ = _
      rw [List.countP_append, ih, countLP_cons]
      rfl

theorem countP_node (p : NodeData → Bool) (d : NodeData) (cs : List Elem) :
    countP p (.node d cs) = (if p d then 1 else 0) + countLP p cs := by
  unfold countP
  rw [allNodes_node, List.countP_cons, countP_allNodesList]
  simp only [Elem.data_node]
  rw [Nat.add_comm]

theorem countP_eq_zero_iff (p : NodeData → Bool) (e : Elem) :
    countP p e = 0 ↔ dataNoneP p e = true := by
  unfold countP dataNoneP
  rw [List.countP_eq_zero, List.all_eq_true]
  constructor
  · intro h n hn
    cases hb : p n.data with
    | true => exact absurd hb (h n hn)
    | false => simp [hb]
  · intro h n hn
    have := h n hn
    simp only [Bool.not_eq_true'] at this
    simp [this]

theorem countLP_eq_zero_iff (p : NodeData → Bool) (l : List Elem) :
    countLP p l = 0 ↔ listNoneP p l = true := by
  induction l with
  | nil => simp [countLP, listNoneP]
  | cons c cs ih =>
      rw [countLP_cons, listNoneP, List.all_cons, Nat.add_eq_zero, countP_eq_zero_iff,
        Bool.and_eq_true]
      unfold listNoneP at ih
      rw [ih]

theorem countLP_set (p : NodeData → Bool) (cs : List Elem) (i : Nat) (c b : Elem)
    (h : cs.get? i = some c) :
    countLP p (cs.set i b) + countP p c = countLP p cs + countP p b := by
  induction cs generalizing i with
  | nil => cases h
  | cons a l ih =>
      cases i with
      | zero =>
          simp only [List.get?] at h
          cases h
          simp only [List.set]
          rw [countLP_cons, countLP_cons]
          omega
      | succ j =>
          simp only [List.get?] at h
          simp only [List.set]
          rw [countLP_cons, countLP_cons]
          have := ih j h
          omega

theorem getLast?_of_ne_nil {l : List Nat} (h : l ≠ []) :
    l.getLast? = some (l.getLastD 0) := by
  cases l with
  | nil => exact absurd rfl h
  | cons a t => simp [List.getLastD_eq_getLast?, List.getLast?_cons]

theorem set_get?_eq_self {α : Type} {l : List α} {i : Nat} {a : α}
    (h : l.get? i = some a) : l.set i a = l := by
  induction l generalizing i with
  | nil => rfl
  | cons b t ih =>
      cases i with
      | zero => simp_all [List.set]
      | succ j =>
          simp only [List.get?] at h
          simp [List.set, ih h]

/-!
## The cleanliness toolkit
-/

theorem dataNoneP_mono (p q : NodeData → Bool) (himp : ∀ d, p d = true → q d = true)
    (e : Elem) (h : dataNoneP q e = true) : dataNoneP p e = true := by
  unfold dataNoneP at h ⊢
  rw [List.all_eq_true] at h ⊢
  intro n hn
  have hq := h n hn
  simp only [Bool.not_eq_true'] at hq ⊢
  cases hp : p n.data with
  | false => rfl
  | true => rw [himp _ hp] at hq; cases hq

theorem dataNoneP_of_mem {p : NodeData → Bool} {e n : Elem}
    (hn : n ∈ e.allNodes) (h : dataNoneP p e = true) : dataNoneP p n = true := by
  unfold dataNoneP at h ⊢
  rw [List.all_eq_true] at h ⊢
  intro m hm
  exact h m (allNodes_trans hn hm)

theorem listNoneP_of_mem {p : NodeData → Bool} {l : List Elem} {T : Elem}
    (hT : T ∈ l) (h : listNoneP p l = true) : dataNoneP p T = true := by
  unfold listNoneP at h
  rw [List.all_eq_true] at h
  exact h T hT

theorem listNoneP_append (p : NodeData → Bool) (l1 l2 : List Elem) :
    listNoneP p (l1 ++ l2) = (listNoneP p l1 && listNoneP p l2) := by
  unfold listNoneP
  rw [List.all_append]

theorem listNoneP_cons (p : NodeData → Bool) (c : Elem) (cs : List Elem) :
    listNoneP p (c :: cs) = (dataNoneP p c && listNoneP p cs) := by
  unfold listNoneP
  rw [List.all_cons]

theorem dataNoneP_plug_iff (p : NodeData → Bool) (ctx : List CtxLayer) (S : Elem) :
    dataNoneP p (plugCtx ctx S) = true
      ↔ ((∀ L ∈ ctx, p L.data = false ∧ listNoneP p L.left = true
            ∧ listNoneP p L.right = true)
          ∧ dataNoneP p S = true) := by
  induction ctx with
  | nil => simp [plugCtx]
  | cons L ls ih =>
      show dataNoneP p (.node L.data (L.left ++ plugCtx ls S :: L.right)) = true ↔ _
      rw [dataNoneP_node, listNoneP_append, listNoneP_cons]
      simp only [Bool.and_eq_true, Bool.not_eq_true', List.forall_mem_cons, ih]
      tauto

theorem listNoneP_set {p : NodeData → Bool} {cs : List Elem} {i : Nat} {b c : Elem}
    (h : cs.get? i = some c) (hcs : listNoneP p cs = true)
    (hb : dataNoneP p b = true) : listNoneP p (cs.set i b) = true := by
  unfold listNoneP at hcs ⊢
  rw [List.all_eq_true] at hcs ⊢
  intro x hx
  rcases List.mem_or_eq_of_mem_set hx with hmem | hxb
  · exact hcs x hmem
  · rw [hxb]
    exact hb

theorem dataNoneP_removeAt (p : NodeData → Bool) :
    ∀ (doc : Elem) (q : List Nat),
      dataNoneP p doc = true → dataNoneP p (removeAt doc q) = true := by
  apply Elem.inductionOn
  intro d cs ih q h
  cases q with
  | nil => exact h
  | cons i q' =>
      cases q' with
      | nil =>
          show dataNoneP p (.node d (cs.eraseIdx i)) = true
          rw [dataNoneP_node] at h ⊢
          rw [Bool.and_eq_true] at h ⊢
          refine ⟨h.1, ?_⟩
          unfold listNoneP at h ⊢
          rw [List.all_eq_true] at h ⊢
          intro x hx
          exact h.2 x (List.mem_of_mem_eraseIdx hx)
      | cons j q2 =>
          cases hg : cs.get? i with
          | none =>
              simp only [removeAt, hg]
              exact h
          | some c =>
              simp only [removeAt, hg]
              rw [dataNoneP_node] at h ⊢
              rw [Bool.and_eq_true] at h ⊢
              refine ⟨h.1, ?_⟩
              exact listNoneP_set hg h.2
                (ih c (List.get?_mem hg) (j :: q2) (listNoneP_of_mem (List.get?_mem hg) h.2))

theorem dataNoneP_modifyAt (p : NodeData → Bool) (f : Elem → Elem)
    (hf : ∀ e, dataNoneP p e = true → dataNoneP p (f e) = true) :
    ∀ (doc : Elem) (q : List Nat),
      dataNoneP p doc = true → dataNoneP p (modifyAt f doc q) = true := by
  apply Elem.inductionOn
  intro d cs ih q h
  cases q with
  | nil => exact hf _ h
  | cons i q' =>
      cases hg : cs.get? i with
      | none =>
          simp only [modifyAt, hg]
          exact h
      | some c =>
          simp only [modifyAt, hg]
          rw [dataNoneP_node] at h ⊢
          rw [Bool.and_eq_true] at h ⊢
          refine ⟨h.1, ?_⟩
          exact listNoneP_set hg h.2
            (ih c (List.get?_mem hg) q' (listNoneP_of_mem (List.get?_mem hg) h.2))

theorem listNoneP_insertListAt (p : NodeData → Bool) (cs : List Elem) (i : Nat) (x : Elem)
    (hcs : listNoneP p cs = true) (hx : dataNoneP p x = true) :
    listNoneP p (insertListAt cs i x) = true := by
  unfold insertListAt listNoneP at *
  rw [List.all_eq_true] at hcs ⊢
  intro a ha
  rcases List.mem_append.mp ha with h1 | h2
  · exact hcs a (List.mem_of_mem_take h1)
  · rcases List.mem_cons.mp h2 with h3 | h3
    · rw [h3]
      exact hx
    · exact hcs a (List.mem_of_mem_drop h3)

theorem dataNoneP_insertChildAt (p : NodeData → Bool) (doc : Elem) (q : List Nat)
    (i : Nat) (x : Elem) (hd : dataNoneP p doc = true) (hx : dataNoneP p x = true) :
    dataNoneP p (insertChildAt doc q i x) = true := by
  unfold insertChildAt
  refine dataNoneP_modifyAt p _ ?_ doc q hd
  intro e he
  cases e with
  | node d cs =>
      rw [dataNoneP_node] at he
      rw [Bool.and_eq_true] at he
      show dataNoneP p (.node d (insertListAt cs i x)) = true
      rw [dataNoneP_node, Bool.and_eq_true]
      exact ⟨he.1, listNoneP_insertListAt p cs i x he.2 hx⟩

theorem dataNoneP_appendChildAt (p : NodeData → Bool) (doc : Elem) (q : List Nat)
    (x : Elem) (hd : dataNoneP p doc = true) (hx : dataNoneP p x = true) :
    dataNoneP p (appendChildAt doc q x) = true := by
  unfold appendChildAt
  refine dataNoneP_modifyAt p _ ?_ doc q hd
  intro e he
  cases e with
  | node d cs =>
      rw [dataNoneP_node] at he
      rw [Bool.and_eq_true] at he
      show dataNoneP p (.node d (cs ++ [x])) = true
      rw [dataNoneP_node, Bool.and_eq_true, listNoneP_append, Bool.and_eq_true,
        listNoneP_cons]
      exact ⟨he.1, he.2, by rw [hx]; rfl⟩

/-!
## Locating nodes through paths
-/

theorem lt_of_get?_eq_some {α : Type} {l : List α} {i : Nat} {a : α}
    (h : l.get? i = some a) : i < l.length := by
  by_contra hge
  rw [List.get?_eq_none.mpr (Nat.le_of_not_lt hge)] at h
  cases h

theorem findFirstPathChildren_getAt_of (p : NodeData → Bool) (cs : List Elem)
    (h : ∀ c ∈ cs, ∀ q, findFirstPath p c = some q →
        ∃ n, getAt c q = some n ∧ p n.data = true) :
    ∀ i q, findFirstPathChildren p cs = some (i, q) →
      ∃ c, cs.get? i = some c ∧ findFirstPath p c = some q := by
  induction cs with
  | nil => intro i q hf; cases hf
  | cons c cl ih =>
      intro i q hf
      simp only [findFirstPathChildren] at hf
      cases hc : findFirstPath p c with
      | some r =>
          rw [hc] at hf
          cases hf
          exact ⟨c, rfl, hc⟩
      | none =>
          rw [hc] at hf
          cases hcl : findFirstPathChildren p cl with
          | none => rw [hcl] at hf; cases hf
          | some x =>
              rw [hcl] at hf
              simp only [Option.map_some'] at hf
              cases hf
              obtain ⟨c', hc', hf'⟩ :=
                ih (fun y hy => h y (List.mem_cons_of_mem _ hy)) x.1 x.2 hcl
              exact ⟨c', hc', hf'⟩

theorem findFirstPath_getAt (p : NodeData → Bool) :
    ∀ e q, findFirstPath p e = some q → ∃ n, getAt e q = some n ∧ p n.data = true := by
  apply Elem.inductionOn
  intro d cs ih q hf
  simp only [findFirstPath] at hf
  cases hd : p d with
  | true =>
      rw [hd] at hf
      simp only [if_true] at hf
      cases hf
      exact ⟨.node d cs, rfl, hd⟩
  | false =>
      rw [hd] at hf
      simp only [Bool.false_eq_true, if_false] at hf
      cases hfc : findFirstPathChildren p cs with
      | none => rw [hfc] at hf; cases hf
      | some x =>
          rw [hfc] at hf
          simp only [Option.map_some'] at hf
          cases hf
          obtain ⟨c, hc, hfc'⟩ := findFirstPathChildren_getAt_of p cs ih x.1 x.2 hfc
          obtain ⟨n, hn, hpn⟩ := ih c (List.get?_mem hc) x.2 hfc'
          refine ⟨n, ?_, hpn⟩
          simp only [getAt, hc]
          exact hn

theorem qselPath_getAt (p : NodeData → Bool) (e : Elem) (q : List Nat)
    (h : qselPath p e = some q) : ∃ n, getAt e q = some n ∧ p n.data = true := by
  cases e with
  | node d cs =>
      unfold qselPath at h
      simp only [Elem.childList_node] at h
      cases hfc : findFirstPathChildren p cs with
      | none => rw [hfc] at h; cases h
      | some x =>
          rw [hfc] at h
          simp only [Option.map_some'] at h
          cases h
          obtain ⟨c, hc, hf⟩ := findFirstPathChildren_getAt_of p cs
            (fun c _ => findFirstPath_getAt p c) x.1 x.2 hfc
          obtain ⟨n, hn, hpn⟩ := findFirstPath_getAt p c x.2 hf
          refine ⟨n, ?_, hpn⟩
          simp only [getAt, hc]
          exact hn

theorem qselPath_shape {p : NodeData → Bool} {e : Elem} {q : List Nat}
    (h : qselPath p e = some q) : q ≠ [] := by
  unfold qselPath at h
  cases hfc : findFirstPathChildren p e.childList with
  | none => rw [hfc] at h; cases h
  | some x =>
      rw [hfc] at h
      simp only [Option.map_some'] at h
      cases h
      simp

theorem qselPath_eq_none_iff (p : NodeData → Bool) (e : Elem) :
    qselPath p e = none ↔ listNoneP p e.childList = true := by
  unfold qselPath
  rw [Option.map_eq_none']
  exact findFirstPathChildren_eq_none_of p e.childList (fun c _ => findFirstPath_eq_none p c)

theorem findFirstPath_root_false {p : NodeData → Bool} {e : Elem}
    (h : p e.data = false) : findFirstPath p e = qselPath p e := by
  cases e with
  | node d cs =>
      simp only [Elem.data_node] at h
      simp only [findFirstPath, qselPath, h, Elem.childList_node]
      simp

theorem getAt_mapMatching (p : Elem → Bool) (f : NodeData → NodeData) :
    ∀ (e : Elem) (q : List Nat),
      getAt (Elem.mapMatching p f e) q = (getAt e q).map (Elem.mapMatching p f) := by
  apply Elem.inductionOn
  intro d cs ih q
  cases q with
  | nil => rw [mapMatching_node]; rfl
  | cons i q' =>
      rw [mapMatching_node]
      simp only [getAt, mapMatchingList_eq_map, List.get?_map]
      cases hg : cs.get? i with
      | none => rfl
      | some c =>
          simp only [Option.map_some']
          exact ih c (List.get?_mem hg) q'

theorem findFirstPathChildren_set (p : NodeData → Bool) (cs : List Elem) (i : Nat)
    (c c' : Elem) (r : List Nat) (hcs : listNoneP p cs = true) (hi : cs.get? i = some c)
    (hc' : findFirstPath p c' = some r) :
    findFirstPathChildren p (cs.set i c') = some (i, r) := by
  induction cs generalizing i with
  | nil => cases hi
  | cons a l ih =>
      rw [listNoneP_cons, Bool.and_eq_true] at hcs
      cases i with
      | zero =>
          simp only [List.set]
          simp only [findFirstPathChildren, hc']
      | succ j =>
          simp only [List.get?] at hi
          simp only [List.set]
          have ha : findFirstPath p a = none := (findFirstPath_eq_none p a).mpr hcs.1
          simp only [findFirstPathChildren, ha]
          rw [ih j hcs.2 hi]
          rfl

theorem findFirstPath_appendChildAt (p : NodeData → Bool) :
    ∀ (t : Elem) (q : List Nat) (u ph : Elem),
      dataNoneP p t = true → p ph.data = true → getAt t q = some u →
      findFirstPath p (appendChildAt t q ph) = some (q ++ [u.childList.length]) := by
  apply Elem.inductionOn
  intro d cs ih q u ph hcl hph hu
  rw [dataNoneP_node, Bool.and_eq_true, Bool.not_eq_true'] at hcl
  cases q with
  | nil =>
      cases hu
      show findFirstPath p (.node d (cs ++ [ph])) = some ([] ++ [cs.length])
      simp only [findFirstPath, hcl.1, Bool.false_eq_true, if_false]
      rw [findFirstPathChildren_append_shift p _ _ hcl.2]
      have hf : findFirstPath p ph = some [] := by
        cases ph with
        | node pd pcs =>
            simp only [Elem.data_node] at hph
            simp only [findFirstPath, hph, if_true]
      simp only [findFirstPathChildren, hf, Option.map_some']
      simp
  | cons i q' =>
      cases hgi : cs.get? i with
      | none =>
          simp only [getAt, hgi] at hu
          cases hu
      | some c =>
          simp only [getAt, hgi] at hu
          have happ : appendChildAt (Elem.node d cs) (i :: q') ph
              = Elem.node d (cs.set i (appendChildAt c q' ph)) := by
            unfold appendChildAt
            simp only [modifyAt, hgi]
          rw [happ]
          show findFirstPath p (.node d (cs.set i (appendChildAt c q' ph)))
              = some ((i :: q') ++ [u.childList.length])
          simp only [findFirstPath, hcl.1, Bool.false_eq_true, if_false]
          have hsub := ih c (List.get?_mem hgi) q' u ph
            (listNoneP_of_mem (List.get?_mem hgi) hcl.2) hph hu
          rw [findFirstPathChildren_set p cs i c _ _ hcl.2 hgi hsub]
          simp

theorem removeAt_appendChildAt :
    ∀ (t : Elem) (q : List Nat) (u ph : Elem), getAt t q = some u →
      removeAt (appendChildAt t q ph) (q ++ [u.childList.length]) = t := by
  apply Elem.inductionOn
  intro d cs ih q u ph hu
  cases q with
  | nil =>
      cases hu
      show removeAt (.node d (cs ++ [ph])) [cs.length] = .node d cs
      simp only [removeAt]
      rw [show cs ++ [ph] = cs ++ ph :: [] from rfl, eraseIdx_append_length,
        List.append_nil]
  | cons i q' =>
      cases hgi : cs.get? i with
      | none =>
          simp only [getAt, hgi] at hu
          cases hu
      | some c =>
          simp only [getAt, hgi] at hu
          have hlt : i < cs.length := lt_of_get?_eq_some hgi
          have happ : appendChildAt (Elem.node d cs) (i :: q') ph
              = Elem.node d (cs.set i (appendChildAt c q' ph)) := by
            unfold appendChildAt
            simp only [modifyAt, hgi]
          rw [happ]
          show removeAt (.node d (cs.set i (appendChildAt c q' ph)))
              ((i :: q') ++ [u.childList.length]) = .node d cs
          have hne : q' ++ [u.childList.length] ≠ [] := by simp
          rcases List.exists_cons_of_ne_nil hne with ⟨j, rest, hjr⟩
          rw [show (i :: q') ++ [u.childList.length] = i :: (q' ++ [u.childList.length])
            from rfl, hjr]
          simp only [removeAt, List.get?_set_eq_of_lt _ hlt]
          rw [List.set_set, ← hjr, ih c (List.get?_mem hgi) q' u ph hu,
            set_get?_eq_self hgi]

/-!
## Rewrites that fix, count or clear markers
-/

theorem mapMatching_eq_self_of_fix (P : Elem → Bool) (f : NodeData → NodeData) :
    ∀ e : Elem, (∀ n ∈ e.allNodes, f n.data = n.data) → Elem.mapMatching P f e = e := by
  apply Elem.inductionOn
  intro d cs ih h
  rw [mapMatching_node]
  have hroot : f d = d := h _ (self_mem_allNodes (.node d cs))
  rw [hroot, ite_self]
  congr 1
  rw [mapMatchingList_eq_map]
  have hcc : ∀ c ∈ cs, Elem.mapMatching P f c = c := fun c hc =>
    ih c hc (fun n hn => h n (mem_allNodes_of_mem_child hc hn))
  rw [show cs.map (Elem.mapMatching P f) = cs.map id from List.map_congr_left hcc,
    List.map_id]

theorem dataNoneP_root {p : NodeData → Bool} {n : Elem} (h : dataNoneP p n = true) :
    p n.data = false := by
  unfold dataNoneP at h
  rw [List.all_eq_true] at h
  have hx := h n (self_mem_allNodes n)
  rwa [Bool.not_eq_true'] at hx

theorem mapMatching_removeClass_eq_self (P : Elem → Bool) (c : String) (e : Elem)
    (h : dataNoneP (fun d => d.classes.contains c) e = true) :
    Elem.mapMatching P (removeClass c) e = e := by
  apply mapMatching_eq_self_of_fix
  intro n hn
  exact removeClass_of_not_contains (dataNoneP_root (dataNoneP_of_mem hn h))

theorem mapMatching_eq_self_of_none (P : Elem → Bool) (p : NodeData → Bool)
    (f : NodeData → NodeData) (hP : ∀ n, P n = true → p n.data = true)
    (e : Elem) (h : dataNoneP p e = true) : Elem.mapMatching P f e = e := by
  apply mapMatching_eq_self
  intro n hn
  unfold dataNoneP at h
  rw [List.all_eq_true] at h
  have hpn := h n hn
  rw [Bool.not_eq_true'] at hpn
  cases hPn : P n with
  | false => rfl
  | true => rw [hP n hPn] at hpn; cases hpn

theorem countP_mapMatching (p : NodeData → Bool) (P : Elem → Bool)
    (f : NodeData → NodeData) (hf : ∀ d, p (f d) = p d) (e : Elem) :
    countP p (Elem.mapMatching P f e) = countP p e := by
  unfold countP
  rw [allNodes_mapMatching, List.countP_map]
  apply List.countP_congr
  intro n _
  simp only [Function.comp_apply]
  rw [mapMatching_data]
  cases hP : P n <;> simp [hf]

theorem countLP_mapMatchingList (p : NodeData → Bool) (P : Elem → Bool)
    (f : NodeData → NodeData) (hf : ∀ d, p (f d) = p d) (cs : List Elem) :
    countLP p (mapMatchingList P f cs) = countLP p cs := by
  rw [mapMatchingList_eq_map]
  unfold countLP
  rw [List.map_map]
  congr 1
  apply List.map_congr_left
  intro c _
  exact countP_mapMatching p P f hf c

theorem listNoneP_map_iff (p : NodeData → Bool) (M : Elem → Elem) (cs : List Elem) :
    listNoneP p (cs.map M) = true ↔ ∀ c ∈ cs, dataNoneP p (M c) = true := by
  unfold listNoneP
  rw [List.all_map, List.all_eq_true]
  constructor
  · intro h c hc; exact h c hc
  · intro h c hc; exact h c hc

theorem mapMatching_appendChildAt (P : Elem → Bool) (f : NodeData → NodeData)
    (hP : ∀ d cs cs', P (.node d cs) = P (.node d cs'))
    (x : Elem) (hx : Elem.mapMatching P f x = x) :
    ∀ (doc : Elem) (q : List Nat),
      Elem.mapMatching P f (appendChildAt doc q x)
        = appendChildAt (Elem.mapMatching P f doc) q x := by
  apply Elem.inductionOn
  intro d cs ih q
  cases q with
  | nil =>
      show Elem.mapMatching P f (.node d (cs ++ [x]))
          = appendChildAt (Elem.mapMatching P f (.node d cs)) [] x
      rw [mapMatching_node, mapMatching_node]
      show Elem.node (if P (.node d (cs ++ [x])) then f d else d)
            (mapMatchingList P f (cs ++ [x]))
          = Elem.node (if P (.node d cs) then f d else d) (mapMatchingList P f cs ++ [x])
      rw [hP d (cs ++ [x]) cs]
      congr 1
      rw [mapMatchingList_eq_map, mapMatchingList_eq_map, List.map_append]
      show cs.map _ ++ [Elem.mapMatching P f x] = _
      rw [hx]
  | cons i q' =>
      cases hg : cs.get? i with
      | none =>
          have h1 : appendChildAt (Elem.node d cs) (i :: q') x = Elem.node d cs := by
            unfold appendChildAt
            simp only [modifyAt, hg]
          have h2 : appendChildAt (Elem.mapMatching P f (Elem.node d cs)) (i :: q') x
              = Elem.mapMatching P f (Elem.node d cs) := by
            unfold appendChildAt
            rw [mapMatching_node]
            simp only [modifyAt, mapMatchingList_eq_map, List.get?_map, hg, Option.map_none']
          rw [h1, h2]
      | some c =>
          have h1 : appendChildAt (Elem.node d cs) (i :: q') x
              = Elem.node d (cs.set i (appendChildAt c q' x)) := by
            unfold appendChildAt
            simp only [modifyAt, hg]
          have h2 : appendChildAt (Elem.mapMatching P f (Elem.node d cs)) (i :: q') x
              = Elem.node (if P (.node d cs) then f d else d)
                  ((mapMatchingList P f cs).set i
                    (appendChildAt (Elem.mapMatching P f c) q' x)) := by
            rw [mapMatching_node]
            unfold appendChildAt
            simp only [modifyAt, mapMatchingList_eq_map, List.get?_map, hg, Option.map_some']
          rw [h1, h2, mapMatching_node]
          rw [hP d (cs.set i (appendChildAt c q' x)) cs]
          congr 1
          rw [mapMatchingList_eq_map, mapMatchingList_eq_map, List.map_set]
          rw [ih c (List.get?_mem hg) q']

theorem reset_after_hide_dataPred_list (c : String) (P : NodeData → Bool) (Q : Elem → Bool)
    (hQP : ∀ n, Q n = true → P n.data = true)
    (hPadd : ∀ d, P (addClass c d) = P d) (cs : List Elem) :
    mapMatchingList (fun x => P x.data) (removeClass c) (mapMatchingList Q (addClass c) cs)
      = mapMatchingList (fun x => P x.data) (removeClass c) cs := by
  rw [mapMatchingList_eq_map, mapMatchingList_eq_map, mapMatchingList_eq_map, List.map_map]
  apply List.map_congr_left
  intro x _
  exact reset_after_hide_dataPred c P Q hQP hPadd x

theorem resetList_hideList (cs : List Elem) :
    mapMatchingList (fun e => e.hasClass "pageroom-char") (removeClass hiddenChar)
      (mapMatchingList (fun e => e.hasClass "pageroom-char" && isSleeperChar e)
        (addClass hiddenChar) cs)
    = mapMatchingList (fun e => e.hasClass "pageroom-char") (removeClass hiddenChar) cs := by
  exact reset_after_hide_dataPred_list hiddenChar
    (fun d => d.classes.contains "pageroom-char") _
    (fun n hn => by
      rw [Bool.and_eq_true] at hn
      exact hn.1)
    (fun d => contains_addClass_ne (by decide) d) cs

theorem resetList_eq_self (cs : List Elem) (h : listNoneP hidSel cs = true) :
    mapMatchingList (fun e => e.hasClass "pageroom-char") (removeClass hiddenChar) cs
      = cs := by
  rw [mapMatchingList_eq_map]
  have hcc : ∀ c ∈ cs, Elem.mapMatching (fun e => e.hasClass "pageroom-char")
      (removeClass hiddenChar) c = c := fun c hc =>
    mapMatching_removeClass_eq_self _ _ c (listNoneP_of_mem hc h)
  rw [show cs.map _ = cs.map id from List.map_congr_left hcc, List.map_id]

theorem resetCharsIn_hideSleepersIn (t : Elem) (h : dataNoneP hidSel t = true) :
    resetCharsIn (hideSleepersIn t) = t := by
  cases t with
  | node d cs =>
      rw [dataNoneP_node, Bool.and_eq_true] at h
      show Elem.node d (mapMatchingList (fun e => e.hasClass "pageroom-char")
          (removeClass hiddenChar) (mapMatchingList
            (fun e => e.hasClass "pageroom-char" && isSleeperChar e)
            (addClass hiddenChar) cs))
        = Elem.node d cs
      rw [resetList_hideList, resetList_eq_self cs h.2]

theorem resetCharsIn_eq_self (t : Elem) (h : dataNoneP hidSel t = true) :
    resetCharsIn t = t := by
  cases t with
  | node d cs =>
      rw [dataNoneP_node, Bool.and_eq_true] at h
      show Elem.node d (mapMatchingList (fun e => e.hasClass "pageroom-char")
          (removeClass hiddenChar) cs) = Elem.node d cs
      rw [resetList_eq_self cs h.2]

theorem reset_clears_hidden_tree :
    ∀ c : Elem, dataNoneP (fun d => hidSel d && !charSel d && !exitSel d) c = true →
      dataNoneP (fun d => hidSel d && !exitSel d)
        (Elem.mapMatching (fun e => e.hasClass "pageroom-char")
          (removeClass hiddenChar) c) = true := by
  apply Elem.inductionOn
  intro d cs ih h
  rw [dataNoneP_node, Bool.and_eq_true, Bool.not_eq_true'] at h
  rw [mapMatching_node, dataNoneP_node, Bool.and_eq_true, Bool.not_eq_true']
  constructor
  · rcases Bool.eq_false_or_eq_true (charSel d) with hch | hch
    · rw [if_pos (show (Elem.node d cs).hasClass "pageroom-char" = true from hch)]
      show (hidSel (removeClass hiddenChar d) && !exitSel (removeClass hiddenChar d)) = false
      have hh : hidSel (removeClass hiddenChar d) = false := contains_removeClass_self _ _
      rw [hh]
      rfl
    · rw [if_neg (show ¬((Elem.node d cs).hasClass "pageroom-char" = true) by
        show ¬(charSel d = true)
        rw [hch]
        simp)]
      have h1 := h.1
      rw [hch] at h1
      simpa using h1
  · rw [mapMatchingList_eq_map]
    refine (listNoneP_map_iff _ _ _).mpr ?_
    intro c hc
    exact ih c hc (listNoneP_of_mem hc h.2)

theorem reset_clears_hidden (s : Elem)
    (hroot : hidSel s.data = false)
    (hh : dataNoneP (fun d => hidSel d && !charSel d && !exitSel d) s = true) :
    dataNoneP (fun d => hidSel d && !exitSel d) (resetCharsIn s) = true := by
  cases s with
  | node d cs =>
      rw [dataNoneP_node, Bool.and_eq_true, Bool.not_eq_true'] at hh
      show dataNoneP _ (.node d (mapMatchingList _ _ cs)) = true
      rw [dataNoneP_node, Bool.and_eq_true, Bool.not_eq_true']
      constructor
      · simp only [Elem.data_node] at hroot
        rw [hroot]
        rfl
      · rw [mapMatchingList_eq_map]
        refine (listNoneP_map_iff _ _ _).mpr ?_
        intro c hc
        exact reset_clears_hidden_tree c (listNoneP_of_mem hc hh.2)

theorem exitReset_clears_hidden :
    ∀ e : Elem, dataNoneP (fun d => hidSel d && !exitSel d) e = true →
      dataNoneP hidSel (exitResetStep e) = true := by
  apply Elem.inductionOn
  intro d cs ih h
  rw [dataNoneP_node, Bool.and_eq_true, Bool.not_eq_true'] at h
  show dataNoneP hidSel (Elem.mapMatching _ _ (.node d cs)) = true
  rw [mapMatching_node, dataNoneP_node, Bool.and_eq_true, Bool.not_eq_true']
  constructor
  · rcases Bool.eq_false_or_eq_true
        ((Elem.node d cs).hasClass "pageroom-exitchars--char"
          && (Elem.node d cs).hasClass hiddenChar) with hp | hp
    · rw [if_pos hp]
      exact contains_removeClass_self _ _
    · rw [if_neg (by rw [hp]; simp)]
      rw [Bool.and_eq_false_iff] at hp
      rcases hp with hp | hp
      · have h1 := h.1
        rw [show exitSel d = false from hp] at h1
        simpa using h1
      · exact hp
  · rw [mapMatchingList_eq_map]
    refine (listNoneP_map_iff _ _ _).mpr ?_
    intro c hc
    exact ih c hc (listNoneP_of_mem hc h.2)

theorem hideSleepers_marks_chars :
    ∀ e : Elem, dataNoneP hidSel e = true →
      dataNoneP (fun d => hidSel d && !charSel d)
        (Elem.mapMatching (fun n => n.hasClass "pageroom-char" && isSleeperChar n)
          (addClass hiddenChar) e) = true := by
  apply Elem.inductionOn
  intro d cs ih h
  rw [dataNoneP_node, Bool.and_eq_true, Bool.not_eq_true'] at h
  rw [mapMatching_node, dataNoneP_node, Bool.and_eq_true, Bool.not_eq_true']
  constructor
  · rcases Bool.eq_false_or_eq_true
        ((Elem.node d cs).hasClass "pageroom-char" && isSleeperChar (Elem.node d cs))
        with hp | hp
    · rw [if_pos hp]
      rw [Bool.and_eq_true] at hp
      have hchar : charSel (addClass hiddenChar d) = true := by
        show (addClass hiddenChar d).classes.contains "pageroom-char" = true
        rw [contains_addClass_ne (by decide)]
        exact hp.1
      rw [hchar]
      simp
    · rw [if_neg (by rw [hp]; simp)]
      rw [h.1]
      rfl
  · rw [mapMatchingList_eq_map]
    refine (listNoneP_map_iff _ _ _).mpr ?_
    intro c hc
    exact ih c hc (listNoneP_of_mem hc h.2)

theorem hideSleepersIn_marks_chars (t : Elem) (h : dataNoneP hidSel t = true) :
    dataNoneP (fun d => hidSel d && !charSel d) (hideSleepersIn t) = true := by
  cases t with
  | node d cs =>
      rw [dataNoneP_node, Bool.and_eq_true, Bool.not_eq_true'] at h
      show dataNoneP _ (.node d (mapMatchingList _ _ cs)) = true
      rw [dataNoneP_node, Bool.and_eq_true, Bool.not_eq_true']
      constructor
      · rw [h.1]
        rfl
      · rw [mapMatchingList_eq_map]
        refine (listNoneP_map_iff _ _ _).mpr ?_
        intro c hc
        exact hideSleepers_marks_chars c (listNoneP_of_mem hc h.2)

theorem exitHide_marks_exits :
    ∀ (urls : List String) (e : Elem), dataNoneP hidSel e = true →
      dataNoneP (fun d => hidSel d && !exitSel d) (exitHideStep urls e) = true := by
  intro urls
  apply Elem.inductionOn
  intro d cs ih h
  rw [dataNoneP_node, Bool.and_eq_true, Bool.not_eq_true'] at h
  show dataNoneP _ (Elem.mapMatching _ _ (.node d cs)) = true
  rw [mapMatching_node, dataNoneP_node, Bool.and_eq_true, Bool.not_eq_true']
  constructor
  · rcases Bool.eq_false_or_eq_true
        ((Elem.node d cs).hasClass "pageroom-exitchars--char"
          && exitCharMatches urls (Elem.node d cs)) with hp | hp
    · rw [if_pos hp]
      rw [Bool.and_eq_true] at hp
      have hexit : exitSel (addClass hiddenChar d) = true := by
        show (addClass hiddenChar d).classes.contains "pageroom-exitchars--char" = true
        rw [contains_addClass_ne (by decide)]
        exact hp.1
      rw [hexit]
      simp
    · rw [if_neg (by rw [hp]; simp)]
      rw [h.1]
      rfl
  · rw [mapMatchingList_eq_map]
    refine (listNoneP_map_iff _ _ _).mpr ?_
    intro c hc
    exact ih c hc (listNoneP_of_mem hc h.2)

/-!
## Context algebra
-/

theorem mem_ctxMapSib {M : Elem → Elem} {ctx : List CtxLayer} {L' : CtxLayer}
    (h : L' ∈ ctxMapSib M ctx) :
    ∃ L ∈ ctx, L'.data = L.data ∧ L'.left = L.left.map M ∧ L'.right = L.right.map M := by
  unfold ctxMapSib at h
  rcases List.mem_map.mp h with ⟨L, hL, hEq⟩
  exact ⟨L, hL, by rw [← hEq], by rw [← hEq], by rw [← hEq]⟩

theorem mem_ctxInsAfter {ctx : List CtxLayer} {x : Elem} {L' : CtxLayer}
    (h : L' ∈ ctxInsAfter ctx x) :
    ∃ L ∈ ctx, L'.data = L.data ∧ L'.left = L.left
      ∧ (L'.right = L.right ∨ L'.right = x :: L.right) := by
  induction ctx with
  | nil => cases h
  | cons L ls ih =>
      cases ls with
      | nil =>
          have h2 : L' = ⟨L.data, L.left, x :: L.right⟩ := by
            rcases List.mem_cons.mp h with h3 | h3
            · exact h3
            · cases h3
          rw [h2]
          exact ⟨L, List.mem_cons_self _ _, rfl, rfl, Or.inr rfl⟩
      | cons L2 ls2 =>
          rcases List.mem_cons.mp h with h3 | h3
          · rw [h3]
            exact ⟨L, List.mem_cons_self _ _, rfl, rfl, Or.inl rfl⟩
          · rcases ih h3 with ⟨L0, hL0, he⟩
            exact ⟨L0, List.mem_cons_of_mem _ hL0, he⟩

theorem ctxInsAfter_ne_nil {ctx : List CtxLayer} (x : Elem) (h : ctx ≠ []) :
    ctxInsAfter ctx x ≠ [] := by
  cases ctx with
  | nil => exact absurd rfl h
  | cons L ls => cases ls <;> simp [ctxInsAfter]

theorem ctxMapSib_ne_nil {M : Elem → Elem} {ctx : List CtxLayer} (h : ctx ≠ []) :
    ctxMapSib M ctx ≠ [] := by
  unfold ctxMapSib
  simp [h]

theorem ctxCount_cons (p : NodeData → Bool) (L : CtxLayer) (ls : List CtxLayer) :
    ctxCount p (L :: ls)
      = ((if p L.data then 1 else 0) + countLP p L.left + countLP p L.right)
        + ctxCount p ls := by
  unfold ctxCount
  rw [List.map_cons, List.sum_cons]

theorem countP_plug (p : NodeData → Bool) (ctx : List CtxLayer) (S : Elem) :
    countP p (plugCtx ctx S) = ctxCount p ctx + countP p S := by
  induction ctx with
  | nil => simp [plugCtx, ctxCount]
  | cons L ls ih =>
      show countP p (.node L.data (L.left ++ plugCtx ls S :: L.right)) = _
      rw [countP_node, countLP_append, countLP_cons, ih, ctxCount_cons]
      omega

theorem ctxCount_ctxInsAfter (p : NodeData → Bool) (ctx : List CtxLayer) (x : Elem)
    (h : ctx ≠ []) :
    ctxCount p (ctxInsAfter ctx x) = ctxCount p ctx + countP p x := by
  induction ctx with
  | nil => exact absurd rfl h
  | cons L ls ih =>
      cases ls with
      | nil =>
          show ctxCount p [⟨L.data, L.left, x :: L.right⟩] = _
          rw [ctxCount_cons, ctxCount_cons]
          unfold ctxCount
          simp only [List.map_nil, List.sum_nil]
          rw [countLP_cons]
          omega
      | cons L2 ls2 =>
          show ctxCount p (L :: ctxInsAfter (L2 :: ls2) x) = _
          rw [ctxCount_cons, ih (by simp), ctxCount_cons p L (L2 :: ls2)]
          omega

theorem countLP_map_of (p : NodeData → Bool) (M : Elem → Elem) (l : List Elem)
    (hM : ∀ T, countP p (M T) = countP p T) : countLP p (l.map M) = countLP p l := by
  unfold countLP
  rw [List.map_map]
  congr 1
  apply List.map_congr_left
  intro T _
  exact hM T

theorem ctxCount_ctxMapSib (p : NodeData → Bool) (M : Elem → Elem) (ctx : List CtxLayer)
    (hM : ∀ T, countP p (M T) = countP p T) :
    ctxCount p (ctxMapSib M ctx) = ctxCount p ctx := by
  unfold ctxCount ctxMapSib
  rw [List.map_map]
  congr 1
  apply List.map_congr_left
  intro L _
  simp only [Function.comp_apply]
  rw [countLP_map_of p M _ hM, countLP_map_of p M _ hM]

theorem ctxCount_eq_zero (p : NodeData → Bool) (ctx : List CtxLayer)
    (h : ∀ L ∈ ctx, p L.data = false ∧ listNoneP p L.left = true
      ∧ listNoneP p L.right = true) : ctxCount p ctx = 0 := by
  unfold ctxCount
  rw [List.sum_eq_zero]
  intro x hx
  rcases List.mem_map.mp hx with ⟨L, hL, hEq⟩
  obtain ⟨h1, h2, h3⟩ := h L hL
  rw [← hEq, h1, (countLP_eq_zero_iff _ _).mpr h2, (countLP_eq_zero_iff _ _).mpr h3]
  simp

theorem ctxMapSib_comp (M1 M2 : Elem → Elem) (ctx : List CtxLayer) :
    ctxMapSib M1 (ctxMapSib M2 ctx) = ctxMapSib (fun T => M1 (M2 T)) ctx := by
  unfold ctxMapSib
  rw [List.map_map]
  apply List.map_congr_left
  intro L _
  simp [List.map_map]

theorem ctxMapSib_eq_self (M : Elem → Elem) (ctx : List CtxLayer)
    (h : ∀ L ∈ ctx, (∀ T ∈ L.left, M T = T) ∧ (∀ T ∈ L.right, M T = T)) :
    ctxMapSib M ctx = ctx := by
  unfold ctxMapSib
  rw [show ctx.map _ = ctx.map id from List.map_congr_left ?_, List.map_id]
  intro L hL
  obtain ⟨h1, h2⟩ := h L hL
  show (⟨L.data, L.left.map M, L.right.map M⟩ : CtxLayer) = L
  rw [show L.left.map M = L.left.map id from List.map_congr_left h1, List.map_id,
    show L.right.map M = L.right.map id from List.map_congr_left h2, List.map_id]

/-!
## The exit-filter steps as whole-document rewrites
-/

theorem exitResetStep_plug (ctx : List CtxLayer) (S : Elem)
    (hlay : ∀ L ∈ ctx, hidSel L.data = false) :
    exitResetStep (plugCtx ctx S)
      = plugCtx (ctxMapSib exitResetStep ctx) (exitResetStep S) := by
  unfold exitResetStep
  apply mapMatching_plug
  intro L hL cs
  show (L.data.classes.contains "pageroom-exitchars--char"
      && L.data.classes.contains hiddenChar) = false
  rw [show L.data.classes.contains hiddenChar = false from hlay L hL]
  simp

theorem exitHideStep_plug (urls : List String) (ctx : List CtxLayer) (S : Elem)
    (hlay : ∀ L ∈ ctx, exitSel L.data = false) :
    exitHideStep urls (plugCtx ctx S)
      = plugCtx (ctxMapSib (exitHideStep urls) ctx) (exitHideStep urls S) := by
  unfold exitHideStep
  apply mapMatching_plug
  intro L hL cs
  show (L.data.classes.contains "pageroom-exitchars--char"
      && exitCharMatches urls (.node L.data cs)) = false
  rw [show L.data.classes.contains "pageroom-exitchars--char" = false from hlay L hL]
  simp

theorem exitResetStep_eq_self (e : Elem) (h : dataNoneP hidSel e = true) :
    exitResetStep e = e :=
  mapMatching_eq_self_of_none _ hidSel _
    (fun n hn => by rw [Bool.and_eq_true] at hn; exact hn.2) e h

theorem exitHideStep_eq_self (urls : List String) (e : Elem)
    (h : dataNoneP exitSel e = true) : exitHideStep urls e = e :=
  mapMatching_eq_self_of_none _ exitSel _
    (fun n hn => by rw [Bool.and_eq_true] at hn; exact hn.1) e h

theorem exitReset_exitHide (urls : List String) (T : Elem) :
    exitResetStep (exitHideStep urls T) = exitResetStep T :=
  reset_after_hide_classPred hiddenChar exitSel _
    (fun n hn => by rw [Bool.and_eq_true] at hn; exact hn.1)
    (fun d => contains_addClass_ne (by decide) d) T

theorem exitMark_eq_self (sl : List Elem) (T : Elem) (h : dataNoneP exitSel T = true) :
    exitMark sl T = T := by
  unfold exitMark
  cases h1 : (sl.length == 0) with
  | true => simp [h1]
  | false =>
      cases h2 : ((sleeperAvatarUrls sl).length == 0) with
      | true => simp [h1, h2]
      | false => simp [h1, h2, exitHideStep_eq_self _ _ h]

theorem exitReset_exitMark (sl : List Elem) (T : Elem) (hT : dataNoneP hidSel T = true) :
    exitResetStep (exitMark sl T) = T := by
  unfold exitMark
  cases h1 : (sl.length == 0) with
  | true =>
      simp only [h1, if_true]
      exact exitResetStep_eq_self T hT
  | false =>
      cases h2 : ((sleeperAvatarUrls sl).length == 0) with
      | true =>
          simp only [h1, h2, Bool.false_eq_true, if_false, if_true]
          exact exitResetStep_eq_self T hT
      | false =>
          simp only [h1, h2, Bool.false_eq_true, if_false]
          rw [exitReset_exitHide]
          exact exitResetStep_eq_self T hT

theorem countP_exitMark (p : NodeData → Bool) (hf : ∀ d, p (addClass hiddenChar d) = p d)
    (sl : List Elem) (T : Elem) : countP p (exitMark sl T) = countP p T := by
  unfold exitMark
  cases h1 : (sl.length == 0) with
  | true => simp [h1]
  | false =>
      cases h2 : ((sleeperAvatarUrls sl).length == 0) with
      | true => simp [h1, h2]
      | false =>
          simp only [h1, h2, Bool.false_eq_true, if_false]
          exact countP_mapMatching p _ _ hf T

theorem dataNoneP_exitMark (p : NodeData → Bool)
    (hf : ∀ d, p (addClass hiddenChar d) = p d) (sl : List Elem) (T : Elem) :
    dataNoneP p (exitMark sl T) = dataNoneP p T := by
  unfold exitMark
  cases h1 : (sl.length == 0) with
  | true => simp [h1]
  | false =>
      cases h2 : ((sleeperAvatarUrls sl).length == 0) with
      | true => simp [h1, h2]
      | false =>
          simp only [h1, h2, Bool.false_eq_true, if_false]
          exact dataNoneP_mapMatching p _ _ hf T

theorem filterExitChars_of_reset_id (sl : List Elem) (D : Elem)
    (h : exitResetStep D = D) : filterExitChars true sl D = exitMark sl D := by
  unfold filterExitChars exitMark
  rw [h]
  simp only [Bool.not_true, Bool.false_or]

/-!
## Root data preservation and counting through structural edits
-/

theorem countLP_nil (p : NodeData → Bool) : countLP p [] = 0 := rfl

theorem modifyAt_data_pres (f : Elem → Elem) (hf : ∀ e, (f e).data = e.data) :
    ∀ (doc : Elem) (q : List Nat), (modifyAt f doc q).data = doc.data := by
  intro doc q
  cases q with
  | nil =>
      cases doc with
      | node d cs => exact hf _
  | cons i q' =>
      cases doc with
      | node d cs =>
          cases hg : cs.get? i with
          | none => simp only [modifyAt, hg]
          | some c => simp only [modifyAt, hg, Elem.data_node]

theorem insertChildAt_data (doc : Elem) (q : List Nat) (i : Nat) (x : Elem) :
    (insertChildAt doc q i x).data = doc.data := by
  unfold insertChildAt
  refine modifyAt_data_pres _ ?_ doc q
  intro e
  rfl

theorem appendChildAt_data (doc : Elem) (q : List Nat) (x : Elem) :
    (appendChildAt doc q x).data = doc.data := by
  unfold appendChildAt
  refine modifyAt_data_pres _ ?_ doc q
  intro e
  rfl

theorem togSectionOf_data (b : Bool) (tp : List Nat) (k : Nat) (S : Elem) :
    (togSectionOf b tp k S).data = S.data := by
  unfold togSectionOf
  exact insertChildAt_data S tp k _

theorem hideSleepersIn_data (t : Elem) : (hideSleepersIn t).data = t.data := rfl

theorem resetCharsIn_data (s : Elem) : (resetCharsIn s).data = s.data := rfl

theorem splitSecOfT_data (t : Elem) : (splitSecOfT t).data = t.data := by
  unfold splitSecOfT
  cases hc : (awakeCount t == 0 && !(getCharElements t).isEmpty) with
  | false => simp only [Bool.false_eq_true, if_false]; rfl
  | true =>
      simp only [if_true]
      cases hq : qselPath charSel (hideSleepersIn t) with
      | none => rfl
      | some cp => exact appendChildAt_data _ _ _

theorem countLP_insertListAt (p : NodeData → Bool) (cs : List Elem) (i : Nat) (x : Elem) :
    countLP p (insertListAt cs i x) = countLP p cs + countP p x := by
  unfold insertListAt
  rw [countLP_append, countLP_cons]
  conv_rhs => rw [← List.take_append_drop i cs]
  rw [countLP_append]
  omega

theorem countP_modifyAt_add (p : NodeData → Bool) (f : Elem → Elem) (n : Nat)
    (hf : ∀ e, countP p (f e) = countP p e + n) :
    ∀ (doc : Elem) (q : List Nat) (u : Elem), getAt doc q = some u →
      countP p (modifyAt f doc q) = countP p doc + n := by
  apply Elem.inductionOn
  intro d cs ih q u hu
  cases q with
  | nil => exact hf _
  | cons i q' =>
      cases hg : cs.get? i with
      | none =>
          simp only [getAt, hg] at hu
          cases hu
      | some c =>
          simp only [getAt, hg] at hu
          simp only [modifyAt, hg]
          rw [countP_node, countP_node]
          have hset := countLP_set p cs i c (modifyAt f c q') hg
          have hch := ih c (List.get?_mem hg) q' u hu
          omega

theorem countP_modifyAt_zero (p : NodeData → Bool) (f : Elem → Elem)
    (hf : ∀ e, countP p (f e) = countP p e) :
    ∀ (doc : Elem) (q : List Nat), countP p (modifyAt f doc q) = countP p doc := by
  apply Elem.inductionOn
  intro d cs ih q
  cases q with
  | nil => exact hf _
  | cons i q' =>
      cases hg : cs.get? i with
      | none => simp only [modifyAt, hg]
      | some c =>
          simp only [modifyAt, hg]
          rw [countP_node, countP_node]
          have hset := countLP_set p cs i c (modifyAt f c q') hg
          have hch := ih c (List.get?_mem hg) q'
          omega

theorem countP_insertChildAt_valid (p : NodeData → Bool) (doc : Elem) (q : List Nat)
    (i : Nat) (x u : Elem) (hu : getAt doc q = some u) :
    countP p (insertChildAt doc q i x) = countP p doc + countP p x := by
  unfold insertChildAt
  refine countP_modifyAt_add p _ (countP p x) ?_ doc q u hu
  intro e
  cases e with
  | node d cs =>
      show countP p (.node d (insertListAt cs i x)) = _
      rw [countP_node, countP_node, countLP_insertListAt]
      omega

theorem countP_appendChildAt_valid (p : NodeData → Bool) (doc : Elem) (q : List Nat)
    (x u : Elem) (hu : getAt doc q = some u) :
    countP p (appendChildAt doc q x) = countP p doc + countP p x := by
  unfold appendChildAt
  refine countP_modifyAt_add p _ (countP p x) ?_ doc q u hu
  intro e
  cases e with
  | node d cs =>
      show countP p (.node d (cs ++ [x])) = _
      rw [countP_node, countP_node, countLP_append, countLP_cons, countLP_nil]
      omega

theorem countP_appendChildAt_zero (p : NodeData → Bool) (doc : Elem) (q : List Nat)
    (x : Elem) (hx : countP p x = 0) :
    countP p (appendChildAt doc q x) = countP p doc := by
  unfold appendChildAt
  refine countP_modifyAt_zero p _ ?_ doc q
  intro e
  cases e with
  | node d cs =>
      show countP p (.node d (cs ++ [x])) = _
      rw [countP_node, countP_node, countLP_append, countLP_cons, countLP_nil, hx]
      omega

theorem countP_insertChildAt_zero (p : NodeData → Bool) (doc : Elem) (q : List Nat)
    (i : Nat) (x : Elem) (hx : countP p x = 0) :
    countP p (insertChildAt doc q i x) = countP p doc := by
  unfold insertChildAt
  refine countP_modifyAt_zero p _ ?_ doc q
  intro e
  cases e with
  | node d cs =>
      show countP p (.node d (insertListAt cs i x)) = _
      rw [countP_node, countP_node, countLP_insertListAt, hx]
      omega

theorem countP_hideSleepersIn (p : NodeData → Bool)
    (hf : ∀ d, p (addClass hiddenChar d) = p d) (t : Elem) :
    countP p (hideSleepersIn t) = countP p t := by
  cases t with
  | node d cs =>
      show countP p (.node d (mapMatchingList _ _ cs)) = _
      rw [countP_node, countP_node, countLP_mapMatchingList p _ _ hf]

theorem countP_resetCharsIn (p : NodeData → Bool)
    (hf : ∀ d, p (removeClass hiddenChar d) = p d) (s : Elem) :
    countP p (resetCharsIn s) = countP p s := by
  cases s with
  | node d cs =>
      show countP p (.node d (mapMatchingList _ _ cs)) = _
      rw [countP_node, countP_node, countLP_mapMatchingList p _ _ hf]

/-!
## Counting the built sleepers section
-/

theorem countP_cloneStrip_inv (p : NodeData → Bool)
    (hp : ∀ d, p (removeClass hiddenChar d) = p d) (e : Elem) :
    countP p (cloneStripHidden e) = countP p e := by
  cases e with
  | node d cs =>
      show countP p (.node (removeClass hiddenChar d) (mapMatchingList _ _ cs)) = _
      rw [countP_node, countP_node, hp, countLP_mapMatchingList p _ _ hp]

theorem dataNoneP_cloneStrip_inv (p : NodeData → Bool)
    (hp : ∀ d, p (removeClass hiddenChar d) = p d) (e : Elem) :
    dataNoneP p (cloneStripHidden e) = dataNoneP p e := by
  cases e with
  | node d cs =>
      show dataNoneP p (.node (removeClass hiddenChar d) (mapMatchingList _ _ cs)) = _
      rw [dataNoneP_node, dataNoneP_node, hp]
      congr 1
      rw [mapMatchingList_eq_map]
      unfold listNoneP
      rw [List.all_map]
      apply list_all_congr
      intro c _
      show dataNoneP p (Elem.mapMatching _ _ c) = _
      exact dataNoneP_mapMatching p _ _ hp c

theorem dataNoneP_cloneStripHidden (e : Elem) :
    dataNoneP hidSel (cloneStripHidden e) = true := by
  unfold dataNoneP
  rw [List.all_eq_true]
  intro n hn
  rw [Bool.not_eq_true']
  exact cloneStripHidden_no_hidden hn

theorem countLP_clones_zero (p : NodeData → Bool)
    (hp : ∀ d, p (removeClass hiddenChar d) = p d) (sl : List Elem)
    (h : ∀ e ∈ sl, dataNoneP p e = true) :
    countLP p (sl.map cloneStripHidden) = 0 := by
  rw [countLP_map_of p _ _ (countP_cloneStrip_inv p hp)]
  rw [countLP_eq_zero_iff]
  unfold listNoneP
  rw [List.all_eq_true]
  exact h

theorem countP_css_split (p : NodeData → Bool) (so : Bool) (sl : List Elem) :
    countP p (createSleepersSection so sl)
      = (if p ⟨"div", some "msf-sleepers-section", ["msf-sleepers-section"], "", none⟩
          then 1 else 0)
        + (if p ⟨"div", none, ["msf-sleepers-header"], "", none⟩ then 1 else 0)
        + (if p ⟨"span", none, (if so then ["msf-sleepers-arrow", "open"]
              else ["msf-sleepers-arrow"]), "►", none⟩ then 1 else 0)
        + (if p ⟨"span", none, [], "Sleepers", none⟩ then 1 else 0)
        + (if p ⟨"span", none, ["msf-sleepers-count"],
              "(" ++ toString sl.length ++ ")", none⟩ then 1 else 0)
        + (if p ⟨"div", none, (if so then ["msf-sleepers-list"]
              else ["msf-sleepers-list", "collapsed"]), "", none⟩ then 1 else 0)
        + countLP p (if sl.length == 0 then [noSleepersPlaceholder]
              else sl.map cloneStripHidden) := by
  unfold createSleepersSection
  rw [countP_node, countLP_cons, countLP_cons, countP_node, countP_node,
    countLP_cons, countLP_cons, countLP_cons, countP_node, countP_node,
    countP_node, countLP_nil]
  omega

theorem countP_css_ssId (so : Bool) (sl : List Elem)
    (h : ∀ e ∈ sl, dataNoneP ssIdSel e = true) :
    countP ssIdSel (createSleepersSection so sl) = 1 := by
  have hb : countLP ssIdSel (if sl.length == 0 then [noSleepersPlaceholder]
      else sl.map cloneStripHidden) = 0 := by
    cases hl : (sl.length == 0) with
    | true =>
        simp only [if_true]
        decide
    | false =>
        simp only [Bool.false_eq_true, if_false]
        exact countLP_clones_zero ssIdSel
          (fun d => by unfold ssIdSel removeClass; rfl) sl h
  rw [countP_css_split, hb]
  cases so <;> rfl

theorem countP_css_toggle (so : Bool) (sl : List Elem)
    (h : ∀ e ∈ sl, dataNoneP toggleSel e = true) :
    countP toggleSel (createSleepersSection so sl) = 0 := by
  have hb : countLP toggleSel (if sl.length == 0 then [noSleepersPlaceholder]
      else sl.map cloneStripHidden) = 0 := by
    cases hl : (sl.length == 0) with
    | true =>
        simp only [if_true]
        decide
    | false =>
        simp only [Bool.false_eq_true, if_false]
        exact countLP_clones_zero toggleSel
          (fun d => contains_removeClass_ne (by decide) d) sl h
  rw [countP_css_split, hb]
  cases so <;> rfl

theorem countP_css_noAwake (so : Bool) (sl : List Elem)
    (h : ∀ e ∈ sl, dataNoneP noAwakeSel e = true) :
    countP noAwakeSel (createSleepersSection so sl) = 0 := by
  have hb : countLP noAwakeSel (if sl.length == 0 then [noSleepersPlaceholder]
      else sl.map cloneStripHidden) = 0 := by
    cases hl : (sl.length == 0) with
    | true =>
        simp only [if_true]
        decide
    | false =>
        simp only [Bool.false_eq_true, if_false]
        exact countLP_clones_zero noAwakeSel
          (fun d => contains_removeClass_ne (by decide) d) sl h
  rw [countP_css_split, hb]
  cases so <;> rfl

theorem ss_hidden_free (so : Bool) (sl : List Elem) :
    dataNoneP hidSel (createSleepersSection so sl) = true := by
  unfold createSleepersSection
  rw [dataNoneP_node, listNoneP_cons, listNoneP_cons, dataNoneP_node, dataNoneP_node]
  have hbody : listNoneP hidSel (if sl.length == 0 then [noSleepersPlaceholder]
      else sl.map cloneStripHidden) = true := by
    cases hl : (sl.length == 0) with
    | true =>
        simp only [if_true]
        decide
    | false =>
        simp only [Bool.false_eq_true, if_false]
        refine (listNoneP_map_iff _ _ _).mpr ?_
        intro c _
        exact dataNoneP_cloneStripHidden c
  rw [hbody]
  cases so <;> rfl

theorem ss_exit_free (so : Bool) (sl : List Elem)
    (h : ∀ e ∈ sl, dataNoneP exitSel e = true) :
    dataNoneP exitSel (createSleepersSection so sl) = true := by
  rw [← countP_eq_zero_iff]
  have hb : countLP exitSel (if sl.length == 0 then [noSleepersPlaceholder]
      else sl.map cloneStripHidden) = 0 := by
    cases hl : (sl.length == 0) with
    | true =>
        simp only [if_true]
        decide
    | false =>
        simp only [Bool.false_eq_true, if_false]
        exact countLP_clones_zero exitSel
          (fun d => contains_removeClass_ne (by decide) d) sl h
  rw [countP_css_split, hb]
  cases so <;> rfl

theorem ss_ssIdSel_root (so : Bool) (sl : List Elem) :
    ssIdSel (createSleepersSection so sl).data = true := rfl

/-!
## Cleanliness of the section through the split steps
-/

theorem ssIdSel_addClass (c : String) (d : NodeData) :
    ssIdSel (addClass c d) = ssIdSel d := by
  unfold addClass
  cases hc : d.classes.contains c with
  | true => simp only [hc, if_true]
  | false =>
      simp only [hc, Bool.false_eq_true, if_false]
      rfl

theorem ssIdSel_removeClass (c : String) (d : NodeData) :
    ssIdSel (removeClass c d) = ssIdSel d := rfl

theorem sleepers_clean {p : NodeData → Bool} {s : Elem} (h : dataNoneP p s = true) :
    ∀ e ∈ sleepersOf s, dataNoneP p e = true := by
  intro e he
  unfold sleepersOf getCharElements at he
  have he2 : e ∈ s.descendants := List.mem_of_mem_filter (List.mem_of_mem_filter he)
  have he3 : e ∈ s.allNodes := by
    rw [allNodes_eq]
    exact List.mem_cons_of_mem _ he2
  exact dataNoneP_of_mem he3 h

theorem dataNoneP_togSectionOf (p : NodeData → Bool) (b : Bool) (tp : List Nat) (k : Nat)
    (S : Elem) (hS : dataNoneP p S = true) (htog : dataNoneP p (createToggle b) = true) :
    dataNoneP p (togSectionOf b tp k S) = true :=
  dataNoneP_insertChildAt p S tp k _ hS htog

theorem createToggle_clean_hid (b : Bool) : dataNoneP hidSel (createToggle b) = true := by
  cases b <;> decide

theorem createToggle_clean_ssId (b : Bool) : dataNoneP ssIdSel (createToggle b) = true := by
  cases b <;> decide

theorem createToggle_clean_noAwake (b : Bool) :
    dataNoneP noAwakeSel (createToggle b) = true := by
  cases b <;> decide

theorem createToggle_clean_exit (b : Bool) : dataNoneP exitSel (createToggle b) = true := by
  cases b <;> decide

theorem dataNoneP_hideSleepersIn (p : NodeData → Bool)
    (hadd : ∀ d, p (addClass hiddenChar d) = p d) (t : Elem) :
    dataNoneP p (hideSleepersIn t) = dataNoneP p t := by
  cases t with
  | node d cs =>
      show dataNoneP p (.node d (mapMatchingList _ _ cs)) = _
      rw [dataNoneP_node, dataNoneP_node]
      congr 1
      rw [mapMatchingList_eq_map]
      unfold listNoneP
      rw [List.all_map]
      apply list_all_congr
      intro c _
      show dataNoneP p (Elem.mapMatching _ _ c) = _
      exact dataNoneP_mapMatching p _ _ hadd c

theorem dataNoneP_resetCharsIn (p : NodeData → Bool)
    (hrem : ∀ d, p (removeClass hiddenChar d) = p d) (s : Elem) :
    dataNoneP p (resetCharsIn s) = dataNoneP p s := by
  cases s with
  | node d cs =>
      show dataNoneP p (.node d (mapMatchingList _ _ cs)) = _
      rw [dataNoneP_node, dataNoneP_node]
      congr 1
      rw [mapMatchingList_eq_map]
      unfold listNoneP
      rw [List.all_map]
      apply list_all_congr
      intro c _
      show dataNoneP p (Elem.mapMatching _ _ c) = _
      exact dataNoneP_mapMatching p _ _ hrem c

theorem dataNoneP_splitSecOfT (p : NodeData → Bool)
    (hadd : ∀ d, p (addClass hiddenChar d) = p d)
    (t : Elem) (ht : dataNoneP p t = true)
    (hph : dataNoneP p noAwakePlaceholder = true) :
    dataNoneP p (splitSecOfT t) = true := by
  unfold splitSecOfT
  have hh : dataNoneP p (hideSleepersIn t) = true := by
    rw [dataNoneP_hideSleepersIn p hadd]
    exact ht
  cases hc : (awakeCount t == 0 && !(getCharElements t).isEmpty) with
  | false =>
      simp only [Bool.false_eq_true, if_false]
      exact hh
  | true =>
      simp only [if_true]
      cases hq : qselPath charSel (hideSleepersIn t) with
      | none => exact hh
      | some cp => exact dataNoneP_appendChildAt p _ _ _ hh hph

theorem countP_splitSecOfT_zero (p : NodeData → Bool)
    (hadd : ∀ d, p (addClass hiddenChar d) = p d)
    (hph : countP p noAwakePlaceholder = 0) (t : Elem) :
    countP p (splitSecOfT t) = countP p t := by
  unfold splitSecOfT
  cases hc : (awakeCount t == 0 && !(getCharElements t).isEmpty) with
  | false =>
      simp only [Bool.false_eq_true, if_false]
      exact countP_hideSleepersIn p hadd t
  | true =>
      simp only [if_true]
      cases hq : qselPath charSel (hideSleepersIn t) with
      | none => exact countP_hideSleepersIn p hadd t
      | some cp =>
          rw [countP_appendChildAt_zero p _ _ _ hph]
          exact countP_hideSleepersIn p hadd t

theorem listNoneP_mapMatchingList_inv (p : NodeData → Bool) (P : Elem → Bool)
    (f : NodeData → NodeData) (hf : ∀ d, p (f d) = p d) (cs : List Elem) :
    listNoneP p (mapMatchingList P f cs) = listNoneP p cs := by
  rw [mapMatchingList_eq_map]
  unfold listNoneP
  rw [List.all_map]
  apply list_all_congr
  intro c _
  show dataNoneP p (Elem.mapMatching _ _ c) = _
  exact dataNoneP_mapMatching p P f hf c

theorem getCharElements_empty_iff (s : Elem) :
    (getCharElements s).isEmpty = true ↔ listNoneP charSel s.childList = true := by
  unfold getCharElements
  rw [List.isEmpty_iff, List.filter_eq_nil]
  unfold Elem.descendants
  unfold listNoneP
  rw [List.all_eq_true]
  constructor
  · intro h c hc
    unfold dataNoneP
    rw [List.all_eq_true]
    intro n hn
    rw [Bool.not_eq_true']
    have hmem : n ∈ allNodesList s.childList := mem_allNodesList.mpr ⟨c, hc, hn⟩
    have h2 := h n hmem
    cases hcs : charSel n.data with
    | false => rfl
    | true => exact absurd hcs h2
  · intro h n hn
    rcases mem_allNodesList.mp hn with ⟨c, hc, hnc⟩
    have h2 := h c hc
    unfold dataNoneP at h2
    rw [List.all_eq_true] at h2
    have h3 := h2 n hnc
    rw [Bool.not_eq_true'] at h3
    intro hcon
    rw [show n.hasClass "pageroom-char" = charSel n.data from rfl, h3] at hcon
    cases hcon

theorem qselPath_isSome_of_count {p : NodeData → Bool} {e : Elem}
    (hroot : p e.data = false) (hc : countP p e ≠ 0) : (qselPath p e).isSome = true := by
  cases hq : qselPath p e with
  | some q => rfl
  | none =>
      exfalso
      apply hc
      have hl := (qselPath_eq_none_iff p e).mp hq
      cases e with
      | node d cs =>
          rw [countP_node]
          simp only [Elem.data_node] at hroot
          rw [hroot]
          simp only [Elem.childList_node] at hl
          rw [(countLP_eq_zero_iff _ _).mpr hl]
          rfl

theorem countP_togSectionOf_toggle (b : Bool) (tp : List Nat) (k : Nat) (S : Elem)
    (hS : dataNoneP toggleSel S = true) (htp : qselPath titleSel S = some tp) :
    countP toggleSel (togSectionOf b tp k S) = 1 := by
  obtain ⟨u, hu, _⟩ := qselPath_getAt titleSel S tp htp
  unfold togSectionOf
  rw [countP_insertChildAt_valid toggleSel S tp k _ u hu]
  rw [(countP_eq_zero_iff _ _).mpr hS]
  rw [show countP toggleSel (createToggle b) = 1 from by cases b <;> decide]

theorem countP_splitSecOfT_toggle (t : Elem) :
    countP toggleSel (splitSecOfT t) = countP toggleSel t :=
  countP_splitSecOfT_zero toggleSel (fun d => contains_addClass_ne (by decide) d)
    (by decide) t

theorem qselPath_char_hide_ne_none (t : Elem)
    (hchars : (getCharElements t).isEmpty = false) :
    qselPath charSel (hideSleepersIn t) ≠ none := by
  intro hq
  rw [qselPath_eq_none_iff] at hq
  cases t with
  | node d cs =>
      show False
      rw [show (hideSleepersIn (Elem.node d cs)).childList
          = mapMatchingList (fun e => e.hasClass "pageroom-char" && isSleeperChar e)
              (addClass hiddenChar) cs from rfl] at hq
      rw [listNoneP_mapMatchingList_inv charSel _ _
        (fun x => contains_addClass_ne (by decide) x) cs] at hq
      have := (getCharElements_empty_iff (Elem.node d cs)).mpr (by
        simpa using hq)
      rw [this] at hchars
      cases hchars

theorem countP_splitSecOfT_noAwake (t : Elem) (ht : dataNoneP noAwakeSel t = true) :
    countP noAwakeSel (splitSecOfT t)
      = if awakeCount t == 0 && !(getCharElements t).isEmpty then 1 else 0 := by
  have ht0 : countP noAwakeSel t = 0 := (countP_eq_zero_iff _ _).mpr ht
  have hadd : ∀ d, noAwakeSel (addClass hiddenChar d) = noAwakeSel d :=
    fun d => contains_addClass_ne (by decide) d
  unfold splitSecOfT
  cases hc : (awakeCount t == 0 && !(getCharElements t).isEmpty) with
  | false =>
      simp only [Bool.false_eq_true, if_false]
      rw [countP_hideSleepersIn _ hadd, ht0]
  | true =>
      simp only [if_true]
      have hc2 := hc
      rw [Bool.and_eq_true] at hc2
      have hchars : (getCharElements t).isEmpty = false := by
        have := hc2.2
        rwa [Bool.not_eq_true'] at this
      cases hq : qselPath charSel (hideSleepersIn t) with
      | none => exact absurd hq (qselPath_char_hide_ne_none t hchars)
      | some cp =>
          obtain ⟨n, hn, _⟩ := qselPath_getAt charSel _ cp hq
          have hcp : cp ≠ [] := qselPath_shape hq
          have hsplit : getAt (hideSleepersIn t) (cp.dropLast ++ [cp.getLast hcp])
              = some n := by
            rw [List.dropLast_append_getLast hcp]
            exact hn
          rw [getAt_append] at hsplit
          cases hu : getAt (hideSleepersIn t) cp.dropLast with
          | none =>
              rw [hu] at hsplit
              cases hsplit
          | some u =>
              rw [countP_appendChildAt_valid noAwakeSel _ _ _ u hu]
              rw [countP_hideSleepersIn _ hadd, ht0]
              rw [show countP noAwakeSel noAwakePlaceholder = 1 from by decide]

/-!
## The split branch as a context rewrite
-/

theorem holePath_ne_nil {ctx : List CtxLayer} (h : ctx ≠ []) : holePath ctx ≠ [] := by
  unfold holePath
  simp [h]

theorem appendChildAt_plug (ctx : List CtxLayer) (T : Elem) (q : List Nat) (x : Elem) :
    appendChildAt (plugCtx ctx T) (holePath ctx ++ q) x
      = plugCtx ctx (appendChildAt T q x) := by
  unfold appendChildAt
  rw [modifyAt_append, modifyAt_plug]

theorem insertChildAt_plug_append (ctx : List CtxLayer) (T : Elem) (q : List Nat)
    (i : Nat) (x : Elem) :
    insertChildAt (plugCtx ctx T) (holePath ctx ++ q) i x
      = plugCtx ctx (insertChildAt T q i x) := by
  unfold insertChildAt
  rw [modifyAt_append, modifyAt_plug]

theorem applyFilterSplit_char (so : Bool) (ctx2 : List CtxLayer) (t : Elem)
    (hne : ctx2 ≠ []) :
    applyFilterSplit so (plugCtx ctx2 t) (holePath ctx2)
      = (filterExitChars true (sleepersOf (splitSecOfT t))
          (plugCtx (ctxInsAfter ctx2
              (createSleepersSection so (sleepersOf (splitSecOfT t))))
            (splitSecOfT t)), false) := by
  have hspT : ∀ T : Elem, getAt (plugCtx ctx2 T) (holePath ctx2) = some T :=
    fun T => getAt_plug ctx2 T
  have hd5 : modifyAt hideSleepersIn (plugCtx ctx2 t) (holePath ctx2)
      = plugCtx ctx2 (hideSleepersIn t) := modifyAt_plug _ ctx2 t
  have hgl : (holePath ctx2).getLast? = some ((holePath ctx2).getLastD 0) :=
    getLast?_of_ne_nil (holePath_ne_nil hne)
  have hinsT : ∀ (T x : Elem),
      insertChildAt (plugCtx ctx2 T) (holePath ctx2).dropLast
          ((holePath ctx2).getLastD 0 + 1) x = plugCtx (ctxInsAfter ctx2 x) T :=
    fun T x => insertChildAt_after_hole ctx2 T x hne
  have h7T : ∀ (T x : Elem),
      getAt (plugCtx (ctxInsAfter ctx2 x) T) (holePath ctx2) = some T := by
    intro T x
    rw [← holePath_ctxInsAfter ctx2 x]
    exact getAt_plug _ _
  have happT : ∀ (T : Elem) (q : List Nat) (x : Elem),
      appendChildAt (plugCtx ctx2 T) (holePath ctx2 ++ q) x
        = plugCtx ctx2 (appendChildAt T q x) :=
    fun T q x => appendChildAt_plug ctx2 T q x
  cases hcond : (((getCharElements t).filter (fun e => !isSleeperChar e)).length == 0
      && !(getCharElements t).isEmpty) with
  | false =>
      have hsec : splitSecOfT t = hideSleepersIn t := by
        simp only [splitSecOfT, awakeCount, hcond, Bool.false_eq_true, if_false]
      rw [hsec]
      simp only [applyFilterSplit, hspT, hd5, hcond, Bool.false_eq_true, if_false,
        hgl, hinsT, h7T, sleepersOf]
  | true =>
      cases hq : qselPath charSel (hideSleepersIn t) with
      | none =>
          have hsec : splitSecOfT t = hideSleepersIn t := by
            simp only [splitSecOfT, awakeCount, hcond, if_true, hq]
          rw [hsec]
          simp only [applyFilterSplit, hspT, hd5, hcond, if_true, hq,
            hgl, hinsT, h7T, sleepersOf]
      | some cp =>
          have hsec : splitSecOfT t
              = appendChildAt (hideSleepersIn t) cp.dropLast noAwakePlaceholder := by
            simp only [splitSecOfT, awakeCount, hcond, if_true, hq]
          rw [hsec]
          simp only [applyFilterSplit, hspT, hd5, hcond, if_true, hq, happT,
            hgl, hinsT, h7T, sleepersOf]

/-!
## The first pass over a pristine room
-/

theorem dataNoneP_plug_S {p : NodeData → Bool} {ctx : List CtxLayer} {S : Elem}
    (h : dataNoneP p (plugCtx ctx S) = true) : dataNoneP p S = true :=
  ((dataNoneP_plug_iff p ctx S).mp h).2

theorem dataNoneP_plug_layers {p : NodeData → Bool} {ctx : List CtxLayer} {S : Elem}
    (h : dataNoneP p (plugCtx ctx S) = true) :
    ∀ L ∈ ctx, p L.data = false ∧ listNoneP p L.left = true
      ∧ listNoneP p L.right = true :=
  ((dataNoneP_plug_iff p ctx S).mp h).1

theorem pristine_unpack {ctx : List CtxLayer} {S : Elem} {tp : List Nat} {k : Nat}
    (h : pristineRoom ctx S tp k = true) :
    ctx ≠ [] ∧ inRoomSel S.data = true ∧ dataNoneP msfP (plugCtx ctx S) = true
      ∧ dataNoneP exitSel S = true
      ∧ (∀ L ∈ ctx, inRoomSel L.data = false ∧ exitSel L.data = false
          ∧ listNoneP inRoomSel L.left = true)
      ∧ qselPath titleSel S = some tp
      ∧ qselPath inroomHeaderSel S = some (tp ++ [k]) := by
  unfold pristineRoom at h
  rw [Bool.and_eq_true, Bool.and_eq_true, Bool.and_eq_true, Bool.and_eq_true,
    Bool.and_eq_true, Bool.and_eq_true] at h
  obtain ⟨⟨⟨⟨⟨⟨h1, h2⟩, h3⟩, h4⟩, h5⟩, h6⟩, h7⟩ := h
  rw [decide_eq_true_eq] at h6 h7
  refine ⟨?_, h2, h3, h4, ?_, h6, h7⟩
  · intro hc
    rw [hc] at h1
    simp at h1
  · intro L hL
    rw [List.all_eq_true] at h5
    have h8 := h5 L hL
    rw [Bool.and_eq_true, Bool.and_eq_true, Bool.not_eq_true', Bool.not_eq_true'] at h8
    exact ⟨h8.1.1, h8.1.2, h8.2⟩

theorem pristine_clean {ctx : List CtxLayer} {S : Elem} {tp : List Nat} {k : Nat}
    (h : pristineRoom ctx S tp k = true) :
    dataNoneP ssIdSel (plugCtx ctx S) = true
    ∧ dataNoneP hidSel (plugCtx ctx S) = true
    ∧ dataNoneP toggleSel (plugCtx ctx S) = true
    ∧ dataNoneP noAwakeSel (plugCtx ctx S) = true := by
  obtain ⟨-, -, h3, -⟩ := pristine_unpack h
  refine ⟨?_, ?_, ?_, ?_⟩
  · refine dataNoneP_mono _ msfP ?_ _ h3
    intro d hd
    unfold msfP
    rw [hd]
    simp
  · refine dataNoneP_mono _ msfP ?_ _ h3
    intro d hd
    unfold msfP
    unfold hidSel at hd
    rw [hd]
    simp
  · refine dataNoneP_mono _ msfP ?_ _ h3
    intro d hd
    unfold msfP
    rw [hd]
    simp
  · refine dataNoneP_mono _ msfP ?_ _ h3
    intro d hd
    unfold msfP
    rw [hd]
    simp

theorem qselPath_none_of_clean {p : NodeData → Bool} {S : Elem}
    (h : dataNoneP p S = true) : qselPath p S = none := by
  rw [qselPath_eq_none_iff]
  cases S with
  | node d cs =>
      rw [dataNoneP_node, Bool.and_eq_true] at h
      simp only [Elem.childList_node]
      exact h.2

theorem applyFilter_run (b so : Bool) (ctx : List CtxLayer) (S : Elem) (tp : List Nat)
    (k : Nat) (h : pristineRoom ctx S tp k = true) :
    applyFilter b so (plugCtx ctx S)
      = (if b then splitDocOf so ctx tp k S
         else plugCtx ctx (togSectionOf false tp k S), false) := by
  obtain ⟨hne, hS, hmsf, hSexit, hctx, htp, hhp⟩ := pristine_unpack h
  obtain ⟨hssc, hhidc, htogc, hnac⟩ := pristine_clean h
  have hfindS : findInRoomSection (plugCtx ctx S) = some (holePath ctx) := by
    unfold findInRoomSection
    exact findFirstPath_plug inRoomSel ctx S hS (fun L hL => (hctx L hL).1)
      (fun L hL => (hctx L hL).2.2)
  have hfindSS : findFirstPath ssIdSel (plugCtx ctx S) = none :=
    (findFirstPath_eq_none _ _).mpr hssc
  have hgetS : getAt (plugCtx ctx S) (holePath ctx) = some S := getAt_plug ctx S
  have htogNone : qselPath toggleSel S = none :=
    qselPath_none_of_clean (dataNoneP_plug_S htogc)
  have hnaNone : qselPath noAwakeSel S = none :=
    qselPath_none_of_clean (dataNoneP_plug_S hnac)
  have hreset : modifyAt resetCharsIn (plugCtx ctx S) (holePath ctx) = plugCtx ctx S := by
    rw [modifyAt_plug, resetCharsIn_eq_self S (dataNoneP_plug_S hhidc)]
  have hguard : ((tp ++ [k]).take tp.length == tp
      && ((tp ++ [k]).length == tp.length + 1)) = true := by
    rw [List.take_left]
    simp
  have hgetlast : (tp ++ [k]).getLastD 0 = k := List.getLastD_concat _ _ _
  have hinsTog : ∀ b2 : Bool,
      insertChildAt (plugCtx ctx S) (holePath ctx ++ tp) k (createToggle b2)
        = plugCtx ctx (togSectionOf b2 tp k S) :=
    fun b2 => insertChildAt_plug_append ctx S tp k _
  have htog_hid : ∀ b2 : Bool,
      dataNoneP hidSel (plugCtx ctx (togSectionOf b2 tp k S)) = true := by
    intro b2
    refine (dataNoneP_plug_iff _ _ _).mpr ⟨dataNoneP_plug_layers hhidc, ?_⟩
    exact dataNoneP_togSectionOf hidSel b2 tp k S (dataNoneP_plug_S hhidc)
      (createToggle_clean_hid b2)
  cases b with
  | false =>
      have hER : exitResetStep (plugCtx ctx (togSectionOf false tp k S))
          = plugCtx ctx (togSectionOf false tp k S) :=
        exitResetStep_eq_self _ (htog_hid false)
      simp only [applyFilter, hfindS, hfindSS, hgetS, htogNone, Option.isSome_none,
        Bool.false_eq_true, if_false, hreset, hnaNone, htp, hhp, hguard, if_true,
        hgetlast, hinsTog, Bool.not_false, hER]
  | true =>
      have hsplit := applyFilterSplit_char so ctx (togSectionOf true tp k S) hne
      simp only [applyFilter, hfindS, hfindSS, hgetS, htogNone, Option.isSome_none,
        Bool.false_eq_true, if_false, hreset, hnaNone, htp, hhp, hguard, if_true,
        hgetlast, hinsTog, Bool.not_true, hsplit, splitDocOf, splitSectionOf]

/-!
## Replaying the pass on its own output
-/

theorem inRoomSel_addClass (d : NodeData) :
    inRoomSel (addClass hiddenChar d) = inRoomSel d := by
  unfold inRoomSel
  rw [contains_addClass_ne (by decide), contains_addClass_ne (by decide)]

theorem listNoneP_mono (p q : NodeData → Bool) (himp : ∀ d, p d = true → q d = true)
    (l : List Elem) (h : listNoneP q l = true) : listNoneP p l = true := by
  unfold listNoneP at h ⊢
  rw [List.all_eq_true] at h ⊢
  intro T hT
  exact dataNoneP_mono p q himp T (h T hT)

theorem applyFilter_unified_replay (so' : Bool) (ctx : List CtxLayer) (S : Elem)
    (tp : List Nat) (k : Nat) (h : pristineRoom ctx S tp k = true) :
    applyFilter false so' (plugCtx ctx (togSectionOf false tp k S))
      = (plugCtx ctx (togSectionOf false tp k S), false) := by
  obtain ⟨hne, hS, hmsf, hSexit, hctx, htp, hhp⟩ := pristine_unpack h
  obtain ⟨hssc, hhidc, htogc, hnac⟩ := pristine_clean h
  have ht_hid : dataNoneP hidSel (togSectionOf false tp k S) = true :=
    dataNoneP_togSectionOf hidSel false tp k S (dataNoneP_plug_S hhidc)
      (createToggle_clean_hid false)
  have ht_na : dataNoneP noAwakeSel (togSectionOf false tp k S) = true :=
    dataNoneP_togSectionOf noAwakeSel false tp k S (dataNoneP_plug_S hnac)
      (createToggle_clean_noAwake false)
  have ht_ss : dataNoneP ssIdSel (togSectionOf false tp k S) = true :=
    dataNoneP_togSectionOf ssIdSel false tp k S (dataNoneP_plug_S hssc)
      (createToggle_clean_ssId false)
  have ht_data : (togSectionOf false tp k S).data = S.data := togSectionOf_data _ _ _ _
  have hfindS : findInRoomSection (plugCtx ctx (togSectionOf false tp k S))
      = some (holePath ctx) := by
    unfold findInRoomSection
    refine findFirstPath_plug inRoomSel ctx _ ?_ (fun L hL => (hctx L hL).1)
      (fun L hL => (hctx L hL).2.2)
    rw [ht_data]
    exact hS
  have hclean_doc : dataNoneP ssIdSel (plugCtx ctx (togSectionOf false tp k S)) = true :=
    (dataNoneP_plug_iff _ _ _).mpr ⟨dataNoneP_plug_layers hssc, ht_ss⟩
  have hfindSS : findFirstPath ssIdSel (plugCtx ctx (togSectionOf false tp k S)) = none :=
    (findFirstPath_eq_none _ _).mpr hclean_doc
  have hgetS : getAt (plugCtx ctx (togSectionOf false tp k S)) (holePath ctx)
      = some (togSectionOf false tp k S) := getAt_plug ctx _
  have htogSome : (qselPath toggleSel (togSectionOf false tp k S)).isSome = true := by
    refine qselPath_isSome_of_count ?_ ?_
    · rw [ht_data]
      exact dataNoneP_root (dataNoneP_plug_S htogc)
    · rw [countP_togSectionOf_toggle false tp k S (dataNoneP_plug_S htogc) htp]
      exact one_ne_zero
  have hreset : modifyAt resetCharsIn (plugCtx ctx (togSectionOf false tp k S))
      (holePath ctx) = plugCtx ctx (togSectionOf false tp k S) := by
    rw [modifyAt_plug, resetCharsIn_eq_self _ ht_hid]
  have hnaNone : qselPath noAwakeSel (togSectionOf false tp k S) = none :=
    qselPath_none_of_clean ht_na
  have hhid_doc : dataNoneP hidSel (plugCtx ctx (togSectionOf false tp k S)) = true :=
    (dataNoneP_plug_iff _ _ _).mpr ⟨dataNoneP_plug_layers hhidc, ht_hid⟩
  have hER : exitResetStep (plugCtx ctx (togSectionOf false tp k S))
      = plugCtx ctx (togSectionOf false tp k S) :=
    exitResetStep_eq_self _ hhid_doc
  cases hq : qselPath toggleSel (togSectionOf false tp k S) with
  | none => rw [hq] at htogSome; cases htogSome
  | some qv =>
      simp only [applyFilter, hfindS, hfindSS, hgetS, hq, Option.isSome_some, if_true,
        hreset, hnaNone, Bool.not_false, hER]

theorem filterExitChars_eq_exitMark_reset (sl : List Elem) (D : Elem) :
    filterExitChars true sl D = exitMark sl (exitResetStep D) := by
  unfold filterExitChars exitMark
  simp only [Bool.not_true, Bool.false_or]

theorem ctxMapSib_congr (M1 M2 : Elem → Elem) (ctx : List CtxLayer)
    (h : ∀ T, M1 T = M2 T) : ctxMapSib M1 ctx = ctxMapSib M2 ctx := by
  unfold ctxMapSib
  apply List.map_congr_left
  intro L _
  congr 1
  · exact List.map_congr_left (fun T _ => h T)
  · exact List.map_congr_left (fun T _ => h T)

theorem exitMark_plug (sl : List Elem) (ctx : List CtxLayer) (T : Elem)
    (hlay : ∀ L ∈ ctx, exitSel L.data = false) :
    exitMark sl (plugCtx ctx T)
      = plugCtx (ctxMapSib (exitMark sl) ctx) (exitMark sl T) := by
  cases h1 : (sl.length == 0) with
  | true =>
      rw [show exitMark sl (plugCtx ctx T) = plugCtx ctx T by unfold exitMark; rw [h1]; rfl]
      rw [show exitMark sl T = T by unfold exitMark; rw [h1]; rfl]
      rw [ctxMapSib_eq_self _ _ (fun L _ => ⟨fun T2 _ => by unfold exitMark; rw [h1]; rfl,
        fun T2 _ => by unfold exitMark; rw [h1]; rfl⟩)]
  | false =>
      cases h2 : ((sleeperAvatarUrls sl).length == 0) with
      | true =>
          rw [show exitMark sl (plugCtx ctx T) = plugCtx ctx T by
            unfold exitMark; rw [h1, h2]; rfl]
          rw [show exitMark sl T = T by unfold exitMark; rw [h1, h2]; rfl]
          rw [ctxMapSib_eq_self _ _ (fun L _ =>
            ⟨fun T2 _ => by unfold exitMark; rw [h1, h2]; rfl,
             fun T2 _ => by unfold exitMark; rw [h1, h2]; rfl⟩)]
      | false =>
          have hM : ∀ T2 : Elem, exitMark sl T2 = exitHideStep (sleeperAvatarUrls sl) T2 :=
            fun T2 => by unfold exitMark; rw [h1, h2]; rfl
          rw [hM, hM, exitHideStep_plug _ _ _ hlay,
            ctxMapSib_congr _ _ ctx (fun T2 => (hM T2).symm)]

theorem splitDocOf_shape (so : Bool) (ctx : List CtxLayer) (S : Elem) (tp : List Nat)
    (k : Nat) (h : pristineRoom ctx S tp k = true) :
    splitDocOf so ctx tp k S
      = plugCtx (ctxInsAfter
          (ctxMapSib (exitMark (sleepersOf (splitSectionOf true tp k S))) ctx)
          (createSleepersSection so (sleepersOf (splitSectionOf true tp k S))))
        (splitSectionOf true tp k S) := by
  obtain ⟨hne, hS, hmsf, hSexit, hctx, htp, hhp⟩ := pristine_unpack h
  obtain ⟨hssc, hhidc, htogc, hnac⟩ := pristine_clean h
  have ht_hid : dataNoneP hidSel (togSectionOf true tp k S) = true :=
    dataNoneP_togSectionOf hidSel true tp k S (dataNoneP_plug_S hhidc)
      (createToggle_clean_hid true)
  have ht_exit : dataNoneP exitSel (togSectionOf true tp k S) = true :=
    dataNoneP_togSectionOf exitSel true tp k S hSexit (createToggle_clean_exit true)
  have hs1_exit : dataNoneP exitSel (splitSectionOf true tp k S) = true :=
    dataNoneP_splitSecOfT exitSel (fun d => contains_addClass_ne (by decide) d)
      _ ht_exit (by decide)
  have hsl_exit : ∀ e ∈ sleepersOf (splitSectionOf true tp k S), dataNoneP exitSel e = true :=
    sleepers_clean hs1_exit
  have hss_exit : dataNoneP exitSel
      (createSleepersSection so (sleepersOf (splitSectionOf true tp k S))) = true :=
    ss_exit_free so _ hsl_exit
  have hss_hid : dataNoneP hidSel
      (createSleepersSection so (sleepersOf (splitSectionOf true tp k S))) = true :=
    ss_hidden_free so _
  have hD0 : dataNoneP (fun d => exitSel d && hidSel d)
      (plugCtx (ctxInsAfter ctx
          (createSleepersSection so (sleepersOf (splitSectionOf true tp k S))))
        (splitSectionOf true tp k S)) = true := by
    refine (dataNoneP_plug_iff _ _ _).mpr ⟨?_, ?_⟩
    · intro L' hL'
      rcases mem_ctxInsAfter hL' with ⟨L, hL, hdata, hleft, hright⟩
      have hlayh := dataNoneP_plug_layers hhidc L hL
      have hmono : ∀ T : Elem, dataNoneP hidSel T = true →
          dataNoneP (fun d => exitSel d && hidSel d) T = true :=
        fun T => dataNoneP_mono _ hidSel
          (fun d hd => by rw [Bool.and_eq_true] at hd; exact hd.2) T
      refine ⟨?_, ?_, ?_⟩
      · rw [hdata, hlayh.1]
        simp
      · rw [hleft]
        exact listNoneP_mono _ hidSel
          (fun d hd => by rw [Bool.and_eq_true] at hd; exact hd.2) _ hlayh.2.1
      · rcases hright with h3 | h3 <;> rw [h3]
        · exact listNoneP_mono _ hidSel
            (fun d hd => by rw [Bool.and_eq_true] at hd; exact hd.2) _ hlayh.2.2
        · rw [listNoneP_cons, Bool.and_eq_true]
          exact ⟨hmono _ hss_hid,
            listNoneP_mono _ hidSel
              (fun d hd => by rw [Bool.and_eq_true] at hd; exact hd.2) _ hlayh.2.2⟩
    · exact dataNoneP_mono _ exitSel
        (fun d hd => by rw [Bool.and_eq_true] at hd; exact hd.1) _ hs1_exit
  have hER : exitResetStep
      (plugCtx (ctxInsAfter ctx
          (createSleepersSection so (sleepersOf (splitSectionOf true tp k S))))
        (splitSectionOf true tp k S))
      = plugCtx (ctxInsAfter ctx
          (createSleepersSection so (sleepersOf (splitSectionOf true tp k S))))
        (splitSectionOf true tp k S) :=
    mapMatching_eq_self_of_none _ (fun d => exitSel d && hidSel d) _
      (fun n hn => hn) _ hD0
  have hlayIns : ∀ L' ∈ ctxInsAfter ctx
      (createSleepersSection so (sleepersOf (splitSectionOf true tp k S))),
      exitSel L'.data = false := by
    intro L' hL'
    rcases mem_ctxInsAfter hL' with ⟨L, hL, hdata, -, -⟩
    rw [hdata]
    exact (hctx L hL).2.1
  rw [show splitDocOf so ctx tp k S
      = filterExitChars true (sleepersOf (splitSectionOf true tp k S))
          (plugCtx (ctxInsAfter ctx
              (createSleepersSection so (sleepersOf (splitSectionOf true tp k S))))
            (splitSectionOf true tp k S)) from rfl]
  rw [filterExitChars_eq_exitMark_reset, hER, exitMark_plug _ _ _ hlayIns,
    ctxMapSib_ctxInsAfter, exitMark_eq_self _ _ hss_exit, exitMark_eq_self _ _ hs1_exit]

theorem exitResetStep_eq_self_of_exit (e : Elem) (h : dataNoneP exitSel e = true) :
    exitResetStep e = e :=
  mapMatching_eq_self_of_none _ exitSel _
    (fun n hn => by rw [Bool.and_eq_true] at hn; exact hn.1) e h

theorem sibPath_ne_nil {ctx : List CtxLayer} (h : ctx ≠ []) : sibPath ctx ≠ [] := by
  cases ctx with
  | nil => exact absurd rfl h
  | cons L ls => cases ls <;> simp [sibPath]

theorem removeAt_plug_append (ctx : List CtxLayer) (T : Elem) (q : List Nat)
    (hq : q ≠ []) :
    removeAt (plugCtx ctx T) (holePath ctx ++ q) = plugCtx ctx (removeAt T q) := by
  rw [removeAt_append _ _ _ hq, modifyAt_plug]

theorem getAt_hide_isSome (t : Elem) (q : List Nat) (u' : Elem)
    (h : getAt (hideSleepersIn t) q = some u') : ∃ u, getAt t q = some u := by
  cases q with
  | nil =>
      cases t with
      | node d cs => exact ⟨Elem.node d cs, rfl⟩
  | cons j rest =>
      cases t with
      | node d cs =>
          rw [show hideSleepersIn (Elem.node d cs)
            = Elem.node d (mapMatchingList
                (fun e => e.hasClass "pageroom-char" && isSleeperChar e)
                (addClass hiddenChar) cs) from rfl] at h
          simp only [getAt, mapMatchingList_eq_map, List.get?_map] at h
          cases hg : cs.get? j with
          | none =>
              rw [hg] at h
              cases h
          | some c =>
              rw [hg] at h
              simp only [Option.map_some'] at h
              rw [getAt_mapMatching] at h
              cases hgc : getAt c rest with
              | none => rw [hgc] at h; cases h
              | some u =>
                  refine ⟨u, ?_⟩
                  simp only [getAt, hg]
                  exact hgc

theorem resetCharsIn_appendChildAt :
    ∀ (X : Elem) (q : List Nat),
      resetCharsIn (appendChildAt X q noAwakePlaceholder)
        = appendChildAt (resetCharsIn X) q noAwakePlaceholder := by
  intro X q
  cases q with
  | nil =>
      cases X with
      | node d cs =>
          show Elem.node d (mapMatchingList _ _ (cs ++ [noAwakePlaceholder]))
              = Elem.node d (mapMatchingList (fun e => e.hasClass "pageroom-char")
                  (removeClass hiddenChar) cs ++ [noAwakePlaceholder])
          congr 1
          rw [mapMatchingList_eq_map, mapMatchingList_eq_map, List.map_append]
          rw [show List.map (Elem.mapMatching (fun e => e.hasClass "pageroom-char")
            (removeClass hiddenChar)) [noAwakePlaceholder] = [noAwakePlaceholder]
            from by decide]
  | cons i q' =>
      cases X with
      | node d cs =>
          cases hg : cs.get? i with
          | none =>
              have h1 : appendChildAt (Elem.node d cs) (i :: q') noAwakePlaceholder
                  = Elem.node d cs := by
                unfold appendChildAt
                simp only [modifyAt, hg]
              have h2 : appendChildAt (resetCharsIn (Elem.node d cs)) (i :: q')
                  noAwakePlaceholder = resetCharsIn (Elem.node d cs) := by
                unfold appendChildAt
                show modifyAt _ (Elem.node d (mapMatchingList _ _ cs)) (i :: q')
                    = Elem.node d (mapMatchingList _ _ cs)
                simp only [modifyAt, mapMatchingList_eq_map, List.get?_map, hg,
                  Option.map_none']
              rw [h1, h2]
          | some c =>
              have h1 : appendChildAt (Elem.node d cs) (i :: q') noAwakePlaceholder
                  = Elem.node d (cs.set i (appendChildAt c q' noAwakePlaceholder)) := by
                unfold appendChildAt
                simp only [modifyAt, hg]
              have h2 : appendChildAt (resetCharsIn (Elem.node d cs)) (i :: q')
                  noAwakePlaceholder
                  = Elem.node d ((mapMatchingList (fun e => e.hasClass "pageroom-char")
                      (removeClass hiddenChar) cs).set i
                    (appendChildAt (Elem.mapMatching (fun e => e.hasClass "pageroom-char")
                      (removeClass hiddenChar) c) q' noAwakePlaceholder)) := by
                unfold appendChildAt
                show modifyAt _ (Elem.node d (mapMatchingList _ _ cs)) (i :: q') = _
                simp only [modifyAt, mapMatchingList_eq_map, List.get?_map, hg,
                  Option.map_some']
              rw [h1, h2]
              show Elem.node d (mapMatchingList _ _ (cs.set i _)) = _
              congr 1
              rw [mapMatchingList_eq_map, mapMatchingList_eq_map, List.map_set]
              congr 1
              rw [mapMatching_appendChildAt (fun e => e.hasClass "pageroom-char")
                (removeClass hiddenChar) (fun d2 cs2 cs2' => rfl) noAwakePlaceholder
                (by decide) c q']

theorem applyFilter_after_split (b so so' : Bool) (ctx : List CtxLayer) (S : Elem)
    (tp : List Nat) (k : Nat) (h : pristineRoom ctx S tp k = true) :
    applyFilter b so' (splitDocOf so ctx tp k S)
      = (if b then splitDocOf so' ctx tp k S
         else plugCtx ctx (togSectionOf true tp k S), false) := by
  obtain ⟨hne, hS, hmsf, hSexit, hctx, htp, hhp⟩ := pristine_unpack h
  obtain ⟨hssc, hhidc, htogc, hnac⟩ := pristine_clean h
  rw [splitDocOf_shape so ctx S tp k h]
  set S1 := splitSectionOf true tp k S with hS1
  set T := togSectionOf true tp k S with hT
  set SL := sleepersOf S1 with hSL
  set CTX := ctxMapSib (exitMark SL) ctx with hCTX
  set SSo := createSleepersSection so SL with hSSo
  have ht_hid : dataNoneP hidSel T = true := by
    rw [hT]
    exact dataNoneP_togSectionOf hidSel true tp k S (dataNoneP_plug_S hhidc)
      (createToggle_clean_hid true)
  have ht_exit : dataNoneP exitSel T = true := by
    rw [hT]
    exact dataNoneP_togSectionOf exitSel true tp k S hSexit (createToggle_clean_exit true)
  have ht_na : dataNoneP noAwakeSel T = true := by
    rw [hT]
    exact dataNoneP_togSectionOf noAwakeSel true tp k S (dataNoneP_plug_S hnac)
      (createToggle_clean_noAwake true)
  have ht_ss : dataNoneP ssIdSel T = true := by
    rw [hT]
    exact dataNoneP_togSectionOf ssIdSel true tp k S (dataNoneP_plug_S hssc)
      (createToggle_clean_ssId true)
  have ht_data : T.data = S.data := by
    rw [hT]
    exact togSectionOf_data _ _ _ _
  have hsec : splitSecOfT T = S1 := by
    rw [hT, hS1]
    rfl
  have hs1_exit : dataNoneP exitSel S1 = true := by
    rw [← hsec]
    exact dataNoneP_splitSecOfT exitSel (fun d => contains_addClass_ne (by decide) d)
      _ ht_exit (by decide)
  have hs1_ss : dataNoneP ssIdSel S1 = true := by
    rw [← hsec]
    exact dataNoneP_splitSecOfT ssIdSel (fun d => ssIdSel_addClass hiddenChar d)
      _ ht_ss (by decide)
  have hs1_data : S1.data = S.data := by
    rw [← hsec, splitSecOfT_data, ht_data]
  have hsl_exit : ∀ e ∈ SL, dataNoneP exitSel e = true := by
    rw [hSL]
    exact sleepers_clean hs1_exit
  have hss_exit : ∀ so2 : Bool, dataNoneP exitSel (createSleepersSection so2 SL) = true :=
    fun so2 => ss_exit_free so2 _ hsl_exit
  have htogCount : countP toggleSel S1 = 1 := by
    rw [← hsec, countP_splitSecOfT_toggle, hT,
      countP_togSectionOf_toggle true tp k S (dataNoneP_plug_S htogc) htp]
  have hlay' : ∀ L' ∈ CTX, inRoomSel L'.data = false ∧ exitSel L'.data = false
      ∧ ssIdSel L'.data = false ∧ hidSel L'.data = false := by
    intro L' hL'
    rw [hCTX] at hL'
    rcases mem_ctxMapSib hL' with ⟨L, hL, hdata, -, -⟩
    rw [hdata]
    exact ⟨(hctx L hL).1, (hctx L hL).2.1, (dataNoneP_plug_layers hssc L hL).1,
      (dataNoneP_plug_layers hhidc L hL).1⟩
  have hne' : CTX ≠ [] := by
    rw [hCTX]
    exact ctxMapSib_ne_nil hne
  have hleft'_in : ∀ L' ∈ CTX, listNoneP inRoomSel L'.left = true := by
    intro L' hL'
    rw [hCTX] at hL'
    rcases mem_ctxMapSib hL' with ⟨L, hL, -, hleft, -⟩
    rw [hleft]
    refine (listNoneP_map_iff _ _ _).mpr ?_
    intro T2 hT2
    rw [dataNoneP_exitMark inRoomSel inRoomSel_addClass]
    exact listNoneP_of_mem hT2 (hctx L hL).2.2
  have hleft'_ss : ∀ L' ∈ CTX, listNoneP ssIdSel L'.left = true := by
    intro L' hL'
    rw [hCTX] at hL'
    rcases mem_ctxMapSib hL' with ⟨L, hL, -, hleft, -⟩
    rw [hleft]
    refine (listNoneP_map_iff _ _ _).mpr ?_
    intro T2 hT2
    rw [dataNoneP_exitMark ssIdSel (fun d => ssIdSel_addClass hiddenChar d)]
    exact listNoneP_of_mem hT2 (dataNoneP_plug_layers hssc L hL).2.1
  have hERctx : ctxMapSib exitResetStep CTX = ctx := by
    rw [hCTX, ctxMapSib_comp]
    refine ctxMapSib_eq_self _ ctx ?_
    intro L hL
    exact ⟨fun T2 hT2 => exitReset_exitMark _ T2
        (listNoneP_of_mem hT2 (dataNoneP_plug_layers hhidc L hL).2.1),
      fun T2 hT2 => exitReset_exitMark _ T2
        (listNoneP_of_mem hT2 (dataNoneP_plug_layers hhidc L hL).2.2)⟩
  have hfind1 : findInRoomSection (plugCtx (ctxInsAfter CTX SSo) S1)
      = some (holePath (ctxInsAfter CTX SSo)) := by
    unfold findInRoomSection
    refine findFirstPath_plug inRoomSel _ _ ?_ ?_ ?_
    · rw [hs1_data]
      exact hS
    · intro L' hL'
      rcases mem_ctxInsAfter hL' with ⟨L0, hL0, hdata, -, -⟩
      rw [hdata]
      exact (hlay' L0 hL0).1
    · intro L' hL'
      rcases mem_ctxInsAfter hL' with ⟨L0, hL0, -, hleft, -⟩
      rw [hleft]
      exact hleft'_in L0 hL0
  have hfindSS1 : findFirstPath ssIdSel (plugCtx (ctxInsAfter CTX SSo) S1)
      = some (sibPath CTX) :=
    findFirstPath_sib ssIdSel CTX S1 SSo (by rw [hSSo]; exact ss_ssIdSel_root so SL)
      hs1_ss (fun L' hL' => (hlay' L' hL').2.2.1) hleft'_ss hne'
  rcases List.exists_cons_of_ne_nil (sibPath_ne_nil hne') with ⟨si, srest, hsr⟩
  have hfindSS1' : findFirstPath ssIdSel (plugCtx (ctxInsAfter CTX SSo) S1)
      = some (si :: srest) := by
    rw [hfindSS1, hsr]
  have hremSS : removeAt (plugCtx (ctxInsAfter CTX SSo) S1) (si :: srest)
      = plugCtx CTX S1 := by
    rw [← hsr]
    exact removeAt_sib CTX S1 SSo hne'
  have hfind2 : findInRoomSection (plugCtx CTX S1) = some (holePath CTX) := by
    unfold findInRoomSection
    exact findFirstPath_plug inRoomSel _ _ (by rw [hs1_data]; exact hS)
      (fun L' hL' => (hlay' L' hL').1) hleft'_in
  have hget2 : getAt (plugCtx CTX S1) (holePath CTX) = some S1 := getAt_plug _ _
  have htogSome : (qselPath toggleSel S1).isSome = true :=
    qselPath_isSome_of_count
      (by rw [hs1_data]; exact dataNoneP_root (dataNoneP_plug_S htogc))
      (by rw [htogCount]; exact one_ne_zero)
  have hreset2 : modifyAt resetCharsIn (plugCtx CTX S1) (holePath CTX)
      = plugCtx CTX (resetCharsIn S1) := modifyAt_plug _ _ _
  have hget3 : getAt (plugCtx CTX (resetCharsIn S1)) (holePath CTX)
      = some (resetCharsIn S1) := getAt_plug _ _
  have hER_t : exitResetStep (plugCtx CTX T) = plugCtx ctx T := by
    rw [exitResetStep_plug _ _ (fun L' hL' => (hlay' L' hL').2.2.2), hERctx,
      exitResetStep_eq_self _ ht_hid]
  have hlayInsA : ∀ L' ∈ ctxInsAfter CTX (createSleepersSection so' SL),
      hidSel L'.data = false := by
    intro L' hL'
    rcases mem_ctxInsAfter hL' with ⟨L0, hL0, hdata, -, -⟩
    rw [hdata]
    exact (hlay' L0 hL0).2.2.2
  have hER_D2 : exitResetStep (plugCtx (ctxInsAfter CTX (createSleepersSection so' SL)) S1)
      = plugCtx (ctxInsAfter ctx (createSleepersSection so' SL)) S1 := by
    rw [exitResetStep_plug _ _ hlayInsA, ctxMapSib_ctxInsAfter, hERctx,
      exitResetStep_eq_self_of_exit _ hs1_exit,
      exitResetStep_eq_self_of_exit _ (hss_exit so')]
  have hlayIns_ctx : ∀ L' ∈ ctxInsAfter ctx (createSleepersSection so' SL),
      exitSel L'.data = false := by
    intro L' hL'
    rcases mem_ctxInsAfter hL' with ⟨L0, hL0, hdata, -, -⟩
    rw [hdata]
    exact (hctx L0 hL0).2.1
  have hfinal : filterExitChars true SL
      (plugCtx (ctxInsAfter CTX (createSleepersSection so' SL)) S1)
      = splitDocOf so' ctx tp k S := by
    rw [filterExitChars_eq_exitMark_reset, hER_D2, exitMark_plug _ _ _ hlayIns_ctx,
      ctxMapSib_ctxInsAfter, exitMark_eq_self _ _ (hss_exit so'),
      exitMark_eq_self _ _ hs1_exit, ← hCTX]
    rw [hSL, hS1]
    exact (splitDocOf_shape so' ctx S tp k h).symm
  have hsplitfinal : applyFilterSplit so' (plugCtx CTX T) (holePath CTX)
      = (splitDocOf so' ctx tp k S, false) := by
    have hch := applyFilterSplit_char so' CTX T hne'
    rw [hsec] at hch
    rw [hch, ← hSL, hfinal]
  cases hqtog : qselPath toggleSel S1 with
  | none =>
      rw [hqtog] at htogSome
      cases htogSome
  | some tv =>
      cases hcond : (awakeCount T == 0 && !(getCharElements T).isEmpty) with
      | false =>
          have hs1eq : S1 = hideSleepersIn T := by
            rw [← hsec]
            simp only [splitSecOfT, hcond, Bool.false_eq_true, if_false]
          have hreset_s1 : resetCharsIn S1 = T := by
            rw [hs1eq]
            exact resetCharsIn_hideSleepersIn _ ht_hid
          have hq_na : qselPath noAwakeSel T = none := qselPath_none_of_clean ht_na
          have hget3T : getAt (plugCtx CTX T) (holePath CTX) = some T := getAt_plug _ _
          cases b with
          | false =>
              simp only [applyFilter, hfind1, hfindSS1', hremSS, hfind2, hget2, hqtog,
                Option.isSome_some, if_true, hreset2, hget3, hget3T, hreset_s1, hq_na,
                Bool.not_false, hER_t, Bool.false_eq_true, if_false]
          | true =>
              simp only [applyFilter, hfind1, hfindSS1', hremSS, hfind2, hget2, hqtog,
                Option.isSome_some, if_true, hreset2, hget3, hget3T, hreset_s1, hq_na,
                Bool.not_true, Bool.false_eq_true, if_false, hsplitfinal]
      | true =>
          have hchars : (getCharElements T).isEmpty = false := by
            have hc2 := hcond
            rw [Bool.and_eq_true] at hc2
            have := hc2.2
            rwa [Bool.not_eq_true'] at this
          cases hqcp : qselPath charSel (hideSleepersIn T) with
          | none => exact absurd hqcp (qselPath_char_hide_ne_none _ hchars)
          | some cp =>
              have hs1eq : S1 = appendChildAt (hideSleepersIn T) cp.dropLast
                  noAwakePlaceholder := by
                rw [← hsec]
                simp only [splitSecOfT, hcond, if_true, hqcp]
              obtain ⟨n0, hn0, -⟩ := qselPath_getAt charSel _ cp hqcp
              have hcpne : cp ≠ [] := qselPath_shape hqcp
              have hcpsome : getAt (hideSleepersIn T) cp.dropLast ≠ none := by
                intro hgn
                have h5 : getAt (hideSleepersIn T)
                    (cp.dropLast ++ [cp.getLast hcpne]) = some n0 := by
                  rw [List.dropLast_append_getLast hcpne]
                  exact hn0
                rw [getAt_append, hgn] at h5
                cases h5
              cases hu2 : getAt (hideSleepersIn T) cp.dropLast with
              | none => exact absurd hu2 hcpsome
              | some u2 =>
                  obtain ⟨u, hu⟩ := getAt_hide_isSome T cp.dropLast u2 hu2
                  have hreset_s1 : resetCharsIn S1
                      = appendChildAt T cp.dropLast noAwakePlaceholder := by
                    rw [hs1eq, resetCharsIn_appendChildAt,
                      resetCharsIn_hideSleepersIn _ ht_hid]
                  have hrootNA : noAwakeSel (appendChildAt T cp.dropLast
                      noAwakePlaceholder).data = false := by
                    rw [appendChildAt_data, ht_data]
                    exact dataNoneP_root (dataNoneP_plug_S hnac)
                  have hq_na : qselPath noAwakeSel
                      (appendChildAt T cp.dropLast noAwakePlaceholder)
                      = some (cp.dropLast ++ [u.childList.length]) := by
                    rw [← findFirstPath_root_false hrootNA]
                    exact findFirstPath_appendChildAt noAwakeSel T cp.dropLast u
                      noAwakePlaceholder ht_na (by decide) hu
                  have hremNA : removeAt
                      (plugCtx CTX (appendChildAt T cp.dropLast noAwakePlaceholder))
                      (holePath CTX ++ (cp.dropLast ++ [u.childList.length]))
                      = plugCtx CTX T := by
                    rw [removeAt_plug_append _ _ _ (by simp),
                      removeAt_appendChildAt T cp.dropLast u noAwakePlaceholder hu]
                  have hget3A : getAt
                      (plugCtx CTX (appendChildAt T cp.dropLast noAwakePlaceholder))
                      (holePath CTX)
                      = some (appendChildAt T cp.dropLast noAwakePlaceholder) :=
                    getAt_plug _ _
                  cases b with
                  | false =>
                      simp only [applyFilter, hfind1, hfindSS1', hremSS, hfind2, hget2,
                        hqtog, Option.isSome_some, if_true, hreset2, hget3, hget3A,
                        hreset_s1, hq_na, hremNA, Bool.not_false, hER_t,
                        Bool.false_eq_true, if_false]
                  | true =>
                      simp only [applyFilter, hfind1, hfindSS1', hremSS, hfind2, hget2,
                        hqtog, Option.isSome_some, if_true, hreset2, hget3, hget3A,
                        hreset_s1, hq_na, hremNA, Bool.not_true, Bool.false_eq_true,
                        if_false, hsplitfinal]

/-!
## Counting the injected artifacts
-/

theorem splitDoc_counts (so : Bool) (ctx : List CtxLayer) (S : Elem) (tp : List Nat)
    (k : Nat) (h : pristineRoom ctx S tp k = true) (hcc : cloneClean tp k S = true) :
    countP ssIdSel (splitDocOf so ctx tp k S) = 1
    ∧ countP toggleSel (splitDocOf so ctx tp k S) = 1
    ∧ countP noAwakeSel (splitDocOf so ctx tp k S)
        = (if awakeCount (togSectionOf true tp k S) == 0
            && !(getCharElements (togSectionOf true tp k S)).isEmpty then 1 else 0) := by
  obtain ⟨hne, hS, hmsf, hSexit, hctx, htp, hhp⟩ := pristine_unpack h
  obtain ⟨hssc, hhidc, htogc, hnac⟩ := pristine_clean h
  rw [splitDocOf_shape so ctx S tp k h]
  set S1 := splitSectionOf true tp k S with hS1
  set T := togSectionOf true tp k S with hT
  set SL := sleepersOf S1 with hSL
  set CTX := ctxMapSib (exitMark SL) ctx with hCTX
  set SSo := createSleepersSection so SL with hSSo
  have hsec : splitSecOfT T = S1 := by
    rw [hT, hS1]
    rfl
  have ht_ss : dataNoneP ssIdSel T = true := by
    rw [hT]
    exact dataNoneP_togSectionOf ssIdSel true tp k S (dataNoneP_plug_S hssc)
      (createToggle_clean_ssId true)
  have ht_na : dataNoneP noAwakeSel T = true := by
    rw [hT]
    exact dataNoneP_togSectionOf noAwakeSel true tp k S (dataNoneP_plug_S hnac)
      (createToggle_clean_noAwake true)
  have hs1_ss : dataNoneP ssIdSel S1 = true := by
    rw [← hsec]
    exact dataNoneP_splitSecOfT ssIdSel (fun d => ssIdSel_addClass hiddenChar d)
      _ ht_ss (by decide)
  have hne' : CTX ≠ [] := by
    rw [hCTX]
    exact ctxMapSib_ne_nil hne
  have hcc2 : ∀ e ∈ SL, dataNoneP toggleSel e = true ∧ dataNoneP noAwakeSel e = true := by
    unfold cloneClean at hcc
    rw [List.all_eq_true] at hcc
    intro e he
    have h9 := hcc e (by rw [hSL, hS1] at he; exact he)
    rw [Bool.and_eq_true] at h9
    exact h9
  have hcount : ∀ p : NodeData → Bool, (∀ d, p (addClass hiddenChar d) = p d) →
      dataNoneP p (plugCtx ctx S) = true →
      countP p (plugCtx (ctxInsAfter CTX SSo) S1)
        = countP p SSo + countP p S1 := by
    intro p hadd hclean
    rw [countP_plug, ctxCount_ctxInsAfter p CTX SSo hne', hCTX,
      ctxCount_ctxMapSib p _ ctx (fun T2 => countP_exitMark p hadd SL T2),
      ctxCount_eq_zero p ctx (dataNoneP_plug_layers hclean)]
    omega
  refine ⟨?_, ?_, ?_⟩
  · rw [hcount ssIdSel (fun d => ssIdSel_addClass hiddenChar d) hssc]
    rw [hSSo, countP_css_ssId so SL (sleepers_clean hs1_ss),
      (countP_eq_zero_iff _ _).mpr hs1_ss]
  · rw [hcount toggleSel (fun d => contains_addClass_ne (by decide) d) htogc]
    rw [hSSo, countP_css_toggle so SL (fun e he => (hcc2 e he).1)]
    rw [← hsec, countP_splitSecOfT_toggle, hT,
      countP_togSectionOf_toggle true tp k S (dataNoneP_plug_S htogc) htp]
  · rw [hcount noAwakeSel (fun d => contains_addClass_ne (by decide) d) hnac]
    rw [hSSo, countP_css_noAwake so SL (fun e he => (hcc2 e he).2)]
    rw [← hsec, countP_splitSecOfT_noAwake T ht_na]
    omega

theorem unified_counts (ctx : List CtxLayer) (S : Elem) (tp : List Nat) (k : Nat)
    (h : pristineRoom ctx S tp k = true) :
    countP ssIdSel (plugCtx ctx (togSectionOf false tp k S)) = 0
    ∧ countP toggleSel (plugCtx ctx (togSectionOf false tp k S)) = 1
    ∧ countP noAwakeSel (plugCtx ctx (togSectionOf false tp k S)) = 0 := by
  obtain ⟨hne, hS, hmsf, hSexit, hctx, htp, hhp⟩ := pristine_unpack h
  obtain ⟨hssc, hhidc, htogc, hnac⟩ := pristine_clean h
  refine ⟨?_, ?_, ?_⟩
  · rw [countP_plug, ctxCount_eq_zero _ ctx (dataNoneP_plug_layers hssc),
      (countP_eq_zero_iff _ _).mpr (dataNoneP_togSectionOf ssIdSel false tp k S
        (dataNoneP_plug_S hssc) (createToggle_clean_ssId false))]
  · rw [countP_plug, ctxCount_eq_zero _ ctx (dataNoneP_plug_layers htogc),
      countP_togSectionOf_toggle false tp k S (dataNoneP_plug_S htogc) htp]
  · rw [countP_plug, ctxCount_eq_zero _ ctx (dataNoneP_plug_layers hnac),
      (countP_eq_zero_iff _ _).mpr (dataNoneP_togSectionOf noAwakeSel false tp k S
        (dataNoneP_plug_S hnac) (createToggle_clean_noAwake false))]

theorem disabled_doc_clean (so : Bool) (ctx : List CtxLayer) (S : Elem) (tp : List Nat)
    (k : Nat) (h : pristineRoom ctx S tp k = true) :
    countP ssIdSel (plugCtx ctx (togSectionOf true tp k S)) = 0
    ∧ countP hidSel (plugCtx ctx (togSectionOf true tp k S)) = 0 := by
  obtain ⟨hne, hS, hmsf, hSexit, hctx, htp, hhp⟩ := pristine_unpack h
  obtain ⟨hssc, hhidc, htogc, hnac⟩ := pristine_clean h
  constructor
  · rw [(countP_eq_zero_iff _ _).mpr ((dataNoneP_plug_iff _ _ _).mpr
      ⟨dataNoneP_plug_layers hssc, dataNoneP_togSectionOf ssIdSel true tp k S
        (dataNoneP_plug_S hssc) (createToggle_clean_ssId true)⟩)]
  · rw [(countP_eq_zero_iff _ _).mpr ((dataNoneP_plug_iff _ _ _).mpr
      ⟨dataNoneP_plug_layers hhidc, dataNoneP_togSectionOf hidSel true tp k S
        (dataNoneP_plug_S hhidc) (createToggle_clean_hid true)⟩)]

/-!
## C1, C4, C7: the orchestrator pass as a whole
-/

/-- C1: on any pristine room document (the section at an arbitrary position
`ctx`, title bar at `tp` with the in-room header at index `k`, no artifacts,
exit thumbnails outside the section, cloned sleepers free of captured
artifacts), a pass never throws, a second pass with the same preferences
returns the first pass's document unchanged (and does not throw), and after
one pass the document holds at most one injected sleepers section, at most
one toggle control and at most one no-awake placeholder. -/
theorem applyFilter_idempotent (b so : Bool) (ctx : List CtxLayer) (S : Elem)
    (tp : List Nat) (k : Nat) (h : pristineRoom ctx S tp k = true)
    (hcc : cloneClean tp k S = true) :
    (applyFilter b so (plugCtx ctx S)).2 = false
    ∧ applyFilter b so ((applyFilter b so (plugCtx ctx S)).1)
        = ((applyFilter b so (plugCtx ctx S)).1, false)
    ∧ countP ssIdSel ((applyFilter b so (plugCtx ctx S)).1) ≤ 1
    ∧ countP toggleSel ((applyFilter b so (plugCtx ctx S)).1) ≤ 1
    ∧ countP noAwakeSel ((applyFilter b so (plugCtx ctx S)).1) ≤ 1 := by
  have hrun := applyFilter_run b so ctx S tp k h
  have hfst : (applyFilter b so (plugCtx ctx S)).1
      = (if b then splitDocOf so ctx tp k S
         else plugCtx ctx (togSectionOf false tp k S)) := by
    rw [hrun]
  have hsnd : (applyFilter b so (plugCtx ctx S)).2 = false := by
    rw [hrun]
  rw [hfst, hsnd]
  cases b with
  | true =>
      simp only [if_true]
      obtain ⟨c1, c2, c3⟩ := splitDoc_counts so ctx S tp k h hcc
      have h2 := applyFilter_after_split true so so ctx S tp k h
      simp only [if_true] at h2
      refine ⟨trivial, h2, ?_, ?_, ?_⟩
      · rw [c1]
      · rw [c2]
      · rw [c3]
        split <;> omega
  | false =>
      simp only [Bool.false_eq_true, if_false]
      obtain ⟨c1, c2, c3⟩ := unified_counts ctx S tp k h
      have h2 := applyFilter_unified_replay so ctx S tp k h
      refine ⟨trivial, h2, ?_, ?_, ?_⟩
      · rw [c1]
        omega
      · rw [c2]
      · rw [c3]
        omega

theorem applyFilter_idempotent_witness :
    pristineRoom ctxW sectionW [0] 1 = true
    ∧ cloneClean [0] 1 sectionW = true
    ∧ ((applyFilter true false (plugCtx ctxW sectionW)).2 = false
      ∧ applyFilter true false ((applyFilter true false (plugCtx ctxW sectionW)).1)
          = ((applyFilter true false (plugCtx ctxW sectionW)).1, false)
      ∧ countP ssIdSel ((applyFilter true false (plugCtx ctxW sectionW)).1) ≤ 1
      ∧ countP toggleSel ((applyFilter true false (plugCtx ctxW sectionW)).1) ≤ 1
      ∧ countP noAwakeSel ((applyFilter true false (plugCtx ctxW sectionW)).1) ≤ 1) :=
  ⟨by decide, by decide,
    applyFilter_idempotent true false ctxW sectionW [0] 1 (by decide) (by decide)⟩

/-- C4: running the orchestrator with `splitEnabled = false` on the result of
a split pass over a pristine room removes the injected sleepers section
entirely and removes the hidden marker from every previously hidden main-list
and exit-thumbnail entry: the result is exactly the original document with
only the toggle control added, no node carries `msf-hidden-char`, no sleepers
section remains, and nothing is thrown. -/
theorem applyFilter_disable_split_cleans (so so' : Bool) (ctx : List CtxLayer) (S : Elem)
    (tp : List Nat) (k : Nat) (h : pristineRoom ctx S tp k = true) :
    applyFilter false so' ((applyFilter true so (plugCtx ctx S)).1)
      = (plugCtx ctx (togSectionOf true tp k S), false)
    ∧ countP ssIdSel (applyFilter false so'
        ((applyFilter true so (plugCtx ctx S)).1)).1 = 0
    ∧ countP hidSel (applyFilter false so'
        ((applyFilter true so (plugCtx ctx S)).1)).1 = 0 := by
  have hrun := applyFilter_run true so ctx S tp k h
  simp only [if_true] at hrun
  have hfst : (applyFilter true so (plugCtx ctx S)).1 = splitDocOf so ctx tp k S := by
    rw [hrun]
  have h2 := applyFilter_after_split false so so' ctx S tp k h
  simp only [Bool.false_eq_true, if_false] at h2
  obtain ⟨c1, c2⟩ := disabled_doc_clean so ctx S tp k h
  rw [hfst, h2]
  exact ⟨rfl, c1, c2⟩

theorem applyFilter_disable_split_cleans_witness :
    pristineRoom ctxW sectionW [0] 1 = true
    ∧ (applyFilter false true ((applyFilter true false (plugCtx ctxW sectionW)).1)
        = (plugCtx ctxW (togSectionOf true [0] 1 sectionW), false)
      ∧ countP ssIdSel (applyFilter false true
          ((applyFilter true false (plugCtx ctxW sectionW)).1)).1 = 0
      ∧ countP hidSel (applyFilter false true
          ((applyFilter true false (plugCtx ctxW sectionW)).1)).1 = 0) :=
  ⟨by decide,
    applyFilter_disable_split_cleans false true ctxW sectionW [0] 1 (by decide)⟩

/-- C7: in split state, exactly one "no one awake" placeholder is present
after the pass when the classified awake set of the (toggled) section is
empty and the set of main-list entries is non-empty, and none otherwise; in
particular an empty room gets no placeholder. -/
theorem applyFilter_placeholder_iff (so : Bool) (ctx : List CtxLayer) (S : Elem)
    (tp : List Nat) (k : Nat) (h : pristineRoom ctx S tp k = true)
    (hcc : cloneClean tp k S = true) :
    countP noAwakeSel ((applyFilter true so (plugCtx ctx S)).1)
      = (if awakeCount (togSectionOf true tp k S) == 0
          && !(getCharElements (togSectionOf true tp k S)).isEmpty then 1 else 0) := by
  have hrun := applyFilter_run true so ctx S tp k h
  simp only [if_true] at hrun
  have hfst : (applyFilter true so (plugCtx ctx S)).1 = splitDocOf so ctx tp k S := by
    rw [hrun]
  rw [hfst]
  exact (splitDoc_counts so ctx S tp k h hcc).2.2

theorem applyFilter_placeholder_iff_witness :
    pristineRoom ctxW sectionW [0] 1 = true
    ∧ cloneClean [0] 1 sectionW = true
    ∧ countP noAwakeSel ((applyFilter true false (plugCtx ctxW sectionW)).1)
        = (if awakeCount (togSectionOf true [0] 1 sectionW) == 0
            && !(getCharElements (togSectionOf true [0] 1 sectionW)).isEmpty
           then 1 else 0) :=
  ⟨by decide, by decide,
    applyFilter_placeholder_iff false ctxW sectionW [0] 1 (by decide) (by decide)⟩
